import Mathlib

/-!
# Verification development for the `verbosity` client library

Shallow embedding of the bot-protocol helpers (`bot.go`, `client.go`), of the
transport (`request.go`) and of the accessors (`user.go`, `chat.go`, `org.go`,
`message.go`), followed by the theorems about them.

Modelling conventions
* A Go `string` is an immutable byte sequence: `GoString := List UInt8`.
  `len(s)` is `s.length`, `s[:n]` is `s.take n`, `s[n:]` is `s.drop n`.
* The text of an inbound message is only ever inspected through its first byte
  and through `for _, c := range text`; it is carried as the rune sequence that
  `range` yields (`List Char`).
* The `error` result of `VerifySignature` is `Option String` (`none` is `nil`).
  Everywhere else an error is its message, a `GoError`, since the messages embed
  ids, names and response bodies; a result `(value, error)` is an `Except`.
* Library primitives that are not part of the repository (`math/big`,
  `encoding/base64`, `net/url`, `strconv`, `strings`) are transcribed from the Go
  standard library; HMAC-SHA256 is taken as a parameter.
* The HTTP exchange and `encoding/json` are the environment `Env`; an operation
  that talks to the server takes the log of the requests issued so far and
  returns it extended by the requests it issued.
* For the message shapes the mapping between a struct and its JSON object is
  written out from the struct tags; the text of a JSON document, its parsing,
  `mime/multipart`, `os.Open` and `strconv.Quote` are the environment `Codec`.
-/

namespace Verbosity

/-! ## Go strings -/

/-- A Go string: a sequence of bytes. -/
abbrev GoString := List UInt8

/-- Bytes of an ASCII literal. -/
def ascii (s : String) : GoString := s.toList.map (fun c => c.toNat.toUInt8)

/-! ## `math/big`: `(*Int).SetString` and `(*Int).Bytes` -/

/-- Largest base accepted by `nat.scan` (`big.MaxBase`). -/
def MaxBase : Nat := 62

/-- Digit value of a byte as computed in the loop of `nat.scan` for a base of at
most 36 (upper-case letters then stand for the same values as lower-case ones);
a byte that is no digit gets `MaxBase + 1`. -/
def digitVal (ch : UInt8) : Nat :=
  if 0x30 ≤ ch ∧ ch ≤ 0x39 then (ch - 0x30).toNat
  else if 0x61 ≤ ch ∧ ch ≤ 0x7a then (ch - 0x61).toNat + 10
  else if 0x41 ≤ ch ∧ ch ≤ 0x5a then (ch - 0x41).toNat + 10
  else MaxBase + 1

/-- The digit loop of `nat.scan` for an explicit base (no prefix, no `_`
separators, no fraction): consumes digits below `base`, returning the value, the
number of digits read and the unread rest. -/
def natScan (base : Nat) : GoString → Nat → Nat → Nat × Nat × GoString
  | [], acc, count => (acc, count, [])
  | ch :: rest, acc, count =>
    if base ≤ digitVal ch then (acc, count, ch :: rest)
    else natScan base rest (acc * base + digitVal ch) (count + 1)

/-- Sign scanner `scanSign`: reading from an empty input is an error. -/
def scanSign : GoString → Option (Bool × GoString)
  | [] => none
  | ch :: rest =>
    if ch = 0x2d then some (true, rest)
    else if ch = 0x2b then some (false, rest)
    else some (false, ch :: rest)

/-- Model of `new(big.Int).SetString(s, base)` for an explicit base between 2 and
36: an optional sign, then at least one digit, and the whole input consumed. -/
def SetString (s : GoString) (base : Nat) : Option Int :=
  match scanSign s with
  | none => none
  | some (neg, r) =>
    match natScan base r 0 0 with
    | (abs, count, rest) =>
      if count = 0 then none
      else if rest ≠ [] then none
      else some (if neg then -(abs : Int) else (abs : Int))

/-- Big-endian base-256 digits of a natural number, most significant first,
without leading zero bytes. -/
def bytesAux : Nat → Nat → List UInt8 → List UInt8
  | 0, _, acc => acc
  | fuel + 1, n, acc =>
    if n = 0 then acc else bytesAux fuel (n / 256) ((n % 256).toUInt8 :: acc)

/-- Model of `(*big.Int).Bytes`: the absolute value as a big-endian byte slice. -/
def bigBytes (x : Int) : List UInt8 := bytesAux x.natAbs x.natAbs []

/-! ## `encoding/base64`: `StdEncoding.EncodeToString` -/

/-- The standard base64 alphabet. -/
def encodeStd : GoString :=
  ascii "ABCDEFGHIJKLMNOPQRSTUVWXYZabcdefghijklmnopqrstuvwxyz0123456789+/"

/-- Alphabet lookup. -/
def b64 (n : Nat) : UInt8 := encodeStd.getD (n % 64) 0x3d

/-- Model of `base64.StdEncoding.EncodeToString` (padding character `=`). -/
def base64Encode : List UInt8 → GoString
  | [] => []
  | [a] =>
    let v := a.toNat * 65536
    [b64 (v / 262144), b64 (v / 4096), 0x3d, 0x3d]
  | [a, b] =>
    let v := a.toNat * 65536 + b.toNat * 256
    [b64 (v / 262144), b64 (v / 4096), b64 (v / 64), 0x3d]
  | a :: b :: c :: rest =>
    let v := a.toNat * 65536 + b.toNat * 256 + c.toNat
    b64 (v / 262144) :: b64 (v / 4096) :: b64 (v / 64) :: b64 v :: base64Encode rest

/-! ## `client.go` -/

/-- Configuration of the client (`Config`). -/
structure Config where
  APIURL : GoString
  FileURL : GoString
  APIToken : GoString
  deriving DecidableEq, Repr

/-- The API client (`Client`); the HTTP handle plays no part here. -/
structure Client where
  config : Config
  deriving DecidableEq, Repr

/-- `NewClient`. -/
def NewClient (config : Config) : Client := ⟨config⟩

/-- `Client.APIToken`. -/
def Client.APIToken (c : Client) : GoString := c.config.APIToken

/-- `Client.BotToken`: the token without its first 20 bytes. -/
def Client.BotToken (c : Client) : GoString :=
  if c.config.APIToken.length ≤ 20 then []
  else c.config.APIToken.drop 20

/-! ## `bot.go`: signature verification -/

/-- `Client.VerifySignature`, with HMAC-SHA256 (key, message ↦ digest) as a
parameter. -/
def Client.VerifySignature (hmacSHA256 : List UInt8 → List UInt8 → List UInt8)
    (c : Client) (body signature : GoString) : Bool × Option String :=
  if c.config.APIToken.length < 20 then
    (false, some "API token is too short")
  else
    match SetString (c.config.APIToken.take 20) 16 with
    | none => (false, some "failed to parse API token key")
    | some bkey =>
      let expected := base64Encode (hmacSHA256 (bigBytes bkey) body)
      (decide (signature = expected), none)

/-! ## `net/url`: `PathEscape` -/

/-- Model of `shouldEscape(c, encodePathSegment)`: unreserved characters are kept;
of the reserved characters only `/`, `;`, `,` and `?` are escaped, the others
(`$ & + : = @`) are kept; every other byte is escaped. -/
def shouldEscape (c : UInt8) : Bool :=
  if (0x61 ≤ c ∧ c ≤ 0x7a) ∨ (0x41 ≤ c ∧ c ≤ 0x5a) ∨ (0x30 ≤ c ∧ c ≤ 0x39) then false
  else if c = 0x2d ∨ c = 0x5f ∨ c = 0x2e ∨ c = 0x7e then false
  else if c = 0x24 ∨ c = 0x26 ∨ c = 0x2b ∨ c = 0x2c ∨ c = 0x2f ∨ c = 0x3a ∨ c = 0x3b
      ∨ c = 0x3d ∨ c = 0x3f ∨ c = 0x40 then
    decide (c = 0x2f ∨ c = 0x3b ∨ c = 0x2c ∨ c = 0x3f)
  else true

/-- Upper-case hexadecimal digits (`upperhex`). -/
def upperhex : GoString := ascii "0123456789ABCDEF"

/-- One byte of the output of `escape`. -/
def escapeByte (c : UInt8) : GoString :=
  if shouldEscape c then
    [0x25, upperhex.getD (c.toNat / 16) 0, upperhex.getD (c.toNat % 16) 0]
  else [c]

/-- Model of `url.PathEscape`. -/
def PathEscape (s : GoString) : GoString := s.flatMap escapeByte

/-! ## `bot.go`: action URLs -/

/-- One step of the loop of `CreateActionURL`:
`result += fmt.Sprintf("&%s=%s", encodedKey, encodedValue)`. -/
def appendParam (result : GoString) (kv : GoString × GoString) : GoString :=
  result ++ (ascii "&" ++ PathEscape kv.1 ++ ascii "=" ++ PathEscape kv.2)

/-- `CreateActionURL`. The mapping is given as the sequence `params` of entries in
the order in which `for key, value := range params` visits them (a nil or empty
mapping is the empty sequence). -/
def CreateActionURL (action title : GoString) (params : List (GoString × GoString)) :
    GoString :=
  params.foldl appendParam
    (ascii "bot://" ++ PathEscape action ++ ascii "?title=" ++ PathEscape title)

/-! ## `bot.go`: inbound requests -/

/-- A parsed text block (`TextBlock`); `BlockType` is the Go field `Type`. -/
structure TextBlock where
  BlockType : GoString
  Value : GoString
  deriving DecidableEq, Repr

/-- An inbound bot request (`BotRequest`). Pointer fields are options. -/
structure BotRequest where
  UserID : Int
  UserUniqueName : Option GoString
  PostNo : Int
  ChatID : Int
  OrganizationID : Option Int
  Text : List Char
  TextParsed : List TextBlock
  ReplyNo : Option Int
  ReplyText : Option GoString
  FileGUID : Option GoString
  FileName : Option GoString
  Attachments : List GoString
  deriving DecidableEq, Repr

/-- `BotRequest.IsCommand`: `len(r.Text) > 0 && r.Text[0] == '/'`. The first byte
of a string is `/` exactly when its first rune is. -/
def BotRequest.IsCommand (r : BotRequest) : Bool :=
  decide (0 < r.Text.length) && (r.Text.head? == some '/')

/-- State of the loop of `splitCommand`: `result`, `current`, `inWord`. -/
structure SplitState where
  result : List (List Char)
  current : List Char
  inWord : Bool
  deriving DecidableEq, Repr

/-- Body of the loop of `splitCommand` for one rune `c`. -/
def splitStep (st : SplitState) (c : Char) : SplitState :=
  if c = ' ' ∨ c = '\n' ∨ c = '\t' then
    if st.inWord then ⟨st.result ++ [st.current], [], false⟩
    else st
  else ⟨st.result, st.current ++ [c], true⟩

/-- `splitCommand`. -/
def splitCommand (text : List Char) : List (List Char) :=
  let st := text.foldl splitStep ⟨[], [], false⟩
  if st.inWord then st.result ++ [st.current] else st.result

/-- `BotRequest.GetCommand`. -/
def BotRequest.GetCommand (r : BotRequest) : List Char × List (List Char) :=
  if !r.IsCommand then ([], [])
  else
    match splitCommand r.Text with
    | [] => ([], [])
    | cmd :: args => (cmd, args)

/-- `BotRequest.MessageIsEmpty`. -/
def BotRequest.MessageIsEmpty (r : BotRequest) : Bool :=
  decide (r.Text = []) && r.FileGUID.isNone && decide (r.Attachments.length = 0)

/-- `BotRequest.HasFile`. -/
def BotRequest.HasFile (r : BotRequest) : Bool := r.FileGUID.isSome

/-- `BotRequest.HasReply`. -/
def BotRequest.HasReply (r : BotRequest) : Bool := r.ReplyNo.isSome

/-! ## `types.go`: chats and organizations -/

/-- A chat (`Chat`), with the fields the accessors read; the remaining fields of
the Go struct are carried along unchanged by every accessor. -/
structure Chat where
  ID : Int
  Title : GoString
  OrganizationID : Option Int
  ReadOnly : Bool
  PostsCount : Int
  PM : Bool
  IsFavorite : Bool
  MemberIDs : List Int
  AdminIDs : List Int
  deriving DecidableEq, Repr

/-- An organization (`Org`), with the fields the accessors read. -/
structure Org where
  ID : Int
  Slug : GoString
  Title : GoString
  EmailDomain : GoString
  DefaultChatID : Int
  IsMember : Bool
  IsAdmin : Bool
  State : GoString
  Guests : List Int
  Users : List Int
  Admins : List Int
  Groups : List Int
  deriving DecidableEq, Repr

/-! ## `chat.go`, `org.go`: top-N accessors -/

section Sorting
variable {α : Type}

/-- Body of the inner loop of the three top-N accessors for the indexes `i`, `j`:
`if key(a[j]) > key(a[i]) { a[i], a[j] = a[j], a[i] }`. -/
def sortInner (key : α → Int) (i : Nat) (a : List α) (j : Nat) : List α :=
  match a[i]?, a[j]? with
  | some x, some y => if key y > key x then (a.set i y).set j x else a
  | _, _ => a

/-- Inner loop `for j := i + 1; j < len(a); j++`. -/
def sortPass (key : α → Int) (a : List α) (i : Nat) : List α :=
  (List.range' (i + 1) (a.length - (i + 1))).foldl (sortInner key i) a

/-- Outer loop `for i := 0; i < len(a)-1; i++`. -/
def sortDesc (key : α → Int) (a : List α) : List α :=
  (List.range (a.length - 1)).foldl (sortPass key) a

/-- Tail of the three top-N accessors: truncate to `limit` when
`limit > 0 && limit < len(a)`, else return the whole slice. -/
def truncate (limit : Int) (a : List α) : List α :=
  if 0 < limit ∧ limit < (a.length : Int) then a.take limit.toNat else a

end Sorting

/-- `Client.GetTopChatsByMembers`; `fetched` is the outcome of `c.GetAllChats()`. -/
def GetTopChatsByMembers (fetched : Except String (List Chat)) (limit : Int) :
    Except String (List Chat) :=
  match fetched with
  | .error err => .error err
  | .ok chats =>
    .ok (truncate limit (sortDesc (fun c => (c.MemberIDs.length : Int)) chats))

/-- `Client.GetTopChatsByPosts`; `fetched` is the outcome of `c.GetAllChats()`. -/
def GetTopChatsByPosts (fetched : Except String (List Chat)) (limit : Int) :
    Except String (List Chat) :=
  match fetched with
  | .error err => .error err
  | .ok chats => .ok (truncate limit (sortDesc (fun c => c.PostsCount) chats))

/-- `Client.GetTopOrgsByUsers`; `fetched` is the outcome of
`c.GetAllOrganizations()`. -/
def GetTopOrgsByUsers (fetched : Except String (List Org)) (limit : Int) :
    Except String (List Org) :=
  match fetched with
  | .error err => .error err
  | .ok orgs => .ok (truncate limit (sortDesc (fun o => (o.Users.length : Int)) orgs))

/-! ## `strconv`, `strings`, `net/url`: formatting, joining, searching, query escaping -/

/-- A Go error value, by its message (`err.Error()`). -/
abbrev GoError := GoString

/-- Decimal digits of a natural number, most significant first. -/
def digitsAux : Nat → Nat → List UInt8 → List UInt8
  | 0, _, acc => acc
  | fuel + 1, n, acc =>
    if n < 10 then (0x30 + n).toUInt8 :: acc
    else digitsAux fuel (n / 10) ((0x30 + n % 10).toUInt8 :: acc)

/-- Model of `strconv.FormatInt(i, 10)` and of the verb `%d`. -/
def FormatInt (i : Int) : GoString :=
  if i < 0 then 0x2d :: digitsAux (i.natAbs + 1) i.natAbs []
  else digitsAux (i.natAbs + 1) i.natAbs []

/-- Model of `strings.Join(elems, sep)`. -/
def stringsJoin : List GoString → GoString → GoString
  | [], _ => []
  | [a], _ => a
  | a :: b :: rest, sep => a ++ sep ++ stringsJoin (b :: rest) sep

/-- Model of `strings.HasPrefix(s, prefix)`. -/
def stringsHasPrefix : GoString → GoString → Bool
  | _, [] => true
  | [], _ :: _ => false
  | a :: s, b :: p => a == b && stringsHasPrefix s p

/-- Model of `strings.Contains(s, substr)`: `substr` occurs at some offset of
`s`. -/
def stringsContains : GoString → GoString → Bool
  | [], substr => stringsHasPrefix [] substr
  | a :: s, substr => stringsHasPrefix (a :: s) substr || stringsContains s substr

/-- Model of `shouldEscape(c, encodeQueryComponent)`: only the unreserved
characters are kept. -/
def shouldEscapeQuery (c : UInt8) : Bool :=
  if (0x61 ≤ c ∧ c ≤ 0x7a) ∨ (0x41 ≤ c ∧ c ≤ 0x5a) ∨ (0x30 ≤ c ∧ c ≤ 0x39) then false
  else if c = 0x2d ∨ c = 0x5f ∨ c = 0x2e ∨ c = 0x7e then false
  else true

/-- One byte of the output of `escape(s, encodeQueryComponent)`: a space becomes
`+`, any other escaped byte becomes `%XX`. -/
def queryEscapeByte (c : UInt8) : GoString :=
  if shouldEscapeQuery c then
    if c = 0x20 then [0x2b]
    else [0x25, upperhex.getD (c.toNat / 16) 0, upperhex.getD (c.toNat % 16) 0]
  else [c]

/-- Model of `url.QueryEscape`. -/
def QueryEscape (s : GoString) : GoString := s.flatMap queryEscapeByte

/-- Byte-wise order of Go strings (`<` on `string`). -/
def stringLess : GoString → GoString → Bool
  | [], [] => false
  | [], _ :: _ => true
  | _ :: _, [] => false
  | a :: s, b :: t => decide (a < b) || (a == b && stringLess s t)

/-- Insertion of an entry into a key-sorted list of entries. -/
def insertByKey (e : GoString × List GoString) :
    List (GoString × List GoString) → List (GoString × List GoString)
  | [] => [e]
  | f :: rest => if stringLess f.1 e.1 then f :: insertByKey e rest else e :: f :: rest

/-- A `url.Values` mapping, by its entries. -/
abbrev Values := List (GoString × List GoString)

/-- Text `key=value` of every value of one key, for `Values.Encode`. -/
def encodeEntry (e : GoString × List GoString) : List GoString :=
  e.2.map (fun v => QueryEscape e.1 ++ ascii "=" ++ QueryEscape v)

/-- Model of `url.Values.Encode`: the keys in sorted order, every value of a key
as `key=value` with both sides query-escaped, joined by `&`. -/
def Values.Encode (v : Values) : GoString :=
  stringsJoin ((v.foldr insertByKey []).flatMap encodeEntry) (ascii "&")

/-! ## `types.go`: users and envelopes -/

/-- A user (`User`), with the fields the accessors read. -/
structure User where
  ID : Int
  Name : GoString
  UniqueName : GoString
  Deleted : Bool
  Active : Bool
  IsBot : Bool
  Organizations : List Int
  deriving DecidableEq, Repr

/-- `MessageResponse`. -/
structure MessageResponse where
  PostNo : Int
  deriving DecidableEq, Repr

/-- `ErrorResponse`: the `{code, message}` envelope. -/
structure ErrorResponse where
  Code : GoString
  Message : GoString
  deriving DecidableEq, Repr

/-- `ValidationErrorResponse`: the validation envelope; `Error` is its free-text
message and `TamtamResponseAPI` its boolean discriminator. -/
structure ValidationErrorResponse where
  TamtamResponseAPI : Bool
  Codes : List (GoString × GoString)
  FieldErrors : List (GoString × GoString)
  Error : GoString
  deriving DecidableEq, Repr

/-- `SendMessageRequest`; `TextParsed` is never set by the client. -/
structure SendMessageRequest where
  Key : GoString
  ChatID : Int
  Text : GoString
  ReplyNo : Option Int
  deriving DecidableEq, Repr

/-! ## `request.go`: transport -/

/-- An HTTP request as built by `newRequest`: method, URL text, the headers in
the order they were set, and the body if there is one. -/
structure Request where
  Method : GoString
  URL : GoString
  Header : List (GoString × GoString)
  Body : Option GoString
  deriving DecidableEq, Repr

/-- What `c.httpClient.Do(req)` followed by `io.ReadAll(resp.Body)` produces. -/
inductive HTTPResult where
  | doError (msg : GoError)
  | readError (msg : GoError)
  | response (status : Int) (body : GoString)
  deriving DecidableEq, Repr

/-- The world outside the repository: the validity check of `http.NewRequest`
(`none` when the request can be built), the server (its answer may depend on the
requests issued before), and `encoding/json` for the shapes the client uses. A
JSON decoder returns either the decoded value or the message of the decoding
error. -/
structure Env where
  newRequestError : GoString → GoString → Option GoError
  roundTrip : List Request → Request → HTTPResult
  unmarshalError : GoString → Option ErrorResponse
  unmarshalValidation : GoString → Option ValidationErrorResponse
  unmarshalUsers : GoString → Except GoError (List User)
  unmarshalChats : GoString → Except GoError (List Chat)
  unmarshalOrgs : GoString → Except GoError (List Org)
  unmarshalChatSync : GoString → Except GoError (List Int)
  unmarshalOrgSync : GoString → Except GoError (List Int)
  unmarshalMessage : GoString → Except GoError MessageResponse

/-- Result of an operation of the client together with the log of the requests
handed to the HTTP client so far, oldest first. -/
abbrev Outcome (α : Type) := Except GoError α × List Request

/-- `Client.newRequest`. -/
def Client.newRequest (env : Env) (c : Client) (method path : GoString)
    (params : Values) (body : Option GoString) : Except GoError Request :=
  let requestURL := c.config.APIURL ++ path
  let requestURL :=
    if 0 < params.length then requestURL ++ (ascii "?" ++ Values.Encode params)
    else requestURL
  match env.newRequestError method requestURL with
  | some err => .error (ascii "failed to create request: " ++ err)
  | none =>
    .ok { Method := method, URL := requestURL,
          Header := [(ascii "X-APIToken", c.config.APIToken),
                     (ascii "Accept", ascii "application/json")],
          Body := body }

/-- `Client.handleError`. A condition `err == nil && p(resp)` on a decoding is the
decoded value filtered by `p`. -/
def Client.handleError (env : Env) (statusCode : Int) (body : GoString) : GoError :=
  match (env.unmarshalError body).filter (fun r => decide (r.Code ≠ [])) with
  | some errorResp =>
    ascii "API error (code=" ++ errorResp.Code ++ ascii "): " ++ errorResp.Message ++
      ascii " (status=" ++ FormatInt statusCode ++ ascii ")"
  | none =>
    match (env.unmarshalValidation body).filter (fun r => r.TamtamResponseAPI) with
    | some validationResp =>
      ascii "validation error: " ++ validationResp.Error ++
        ascii " (status=" ++ FormatInt statusCode ++ ascii ")"
    | none =>
      ascii "API request failed with status " ++ FormatInt statusCode ++ ascii ": " ++ body

/-- The part of `Client.do` that follows a successful status and a failed
decoding of the body into the target: the two error envelopes are tried before
the decoding error `err` is reported. -/
def decodeFailure (env : Env) (body : GoString) (err : GoError) : GoError :=
  match (env.unmarshalError body).filter (fun r => decide (r.Code ≠ [])) with
  | some errorResp =>
    ascii "API error: " ++ errorResp.Code ++ ascii " - " ++ errorResp.Message
  | none =>
    match (env.unmarshalValidation body).filter (fun r => r.TamtamResponseAPI) with
    | some validationResp => ascii "validation error: " ++ validationResp.Error
    | none => ascii "failed to parse response: " ++ err

/-- `Client.do` for a non-nil target `v`, whose JSON decoder is `unmarshal`. The
request is appended to the log when it is handed to the HTTP client. -/
def Client.do {α : Type} (env : Env) (log : List Request) (req : Request)
    (unmarshal : GoString → Except GoError α) : Outcome α :=
  match env.roundTrip log req with
  | .doError err => (.error (ascii "request failed: " ++ err), log ++ [req])
  | .readError err => (.error (ascii "failed to read response body: " ++ err), log ++ [req])
  | .response status body =>
    if status < 200 ∨ status > 299 then
      (.error (Client.handleError env status body), log ++ [req])
    else
      match unmarshal body with
      | .error err => (.error (decodeFailure env body err), log ++ [req])
      | .ok v => (.ok v, log ++ [req])

/-- `IsAccessDeniedError`. -/
def IsAccessDeniedError (err : Option GoError) : Bool :=
  match err with
  | none => false
  | some msg => stringsContains msg (ascii "access_deny")

/-- `IsValidationError`. -/
def IsValidationError (err : Option GoError) : Bool :=
  match err with
  | none => false
  | some msg =>
    stringsContains msg (ascii "validation error") ||
      stringsContains msg (ascii "tamtam_response_api")

/-- `IsNotFoundError`. -/
def IsNotFoundError (err : Option GoError) : Bool :=
  match err with
  | none => false
  | some msg => stringsContains msg (ascii "not found")

/-! ## `user.go`, `chat.go`, `org.go`: batch and single fetches -/

/-- The loop `idStrings[i] = strconv.FormatInt(id, 10)` followed by
`strings.Join(idStrings, ",")`. -/
def joinIDs (ids : List Int) : GoString :=
  stringsJoin (ids.map FormatInt) (ascii ",")

/-- Tail shared by the fetches: build the request with `newRequest`, run it with
`do`, return the decoded response. -/
def Client.fetch {α : Type} (env : Env) (c : Client) (method path : GoString)
    (params : Values) (body : Option GoString)
    (unmarshal : GoString → Except GoError α) (log : List Request) : Outcome α :=
  match c.newRequest env method path params body with
  | .error err => (.error err, log)
  | .ok req => Client.do env log req unmarshal

/-- `Client.GetUsersByIDs`. -/
def Client.GetUsersByIDs (env : Env) (c : Client) (ids : List Int)
    (log : List Request) : Outcome (List User) :=
  if ids.length = 0 then (.error (ascii "ids slice cannot be empty"), log)
  else
    c.fetch env (ascii "GET") (ascii "/core/user") [(ascii "ids", [joinIDs ids])] none
      env.unmarshalUsers log

/-- `Client.GetUsersByUniqueNames`. -/
def Client.GetUsersByUniqueNames (env : Env) (c : Client) (names : List GoString)
    (log : List Request) : Outcome (List User) :=
  if names.length = 0 then (.error (ascii "unique names slice cannot be empty"), log)
  else
    c.fetch env (ascii "GET") (ascii "/core/user")
      [(ascii "unames", [stringsJoin names (ascii ",")])] none env.unmarshalUsers log

/-- `Client.GetUserByID`. -/
def Client.GetUserByID (env : Env) (c : Client) (id : Int) (log : List Request) :
    Outcome User :=
  match c.GetUsersByIDs env [id] log with
  | (.error err, log) => (.error err, log)
  | (.ok users, log) =>
    match users with
    | [] => (.error (ascii "user with id " ++ FormatInt id ++ ascii " not found"), log)
    | u :: _ => (.ok u, log)

/-- `Client.GetUserByUniqueName`. -/
def Client.GetUserByUniqueName (env : Env) (c : Client) (name : GoString)
    (log : List Request) : Outcome User :=
  match c.GetUsersByUniqueNames env [name] log with
  | (.error err, log) => (.error err, log)
  | (.ok users, log) =>
    match users with
    | [] => (.error (ascii "user with unique_name " ++ name ++ ascii " not found"), log)
    | u :: _ => (.ok u, log)

/-- `Client.GetChatIDs`. -/
def Client.GetChatIDs (env : Env) (c : Client) (log : List Request) :
    Outcome (List Int) :=
  c.fetch env (ascii "GET") (ascii "/core/chat/sync") [] none env.unmarshalChatSync log

/-- `Client.GetChatsByIDs`. -/
def Client.GetChatsByIDs (env : Env) (c : Client) (ids : List Int)
    (log : List Request) : Outcome (List Chat) :=
  if ids.length = 0 then (.error (ascii "ids slice cannot be empty"), log)
  else
    c.fetch env (ascii "GET") (ascii "/core/chat") [(ascii "ids", [joinIDs ids])] none
      env.unmarshalChats log

/-- `Client.GetChatByID`. -/
def Client.GetChatByID (env : Env) (c : Client) (id : Int) (log : List Request) :
    Outcome Chat :=
  match c.GetChatsByIDs env [id] log with
  | (.error err, log) => (.error err, log)
  | (.ok chats, log) =>
    match chats with
    | [] => (.error (ascii "chat with id " ++ FormatInt id ++ ascii " not found"), log)
    | ch :: _ => (.ok ch, log)

/-- `Client.GetAllChats`. -/
def Client.GetAllChats (env : Env) (c : Client) (log : List Request) :
    Outcome (List Chat) :=
  match c.GetChatIDs env log with
  | (.error err, log) => (.error err, log)
  | (.ok syncChats, log) =>
    if syncChats.length = 0 then (.ok [], log)
    else c.GetChatsByIDs env syncChats log

/-- `Client.GetOrganizationIDs`. -/
def Client.GetOrganizationIDs (env : Env) (c : Client) (log : List Request) :
    Outcome (List Int) :=
  c.fetch env (ascii "GET") (ascii "/core/org/sync") [] none env.unmarshalOrgSync log

/-- `Client.GetOrganizationsByIDs`. -/
def Client.GetOrganizationsByIDs (env : Env) (c : Client) (ids : List Int)
    (log : List Request) : Outcome (List Org) :=
  if ids.length = 0 then (.error (ascii "ids slice cannot be empty"), log)
  else
    c.fetch env (ascii "GET") (ascii "/core/org") [(ascii "ids", [joinIDs ids])] none
      env.unmarshalOrgs log

/-- `Client.GetOrganizationByID`. -/
def Client.GetOrganizationByID (env : Env) (c : Client) (id : Int)
    (log : List Request) : Outcome Org :=
  match c.GetOrganizationsByIDs env [id] log with
  | (.error err, log) => (.error err, log)
  | (.ok orgs, log) =>
    match orgs with
    | [] =>
      (.error (ascii "organization with id " ++ FormatInt id ++ ascii " not found"), log)
    | o :: _ => (.ok o, log)

/-- `Client.GetAllOrganizations`. -/
def Client.GetAllOrganizations (env : Env) (c : Client) (log : List Request) :
    Outcome (List Org) :=
  match c.GetOrganizationIDs env log with
  | (.error err, log) => (.error err, log)
  | (.ok syncIDs, log) =>
    if syncIDs.length = 0 then (.ok [], log)
    else c.GetOrganizationsByIDs env syncIDs log

/-! ## `chat.go`, `org.go`: derived views -/

/-- The loop `for i := range xs { if keep(xs[i]) { out = append(out, xs[i]) } }`
shared by the derived views. -/
def appendWhere {α : Type} (keep : α → Bool) (xs : List α) : List α :=
  xs.foldl (fun out x => if keep x then out ++ [x] else out) []

/-- The inner loop of `UserChats` and `GetMyChats`: scan the member ids and stop
at the first one equal to `userID`; tells whether the chat is appended. -/
def scanMembers (userID : Int) : List Int → Bool
  | [] => false
  | memberID :: rest => if memberID = userID then true else scanMembers userID rest

/-- `Client.GetFavoriteChats`. -/
def Client.GetFavoriteChats (env : Env) (c : Client) (log : List Request) :
    Outcome (List Chat) :=
  match c.GetAllChats env log with
  | (.error err, log) => (.error err, log)
  | (.ok chats, log) => (.ok (appendWhere (fun ch => ch.IsFavorite) chats), log)

/-- `Client.GetPublicChats`. -/
def Client.GetPublicChats (env : Env) (c : Client) (log : List Request) :
    Outcome (List Chat) :=
  match c.GetAllChats env log with
  | (.error err, log) => (.error err, log)
  | (.ok chats, log) => (.ok (appendWhere (fun ch => !ch.PM) chats), log)

/-- `Client.GetPrivateChats`. -/
def Client.GetPrivateChats (env : Env) (c : Client) (log : List Request) :
    Outcome (List Chat) :=
  match c.GetAllChats env log with
  | (.error err, log) => (.error err, log)
  | (.ok chats, log) => (.ok (appendWhere (fun ch => ch.PM) chats), log)

/-- `Client.UserChats`. -/
def Client.UserChats (env : Env) (c : Client) (userID : Int) (log : List Request) :
    Outcome (List Chat) :=
  match c.GetAllChats env log with
  | (.error err, log) => (.error err, log)
  | (.ok chats, log) =>
    (.ok (appendWhere (fun ch => scanMembers userID ch.MemberIDs) chats), log)

/-- `Client.GetMyOrganizations`. -/
def Client.GetMyOrganizations (env : Env) (c : Client) (log : List Request) :
    Outcome (List Org) :=
  match c.GetAllOrganizations env log with
  | (.error err, log) => (.error err, log)
  | (.ok orgs, log) => (.ok (appendWhere (fun o => o.IsMember) orgs), log)

/-- `Client.GetAdminOrganizations`. -/
def Client.GetAdminOrganizations (env : Env) (c : Client) (log : List Request) :
    Outcome (List Org) :=
  match c.GetAllOrganizations env log with
  | (.error err, log) => (.error err, log)
  | (.ok orgs, log) => (.ok (appendWhere (fun o => o.IsAdmin) orgs), log)

/-- `Client.GetOrganizationChats`: the test
`OrganizationID != nil && *OrganizationID == orgID`. -/
def Client.GetOrganizationChats (env : Env) (c : Client) (orgID : Int)
    (log : List Request) : Outcome (List Chat) :=
  match c.GetAllChats env log with
  | (.error err, log) => (.error err, log)
  | (.ok chats, log) =>
    (.ok (appendWhere (fun ch =>
      match ch.OrganizationID with
      | none => false
      | some o => decide (o = orgID)) chats), log)

/-- `Client.GetBotInfo`: returns the error below on every call and issues no
request. -/
def Client.GetBotInfo (_c : Client) : Except GoError User :=
  .error (ascii ("GetBotInfo requires special InfoBot API access. " ++
    "Use direct messaging with @infobot for bot management operations"))

/-- `Client.GetMyChats`. -/
def Client.GetMyChats (env : Env) (c : Client) (log : List Request) :
    Outcome (List Chat) :=
  match c.GetAllChats env log with
  | (.error err, log) => (.error err, log)
  | (.ok chats, log) =>
    match c.GetBotInfo with
    | .error err => (.error err, log)
    | .ok botUser =>
      (.ok (appendWhere (fun ch => scanMembers botUser.ID ch.MemberIDs) chats), log)

/-! ## `encoding/json` for the message shapes -/

/-- The values that occur as members of the JSON documents the message shapes
marshal to: `null`, booleans, numbers written without fraction or exponent (by
their value), strings and arrays of strings. -/
inductive JSONValue where
  | null
  | bool (b : Bool)
  | number (n : Int)
  | string (s : GoString)
  | strings (l : List GoString)
  deriving DecidableEq, Repr

/-- A JSON object: its members in document order. -/
abbrev JSONObject := List (GoString × JSONValue)

/-- Size of the valid UTF-8 encoding at the head of `s` (1 to 4), following the
tables of `utf8.DecodeRune`; 0 when the first byte starts no valid encoding
(`DecodeRune` then returns `RuneError` with size 1). -/
def utf8Width : GoString → Nat
  | [] => 0
  | b0 :: rest =>
    if b0 < 0x80 then 1
    else if b0 < 0xc2 then 0
    else if b0 < 0xe0 then
      match rest with
      | b1 :: _ => if 0x80 ≤ b1 ∧ b1 ≤ 0xbf then 2 else 0
      | [] => 0
    else if b0 < 0xf0 then
      match rest with
      | b1 :: b2 :: _ =>
        if (if b0 = 0xe0 then 0xa0 else 0x80) ≤ b1 ∧
            b1 ≤ (if b0 = 0xed then 0x9f else 0xbf) ∧ 0x80 ≤ b2 ∧ b2 ≤ 0xbf then 3
        else 0
      | _ => 0
    else if b0 < 0xf5 then
      match rest with
      | b1 :: b2 :: b3 :: _ =>
        if (if b0 = 0xf0 then 0x90 else 0x80) ≤ b1 ∧
            b1 ≤ (if b0 = 0xf4 then 0x8f else 0xbf) ∧ 0x80 ≤ b2 ∧ b2 ≤ 0xbf ∧
            0x80 ≤ b3 ∧ b3 ≤ 0xbf then 4
        else 0
      | _ => 0
    else 0

/-- The string a Go string comes back as after `json.Marshal` and
`json.Unmarshal`: every byte that starts no valid UTF-8 encoding is written as
the escape of U+FFFD and read back as the three bytes `EF BF BD`. The first argument counts
the bytes still to be copied of the encoding being copied. -/
def coerceUTF8 : Nat → GoString → GoString
  | _, [] => []
  | skip + 1, b :: rest => b :: coerceUTF8 skip rest
  | 0, b :: rest =>
    match utf8Width (b :: rest) with
    | 0 => 0xef :: 0xbf :: 0xbd :: coerceUTF8 0 rest
    | w + 1 => b :: coerceUTF8 w rest

/-- `utf8.AppendRune` onto the empty slice, for a rune given by its value as
`uint32`. The bit operations are written arithmetically: `t2 | byte(r>>6)` is
`0xC0 + r / 64`, `tx | byte(r)&maskx` is `0x80 + r % 64`, and so on. A surrogate
and a value above `MaxRune` are encoded as U+FFFD. -/
def AppendRune (r : Nat) : GoString :=
  if r ≤ 0x7f then [r.toUInt8]
  else if r ≤ 0x7ff then [(0xc0 + r / 64).toUInt8, (0x80 + r % 64).toUInt8]
  else if r > 0x10ffff ∨ (0xd800 ≤ r ∧ r ≤ 0xdfff) then [0xef, 0xbf, 0xbd]
  else if r ≤ 0xffff then
    [(0xe0 + r / 4096).toUInt8, (0x80 + r / 64 % 64).toUInt8, (0x80 + r % 64).toUInt8]
  else
    [(0xf0 + r / 262144).toUInt8, (0x80 + r / 4096 % 64).toUInt8,
      (0x80 + r / 64 % 64).toUInt8, (0x80 + r % 64).toUInt8]

/-- The conversion `string(runes)` of a rune slice: the encodings of the runes
one after the other. -/
def stringOfRunes : List Nat → GoString
  | [] => []
  | r :: rs => AppendRune r ++ stringOfRunes rs

/-- The JSON string value of a Go string. -/
def jsonString (s : GoString) : JSONValue := .string (coerceUTF8 0 s)

/-- The upper-case form of an ASCII letter; every other byte is left as it is. -/
def upperASCII (b : UInt8) : UInt8 := if 0x61 ≤ b ∧ b ≤ 0x7a then b - 0x20 else b

/-- Equality of an ASCII field name with a member name under simple case folding,
as `encoding/json` tests it: a letter matches in either case, `k` and `K` also
match the Kelvin sign U+212A (bytes `E2 84 AA`), `s` and `S` also match the long
s U+017F (bytes `C5 BF`), and every other byte matches itself only. -/
def equalFold : GoString → GoString → Bool
  | [], key => key.isEmpty
  | n :: name, key =>
    (match key with
      | k :: rest => upperASCII k == upperASCII n && equalFold name rest
      | [] => false) ||
    (upperASCII n == 0x4b && key.take 3 == [0xe2, 0x84, 0xaa] &&
      equalFold name (key.drop 3)) ||
    (upperASCII n == 0x53 && key.take 2 == [0xc5, 0xbf] && equalFold name (key.drop 2))

/-- The field a member name selects, by its index in the list of the field
names: the field with exactly that name or else the first field whose name
equals it under case folding; `none` for an unknown member, which is skipped. -/
def fieldIndex (names : List GoString) (key : GoString) : Option Nat :=
  match names.findIdx? (fun n => n == key) with
  | some i => some i
  | none => names.findIdx? (fun n => equalFold n key)

/-- `strconv.IntSize`: the width of `int` in bits, on a 64-bit platform. -/
def IntSize : Nat := 64

/-- Whether a JSON integer is a value of the signed integer type of `bits` bits:
`strconv.ParseInt` reports no range error and `reflect.Value.OverflowInt` is
false. -/
def fitsInt (bits : Nat) (n : Int) : Bool :=
  decide (-((2 ^ (bits - 1) : Nat) : Int) ≤ n ∧ n < ((2 ^ (bits - 1) : Nat) : Int))

/-- Decoding of a JSON object into a struct: the members are applied in document
order by `setField`, which ignores unknown keys; the error returned is the one
of the first member of the wrong kind. -/
def decodeObject {α : Type} (setField : α → GoString → JSONValue → Except GoError α) :
    JSONObject → α → Except GoError α
  | [], v => .ok v
  | (k, x) :: rest, v =>
    match setField v k x with
    | .error err => .error err
    | .ok v => decodeObject setField rest v

/-- The message of `json.UnmarshalTypeError` for a member of the wrong kind,
abbreviated to the field it names. -/
def typeError (key : GoString) : GoError :=
  ascii "json: cannot unmarshal value into Go struct field " ++ key

/-- A JSON member decoded into a `string` field holding `old`: `null` leaves the
field as it is. -/
def decodeString (k : GoString) (old : GoString) : JSONValue → Except GoError GoString
  | .string s => .ok s
  | .null => .ok old
  | .bool _ => .error (typeError k)
  | .number _ => .error (typeError k)
  | .strings _ => .error (typeError k)

/-- A JSON member decoded into an integer field of `bits` bits holding `old`: a
number that is no value of the type is an error. -/
def decodeInt (bits : Nat) (k : GoString) (old : Int) : JSONValue → Except GoError Int
  | .number n => if fitsInt bits n then .ok n else .error (typeError k)
  | .null => .ok old
  | .bool _ => .error (typeError k)
  | .string _ => .error (typeError k)
  | .strings _ => .error (typeError k)

/-- A JSON member decoded into a `*string` field: `null` makes it nil. -/
def decodeStringPtr (k : GoString) : JSONValue → Except GoError (Option GoString)
  | .string s => .ok (some s)
  | .null => .ok none
  | .bool _ => .error (typeError k)
  | .number _ => .error (typeError k)
  | .strings _ => .error (typeError k)

/-- A JSON member decoded into a `*bool` field. -/
def decodeBoolPtr (k : GoString) : JSONValue → Except GoError (Option Bool)
  | .bool b => .ok (some b)
  | .null => .ok none
  | .string _ => .error (typeError k)
  | .number _ => .error (typeError k)
  | .strings _ => .error (typeError k)

/-- A JSON member decoded into a pointer to an integer of `bits` bits (`*int64`,
`*int`). -/
def decodeIntPtr (bits : Nat) (k : GoString) : JSONValue → Except GoError (Option Int)
  | .number n => if fitsInt bits n then .ok (some n) else .error (typeError k)
  | .null => .ok none
  | .bool _ => .error (typeError k)
  | .string _ => .error (typeError k)
  | .strings _ => .error (typeError k)

/-- A JSON member decoded into a `[]string` field: `null` makes it nil. -/
def decodeStrings (k : GoString) : JSONValue → Except GoError (Option (List GoString))
  | .strings l => .ok (some l)
  | .null => .ok none
  | .bool _ => .error (typeError k)
  | .number _ => .error (typeError k)
  | .string _ => .error (typeError k)

/-! ## `types.go`, `message.go`: message shapes -/

/-- `UpdateMessageRequest`. Pointer fields are options; the slice `Attachments`
is `none` when nil. -/
structure UpdateMessageRequest where
  Text : GoString
  E2E : Option Bool
  ReplyNo : Option Int
  Quote : Option GoString
  Attachments : Option (List GoString)
  deriving DecidableEq, Repr

/-- `UpdateMessageResponse`. -/
structure UpdateMessageResponse where
  UUID : GoString
  ChatID : Int
  PostNo : Int
  Version : Option Int
  deriving DecidableEq, Repr

/-- `PrivateMessageRequest`. -/
structure PrivateMessageRequest where
  Text : GoString
  UserID : Option Int
  UserEmail : GoString
  UserUniqueName : GoString
  ReplyNo : Option Int
  deriving DecidableEq, Repr

/-- `PrivateMessageResponse`. -/
structure PrivateMessageResponse where
  ChatID : Int
  PostNo : Int
  deriving DecidableEq, Repr

/-- `FileUploadResponse`. -/
structure FileUploadResponse where
  GUID : GoString
  deriving DecidableEq, Repr

/-- `json.Marshal` of an `UpdateMessageRequest`, by its struct tags
`text,omitempty`, `e2e,omitempty`, `reply_no,omitempty`, `quote,omitempty`,
`attachments,omitempty`: an empty string, a nil pointer and a slice of length 0
are left out. -/
def marshalUpdateRequest (r : UpdateMessageRequest) : JSONObject :=
  (if r.Text = [] then [] else [(ascii "text", jsonString r.Text)]) ++
  (match r.E2E with
    | none => []
    | some b => [(ascii "e2e", .bool b)]) ++
  (match r.ReplyNo with
    | none => []
    | some n => [(ascii "reply_no", .number n)]) ++
  (match r.Quote with
    | none => []
    | some q => [(ascii "quote", jsonString q)]) ++
  (match r.Attachments with
    | none => []
    | some l =>
      if l.length = 0 then []
      else [(ascii "attachments", .strings (l.map (coerceUTF8 0)))])

/-- One member of a JSON object applied to an `UpdateMessageRequest`. -/
def UpdateMessageRequest.setField (r : UpdateMessageRequest) (k : GoString)
    (x : JSONValue) : Except GoError UpdateMessageRequest :=
  match fieldIndex [ascii "text", ascii "e2e", ascii "reply_no", ascii "quote",
      ascii "attachments"] k with
  | some 0 => (decodeString (ascii "text") r.Text x).map (fun s => { r with Text := s })
  | some 1 => (decodeBoolPtr (ascii "e2e") x).map (fun b => { r with E2E := b })
  | some 2 => (decodeIntPtr 64 (ascii "reply_no") x).map (fun n => { r with ReplyNo := n })
  | some 3 => (decodeStringPtr (ascii "quote") x).map (fun q => { r with Quote := q })
  | some 4 =>
    (decodeStrings (ascii "attachments") x).map (fun l => { r with Attachments := l })
  | _ => .ok r

/-- `json.Unmarshal` into a zero `UpdateMessageRequest`. -/
def unmarshalUpdateRequest (o : JSONObject) : Except GoError UpdateMessageRequest :=
  decodeObject UpdateMessageRequest.setField o
    { Text := [], E2E := none, ReplyNo := none, Quote := none, Attachments := none }

/-- `json.Marshal` of an `UpdateMessageResponse`, by its struct tags `uuid`,
`chat_id`, `post_no`, `ver,omitempty`. -/
def marshalUpdateResponse (p : UpdateMessageResponse) : JSONObject :=
  [(ascii "uuid", jsonString p.UUID), (ascii "chat_id", .number p.ChatID),
    (ascii "post_no", .number p.PostNo)] ++
  (match p.Version with
    | none => []
    | some v => [(ascii "ver", .number v)])

/-- One member of a JSON object applied to an `UpdateMessageResponse`. -/
def UpdateMessageResponse.setField (p : UpdateMessageResponse) (k : GoString)
    (x : JSONValue) : Except GoError UpdateMessageResponse :=
  match fieldIndex [ascii "uuid", ascii "chat_id", ascii "post_no", ascii "ver"] k with
  | some 0 => (decodeString (ascii "uuid") p.UUID x).map (fun s => { p with UUID := s })
  | some 1 =>
    (decodeInt 64 (ascii "chat_id") p.ChatID x).map (fun n => { p with ChatID := n })
  | some 2 =>
    (decodeInt 64 (ascii "post_no") p.PostNo x).map (fun n => { p with PostNo := n })
  | some 3 => (decodeIntPtr IntSize (ascii "ver") x).map (fun v => { p with Version := v })
  | _ => .ok p

/-- `json.Unmarshal` into a zero `UpdateMessageResponse`. -/
def unmarshalUpdateResponse (o : JSONObject) : Except GoError UpdateMessageResponse :=
  decodeObject UpdateMessageResponse.setField o
    { UUID := [], ChatID := 0, PostNo := 0, Version := none }

/-- `json.Marshal` of a `PrivateMessageRequest`, by its struct tags `text`,
`user_id,omitempty`, `user_email,omitempty`, `user_unique_name,omitempty`,
`reply_no,omitempty`. -/
def marshalPrivateRequest (r : PrivateMessageRequest) : JSONObject :=
  [(ascii "text", jsonString r.Text)] ++
  (match r.UserID with
    | none => []
    | some n => [(ascii "user_id", .number n)]) ++
  (if r.UserEmail = [] then [] else [(ascii "user_email", jsonString r.UserEmail)]) ++
  (if r.UserUniqueName = [] then []
    else [(ascii "user_unique_name", jsonString r.UserUniqueName)]) ++
  (match r.ReplyNo with
    | none => []
    | some n => [(ascii "reply_no", .number n)])

/-- `json.Marshal` of a `SendMessageRequest`, by its struct tags `key`, `chat_id`,
`text`, `text_parsed,omitempty` (never set, so left out), `reply_no,omitempty`. -/
def marshalSendRequest (r : SendMessageRequest) : JSONObject :=
  [(ascii "key", jsonString r.Key), (ascii "chat_id", .number r.ChatID),
    (ascii "text", jsonString r.Text)] ++
  (match r.ReplyNo with
    | none => []
    | some n => [(ascii "reply_no", .number n)])

/-- One member of a JSON object applied to a `PrivateMessageResponse`. -/
def PrivateMessageResponse.setField (p : PrivateMessageResponse) (k : GoString)
    (x : JSONValue) : Except GoError PrivateMessageResponse :=
  match fieldIndex [ascii "chat_id", ascii "post_no"] k with
  | some 0 =>
    (decodeInt 64 (ascii "chat_id") p.ChatID x).map (fun n => { p with ChatID := n })
  | some 1 =>
    (decodeInt 64 (ascii "post_no") p.PostNo x).map (fun n => { p with PostNo := n })
  | _ => .ok p

/-- One member of a JSON object applied to a `FileUploadResponse`. -/
def FileUploadResponse.setField (p : FileUploadResponse) (k : GoString)
    (x : JSONValue) : Except GoError FileUploadResponse :=
  match fieldIndex [ascii "guid"] k with
  | some 0 => (decodeString (ascii "guid") p.GUID x).map (fun s => { p with GUID := s })
  | _ => .ok p

/-! ## `encoding/json`, `mime/multipart`, `os`: the world of the message operations -/

/-- What `os.Open(path)` gives access to: the outcome of `file.Stat()` (size and
base name) and the outcome of reading the file to its end. -/
structure OpenFile where
  stat : Except GoError (Int × GoString)
  read : Except GoError GoString

/-- The parts of the outside world used by the operations below: the text of a
JSON document (`json.Marshal` after the struct mapping) and its parsing, the
multipart form written by `mime/multipart` for the fields `chat_id` and `size`
and the file part `data` with its content type, `os.Open`, and
`strconv.Quote` for the verb `%q`. -/
structure Codec where
  render : JSONObject → GoString
  parse : GoString → Except GoError JSONObject
  multipartBody : GoString → GoString → GoString → GoString → GoString
  formDataContentType : GoString
  openFile : GoString → Except GoError OpenFile
  quote : GoString → GoString

/-- `json.Unmarshal(body, &response)` for an `UpdateMessageResponse`. -/
def Codec.unmarshalUpdate (codec : Codec) (body : GoString) :
    Except GoError UpdateMessageResponse :=
  match codec.parse body with
  | .error err => .error err
  | .ok o => unmarshalUpdateResponse o

/-- `json.Unmarshal(body, &response)` for a `PrivateMessageResponse`. -/
def Codec.unmarshalPrivate (codec : Codec) (body : GoString) :
    Except GoError PrivateMessageResponse :=
  match codec.parse body with
  | .error err => .error err
  | .ok o => decodeObject PrivateMessageResponse.setField o { ChatID := 0, PostNo := 0 }

/-- `json.Unmarshal(body, &response)` for a `FileUploadResponse`. -/
def Codec.unmarshalUpload (codec : Codec) (body : GoString) :
    Except GoError FileUploadResponse :=
  match codec.parse body with
  | .error err => .error err
  | .ok o => decodeObject FileUploadResponse.setField o { GUID := [] }

/-- The tail shared by the JSON operations: build the request with `newRequest`,
set `Content-Type: application/json`, run it with `do`. -/
def Client.sendJSON {α : Type} (env : Env) (c : Client) (method path body : GoString)
    (unmarshal : GoString → Except GoError α) (log : List Request) : Outcome α :=
  match c.newRequest env method path [] (some body) with
  | .error err => (.error err, log)
  | .ok req =>
    let req := { req with
      Header := req.Header ++ [(ascii "Content-Type", ascii "application/json")] }
    Client.do env log req unmarshal

/-! ## `message.go`, `file.go`, `chat.go`: the message and file operations -/

/-- `Client.SendMessage`. The marshalling of a `SendMessageRequest` cannot fail. -/
def Client.SendMessage (env : Env) (codec : Codec) (c : Client) (chatID : Int)
    (text : GoString) (replyNo : Option Int) (log : List Request) :
    Outcome MessageResponse :=
  if chatID = 0 then (.error (ascii "chat_id cannot be zero"), log)
  else if text = [] then (.error (ascii "text cannot be empty"), log)
  else
    let reqBody : SendMessageRequest :=
      { Key := c.BotToken, ChatID := chatID, Text := text, ReplyNo := replyNo }
    let body := codec.render (marshalSendRequest reqBody)
    match c.newRequest env (ascii "POST") (ascii "/bot/message") [] (some body) with
    | .error err => (.error err, log)
    | .ok req =>
      let req := { req with
        Header := req.Header ++ [(ascii "Content-Type", ascii "application/json")] }
      Client.do env log req env.unmarshalMessage

/-- The loop of `BroadcastMessage` over the remaining chat ids, for an arbitrary
send operation on an arbitrary state: `responses` are the responses collected so
far. -/
def broadcastLoop {σ : Type} (send : Int → σ → Except GoError MessageResponse × σ) :
    List Int → List MessageResponse → σ → Except GoError (List MessageResponse) × σ
  | [], responses, s => (.ok responses, s)
  | chatID :: rest, responses, s =>
    match send chatID s with
    | (.error err, s) =>
      (.error (ascii "failed to send message to chat " ++ FormatInt chatID ++
        ascii ": " ++ err), s)
    | (.ok response, s) => broadcastLoop send rest (responses ++ [response]) s

/-- `Client.BroadcastMessage`. -/
def Client.BroadcastMessage (env : Env) (codec : Codec) (c : Client) (chatIDs : List Int)
    (text : GoString) (log : List Request) : Outcome (List MessageResponse) :=
  if chatIDs.length = 0 then (.error (ascii "chat_ids slice cannot be empty"), log)
  else
    broadcastLoop (fun chatID log => c.SendMessage env codec chatID text none log) chatIDs []
      log

/-- `Client.SendMessageToAllMyChats`. -/
def Client.SendMessageToAllMyChats (env : Env) (codec : Codec) (c : Client)
    (text : GoString) (log : List Request) : Outcome (List MessageResponse) :=
  match c.GetMyChats env log with
  | (.error err, log) => (.error err, log)
  | (.ok chats, log) => c.BroadcastMessage env codec (chats.map (fun ch => ch.ID)) text log

/-- `Client.UpdateMessage`. The marshalling of an `UpdateMessageRequest` cannot
fail. -/
def Client.UpdateMessage (env : Env) (codec : Codec) (c : Client) (chatID postNo : Int)
    (updateReq : Option UpdateMessageRequest) (log : List Request) :
    Outcome UpdateMessageResponse :=
  if chatID = 0 then (.error (ascii "chat_id cannot be zero"), log)
  else if postNo = 0 then (.error (ascii "post_no cannot be zero"), log)
  else
    match updateReq with
    | none => (.error (ascii "update_request cannot be nil"), log)
    | some r =>
      if r.Text = [] then (.error (ascii "text cannot be empty"), log)
      else
        let body := codec.render (marshalUpdateRequest r)
        let url := ascii "/msg/post/" ++ FormatInt chatID ++ ascii "/" ++ FormatInt postNo
        c.sendJSON env (ascii "PUT") url body codec.unmarshalUpdate log

/-- `Client.sendPrivateMessage`. The marshalling of a `PrivateMessageRequest`
cannot fail. -/
def Client.sendPrivateMessage (env : Env) (codec : Codec) (c : Client)
    (reqBody : PrivateMessageRequest) (log : List Request) :
    Outcome PrivateMessageResponse :=
  let body := codec.render (marshalPrivateRequest reqBody)
  c.sendJSON env (ascii "POST") (ascii "/msg/post/private") body codec.unmarshalPrivate log

/-- `Client.SendPrivateMessageByID`. -/
def Client.SendPrivateMessageByID (env : Env) (codec : Codec) (c : Client) (userID : Int)
    (text : GoString) (replyNo : Option Int) (log : List Request) :
    Outcome PrivateMessageResponse :=
  if userID = 0 then (.error (ascii "user_id cannot be zero"), log)
  else if text = [] then (.error (ascii "text cannot be empty"), log)
  else
    c.sendPrivateMessage env codec
      { Text := text, UserID := some userID, UserEmail := [], UserUniqueName := [],
        ReplyNo := replyNo } log

/-- `Client.SendPrivateMessageByEmail`. -/
def Client.SendPrivateMessageByEmail (env : Env) (codec : Codec) (c : Client)
    (email text : GoString) (replyNo : Option Int) (log : List Request) :
    Outcome PrivateMessageResponse :=
  if email = [] then (.error (ascii "email cannot be empty"), log)
  else if text = [] then (.error (ascii "text cannot be empty"), log)
  else
    c.sendPrivateMessage env codec
      { Text := text, UserID := none, UserEmail := email, UserUniqueName := [],
        ReplyNo := replyNo } log

/-- `Client.SendPrivateMessageByUniqueName`. -/
def Client.SendPrivateMessageByUniqueName (env : Env) (codec : Codec) (c : Client)
    (uniqueName text : GoString) (replyNo : Option Int) (log : List Request) :
    Outcome PrivateMessageResponse :=
  if uniqueName = [] then (.error (ascii "unique_name cannot be empty"), log)
  else if text = [] then (.error (ascii "text cannot be empty"), log)
  else
    c.sendPrivateMessage env codec
      { Text := text, UserID := none, UserEmail := [], UserUniqueName := uniqueName,
        ReplyNo := replyNo } log

/-- `Client.SendPrivateReply`. -/
def Client.SendPrivateReply (env : Env) (codec : Codec) (c : Client)
    (userID replyPostNo : Int) (text : GoString) (log : List Request) :
    Outcome PrivateMessageResponse :=
  c.SendPrivateMessageByID env codec userID text (some replyPostNo) log

/-- `Client.SendMentionMessage`. -/
def Client.SendMentionMessage (env : Env) (codec : Codec) (c : Client) (chatID : Int)
    (text : GoString) (log : List Request) : Outcome MessageResponse :=
  c.SendMessage env codec chatID (ascii "@all " ++ text) none log

/-- `Client.newFileRequest`. -/
def Client.newFileRequest (env : Env) (c : Client) (path body : GoString) :
    Except GoError Request :=
  let requestURL := c.config.FileURL ++ path
  match env.newRequestError (ascii "POST") requestURL with
  | some err => .error (ascii "failed to create request: " ++ err)
  | none =>
    .ok { Method := ascii "POST", URL := requestURL,
          Header := [(ascii "X-APIToken", c.config.APIToken),
                     (ascii "Accept", ascii "application/json")],
          Body := some body }

/-- `Client.UploadFileData`; `reader` is the outcome of reading the `io.Reader`
to its end. Writing into the in-memory multipart buffer cannot fail. -/
def Client.UploadFileData (env : Env) (codec : Codec) (c : Client) (chatID : Int)
    (reader : Except GoError GoString) (size : Int) (filename : GoString)
    (log : List Request) : Outcome FileUploadResponse :=
  if chatID = 0 then (.error (ascii "chat_id cannot be zero"), log)
  else if size ≤ 0 then (.error (ascii "file size must be positive"), log)
  else
    match reader with
    | .error err => (.error (ascii "failed to copy file data: " ++ err), log)
    | .ok data =>
      let body := codec.multipartBody (FormatInt chatID) (FormatInt size) filename data
      match c.newFileRequest env (ascii "/new/upload") body with
      | .error err => (.error err, log)
      | .ok req =>
        let req := { req with
          Header := req.Header ++ [(ascii "Content-Type", codec.formDataContentType)] }
        Client.do env log req codec.unmarshalUpload

/-- The loop of `UploadToMultipleChats` over the remaining chat ids: each
iteration uploads an empty reader for the chat and stops at the first failure,
returning the GUID together with the error. -/
def uploadLoop (env : Env) (codec : Codec) (c : Client) (guid : GoString) (size : Int)
    (name : GoString) : List Int → List Request → (GoString × Option GoError) × List Request
  | [], log => ((guid, none), log)
  | chatID :: rest, log =>
    match c.UploadFileData env codec chatID (.ok []) size name log with
    | (.error err, log) =>
      ((guid, some (ascii "failed to upload to chat " ++ FormatInt chatID ++
        ascii ": " ++ err)), log)
    | (.ok _, log) => uploadLoop env codec c guid size name rest log

/-- `Client.UploadToMultipleChats`: returns the GUID string and the error. -/
def Client.UploadToMultipleChats (env : Env) (codec : Codec) (c : Client)
    (filePath : GoString) (chatIDs : List Int) (log : List Request) :
    (GoString × Option GoError) × List Request :=
  match codec.openFile filePath with
  | .error err => (([], some (ascii "failed to open file: " ++ err)), log)
  | .ok file =>
    match file.stat with
    | .error err => (([], some (ascii "failed to get file info: " ++ err)), log)
    | .ok (size, name) =>
      match c.UploadFileData env codec 0 file.read size name log with
      | (.error err, log) => (([], some err), log)
      | (.ok uploadResponse, log) =>
        uploadLoop env codec c uploadResponse.GUID size name chatIDs log

/-- The loop of `FindChatByTitle`: the first chat with the given title. -/
def firstWithTitle (title : GoString) : List Chat → Option Chat
  | [] => none
  | ch :: rest => if ch.Title = title then some ch else firstWithTitle title rest

/-- `Client.FindChatByTitle`; the verb `%q` is `codec.quote`. -/
def Client.FindChatByTitle (env : Env) (codec : Codec) (c : Client) (title : GoString)
    (log : List Request) : Outcome Chat :=
  match c.GetAllChats env log with
  | (.error err, log) => (.error err, log)
  | (.ok chats, log) =>
    match firstWithTitle title chats with
    | some ch => (.ok ch, log)
    | none =>
      (.error (ascii "chat with title " ++ codec.quote title ++ ascii " not found"), log)

/-! ## Specification-level definitions -/

/-- The whitespace of command tokenization: space, tab and newline. -/
def isCommandSpace (c : Char) : Bool := c == ' ' || c == '\t' || c == '\n'

/-- Specification of command tokenization, following the wording of the
specification: the text is split at whitespace characters and the empty pieces
are dropped, which leaves the maximal runs of non-whitespace characters in
their order of occurrence. -/
def fieldsSpec (text : List Char) : List (List Char) :=
  (text.splitOnP isCommandSpace).filter (fun w => !w.isEmpty)

/-- The text `&key=value` contributed by one entry of the parameter mapping. -/
def paramSegment (kv : GoString × GoString) : GoString :=
  ascii "&" ++ PathEscape kv.1 ++ ascii "=" ++ PathEscape kv.2

/-- What `splitCommand` returns from the final loop state: the pending word, if
any, is appended. -/
def SplitState.finish (st : SplitState) : List (List Char) :=
  if st.inWord then st.result ++ [st.current] else st.result

/-- The request `/start some args` of `TestBotRequestMethods`. -/
def startRequest : BotRequest :=
  { UserID := 12345, UserUniqueName := none, PostNo := 67890, ChatID := 54321,
    OrganizationID := none, Text := "/start some args".toList,
    TextParsed := [⟨ascii "text", ascii "/start some args"⟩],
    ReplyNo := some 11111, ReplyText := some (ascii "Original message"),
    FileGUID := some (ascii "file123"), FileName := some (ascii "test.txt"),
    Attachments := [ascii "attachment1"] }

section SortingSpec
variable {α : Type}

/-- One pass of the inner loop, read off the list: `cur` is the element now at
index `i`, the argument list is the part of the slice not yet visited. Returns
the element left at index `i` and the visited part, where each element that was
exchanged has been replaced by the former occupant of index `i`. -/
def selectPass (key : α → Int) (cur : α) : List α → α × List α
  | [] => (cur, [])
  | y :: ys =>
    if key y > key cur then
      ((selectPass key y ys).1, cur :: (selectPass key y ys).2)
    else
      ((selectPass key cur ys).1, y :: (selectPass key cur ys).2)

/-- The passes of the outer loop, read off the list: `n` passes, each fixing the
head of what remains. -/
def exchangeSortAux (key : α → Int) : Nat → List α → List α
  | 0, l => l
  | _ + 1, [] => []
  | n + 1, x :: xs =>
    (selectPass key x xs).1 :: exchangeSortAux key n (selectPass key x xs).2

/-- The elements with count `K` that occur in `result` occur there in the same
relative order as in `input`. -/
def TiesInOrder (key : α → Int) (K : Int) (input result : List α) : Prop :=
  (result.filter (fun x => decide (key x = K))).Sublist
    (input.filter (fun x => decide (key x = K)))

/-- The number of elements the top-N accessors return for a slice of length `n`. -/
def topCount (limit : Int) (n : Nat) : Nat :=
  if 0 < limit ∧ limit < (n : Int) then limit.toNat else n

end SortingSpec

/-- A chat with the given id and member ids, all other fields zero. -/
def chatWith (id : Int) (members : List Int) : Chat :=
  { ID := id, Title := [], OrganizationID := none, ReadOnly := false, PostsCount := 0,
    PM := false, IsFavorite := false, MemberIDs := members, AdminIDs := [] }

/-- A server-supplied list whose first two chats have one member each and whose
third chat has two. -/
def tiedChats : List Chat := [chatWith 1 [10], chatWith 2 [11], chatWith 3 [10, 11]]

/-- The list with member counts 3, 5, 5, 1 of the specification. -/
def specChats : List Chat :=
  [chatWith 1 [1, 2, 3], chatWith 2 [1, 2, 3, 4, 5], chatWith 3 [6, 7, 8, 9, 10],
    chatWith 4 [1]]

/-- A user with the given id, all other fields zero. -/
def userWith (id : Int) : User :=
  { ID := id, Name := [], UniqueName := [], Deleted := false, Active := false,
    IsBot := false, Organizations := [] }

/-- An organization with the given id, all other fields zero. -/
def orgWith (id : Int) : Org :=
  { ID := id, Slug := [], Title := [], EmailDomain := [], DefaultChatID := 0,
    IsMember := false, IsAdmin := false, State := [], Guests := [], Users := [],
    Admins := [], Groups := [] }

/-- A small concrete world: every request can be built, the server answers by
`answer`, a response body decodes to one entity per byte (the byte is its id),
and no body is an error envelope. -/
def demoEnv (answer : Request → HTTPResult) : Env :=
  { newRequestError := fun _ _ => none
    roundTrip := fun _ req => answer req
    unmarshalError := fun _ => none
    unmarshalValidation := fun _ => none
    unmarshalUsers := fun body => .ok (body.map (fun b => userWith b.toNat))
    unmarshalChats := fun body => .ok (body.map (fun b => chatWith b.toNat [b.toNat]))
    unmarshalOrgs := fun body => .ok (body.map (fun b => orgWith b.toNat))
    unmarshalChatSync := fun body => .ok (body.map (fun b => (b.toNat : Int)))
    unmarshalOrgSync := fun body => .ok (body.map (fun b => (b.toNat : Int)))
    unmarshalMessage := fun body => .ok ⟨body.length⟩ }

/-- A client of the default API URL with a 24-byte token. -/
def demoClient : Client :=
  ⟨⟨ascii "https://api.verbosity.io", ascii "https://file.verbosity.io",
    ascii "0123456789abcdefABCDrest"⟩⟩

/-- The headers `newRequest` sets on every request. -/
def commonHeaders (c : Client) : List (GoString × GoString) :=
  [(ascii "X-APIToken", c.config.APIToken), (ascii "Accept", ascii "application/json")]

/-- The `GET` request of a batch fetch: the base URL, the path, and the query
`key=value` with the value query-escaped. -/
def batchRequest (c : Client) (path key value : GoString) : Request :=
  { Method := ascii "GET",
    URL := c.config.APIURL ++ path ++ (ascii "?" ++ (key ++ ascii "=" ++ QueryEscape value)),
    Header := commonHeaders c, Body := none }

/-- The `GET` request of an id listing: the base URL and the path, no query. -/
def syncRequest (c : Client) (path : GoString) : Request :=
  { Method := ascii "GET", URL := c.config.APIURL ++ path, Header := commonHeaders c,
    Body := none }

/-- The sends of a broadcast, one after the other: attempts `send` for every
chat id of the list in list order, whatever the outcomes, and returns the
outcomes in that order together with the state reached. -/
def sendEach {σ : Type} (send : Int → σ → Except GoError MessageResponse × σ) :
    List Int → σ → List (Except GoError MessageResponse) × σ
  | [], s => ([], s)
  | chatID :: rest, s =>
    ((send chatID s).1 :: (sendEach send rest (send chatID s).2).1,
      (sendEach send rest (send chatID s).2).2)

/-- A server for the listing of chats: the id listing answers with the ids 7 and
9, the batch fetch with the chats 7 and 9. -/
def listingAnswer (r : Request) : HTTPResult :=
  if r.URL = ascii "https://api.verbosity.io/core/chat/sync" then .response 200 [7, 9]
  else .response 200 [7, 9]

/-- A server for sending: the message to chat 2 is refused with status 500, any
other message is accepted. -/
def sendAnswer (r : Request) : HTTPResult :=
  if r.Body = some (ascii "2") then .response 500 (ascii "no") else .response 200 (ascii "ok")

/-- The send operation of `BroadcastMessage` for a given text:
`c.SendMessage(chatID, text, nil)`. -/
def sendTo (env : Env) (codec : Codec) (c : Client) (text : GoString) (chatID : Int)
    (log : List Request) : Outcome MessageResponse :=
  c.SendMessage env codec chatID text none log

/-- `stringContainsCTLByte` of `net/url`: whether the string holds an ASCII
control byte. -/
def stringContainsCTLByte (s : GoString) : Bool :=
  s.any (fun b => decide (b < 0x20) || b == 0x7f)

/-- A world whose `http.NewRequest` refuses a URL that holds an ASCII control
byte, which is the first check of `url.Parse`, and builds every other request;
the rest is as in `demoEnv`. The error is reported by its cause, without the
operation and the quoted URL that `url.Error` puts in front of it. -/
def parsingEnv (answer : Request → HTTPResult) : Env :=
  { demoEnv answer with
    newRequestError := fun _ url =>
      if stringContainsCTLByte url then
        some (ascii "net/url: invalid control character in URL")
      else none }

/-- A client whose API URL ends in a line feed, as a configuration value read
together with its line end does. -/
def lineFeedClient : Client :=
  ⟨⟨ascii "https://api.verbosity.io\n", ascii "https://file.verbosity.io",
    ascii "0123456789abcdefABCDrest"⟩⟩

/-- The request of a JSON operation: method, base URL and path, the common
headers followed by `Content-Type: application/json`, and the body. -/
def jsonRequest (c : Client) (method path body : GoString) : Request :=
  { Method := method, URL := c.config.APIURL ++ path,
    Header := commonHeaders c ++ [(ascii "Content-Type", ascii "application/json")],
    Body := some body }

/-- A small concrete codec: a JSON object is rendered as its keys one after the
other, every body parses to the empty object, the multipart body is the
concatenation of its four parts, every path opens a readable file of size 5
named by its path, and quoting puts the string between double quotes. -/
def demoCodec : Codec :=
  { render := fun o => (o.map (fun kv => kv.1)).flatten
    parse := fun _ => .ok []
    multipartBody := fun chatID size name data => chatID ++ size ++ name ++ data
    formDataContentType := ascii "multipart/form-data"
    openFile := fun path => .ok ⟨.ok (5, path), .ok (ascii "hello")⟩
    quote := fun s => [0x22] ++ s ++ [0x22] }

/-- A codec for the demonstrations of sending: as `demoCodec`, but a JSON object
is rendered as the decimal rendering of its member `chat_id`. -/
def chatCodec : Codec :=
  { demoCodec with
    render := fun o =>
      match o.lookup (ascii "chat_id") with
      | some (.number n) => FormatInt n
      | _ => [] }

/-- A private-message payload has non-empty text and exactly one of its three
addressing fields populated. -/
def OneAddress (r : PrivateMessageRequest) : Prop :=
  r.Text ≠ [] ∧
  ((r.UserID ≠ none ∧ r.UserEmail = [] ∧ r.UserUniqueName = []) ∨
    (r.UserID = none ∧ r.UserEmail ≠ [] ∧ r.UserUniqueName = []) ∨
    (r.UserID = none ∧ r.UserEmail = [] ∧ r.UserUniqueName ≠ []))

/-- The request for the update-message round trip with an empty, non-nil
attachment list. -/
def emptyAttachments : UpdateMessageRequest :=
  { Text := ascii "t", E2E := none, ReplyNo := none, Quote := none, Attachments := some [] }

/-- The request for the update-message round trip whose text is the single byte
`FF`, which is no valid UTF-8. -/
def invalidText : UpdateMessageRequest :=
  { Text := [0xff], E2E := none, ReplyNo := none, Quote := none, Attachments := none }

/-- A Go string is valid UTF-8 when it is the encoding of a sequence of runes. -/
def ValidUTF8 (s : GoString) : Prop := ∃ runes : List Nat, s = stringOfRunes runes

/-! ## Theorems: the library models -/

/-- Order of bytes, in terms of their values. -/
theorem uint8_le_iff (a b : UInt8) : a ≤ b ↔ a.toNat ≤ b.toNat := by
  rw [UInt8.le_def, BitVec.le_def]; rfl

/-- A byte is a base-16 digit for `nat.scan` exactly when it is one of `0`–`9`,
`a`–`f`, `A`–`F`. -/
theorem digitVal_lt_sixteen_iff (c : UInt8) :
    digitVal c < 16 ↔
      ((0x30 ≤ c ∧ c ≤ 0x39) ∨ (0x61 ≤ c ∧ c ≤ 0x66) ∨ (0x41 ≤ c ∧ c ≤ 0x46)) := by
  have hc := UInt8.toNat_lt c
  unfold digitVal MaxBase
  simp only [uint8_le_iff, UInt8.toNat_sub, UInt8.toNat_ofNat, UInt8.size]
  norm_num
  split_ifs <;> omega

/-- The digit loop reads the longest prefix of digits and leaves the rest. -/
theorem natScan_count_rest (base : Nat) (r : GoString) :
    ∀ acc count : Nat,
      (natScan base r acc count).2.1 =
          count + (r.takeWhile (fun c => decide (digitVal c < base))).length ∧
        (natScan base r acc count).2.2 =
          r.dropWhile (fun c => decide (digitVal c < base)) := by
  induction r with
  | nil => intro acc count; simp [natScan]
  | cons ch rest ih =>
    intro acc count
    by_cases h : base ≤ digitVal ch
    · have hd : ¬ digitVal ch < base := by omega
      simp [natScan, h, hd]
    · have hd : digitVal ch < base := by omega
      obtain ⟨h1, h2⟩ := ih (acc * base + digitVal ch) (count + 1)
      simp only [natScan, h, if_false, List.takeWhile_cons, List.dropWhile_cons, hd,
        decide_True, if_true, List.length_cons]
      exact ⟨by rw [h1]; omega, h2⟩

/-- `SetString` succeeds exactly on an optional sign followed by a non-empty
sequence of digits of the base. -/
theorem setString_isSome_iff (s : GoString) (base : Nat) :
    (SetString s base).isSome = true ↔
      ∃ neg r, scanSign s = some (neg, r) ∧ r ≠ [] ∧ ∀ c ∈ r, digitVal c < base := by
  unfold SetString
  cases hs : scanSign s with
  | none => simp
  | some p =>
    obtain ⟨neg, r⟩ := p
    obtain ⟨hc, hr⟩ := natScan_count_rest base r 0 0
    have hres : natScan base r 0 0 =
        ((natScan base r 0 0).1, (natScan base r 0 0).2.1, (natScan base r 0 0).2.2) := rfl
    dsimp only
    rw [hres, hc, hr]
    simp only [Nat.zero_add, Option.some.injEq, Prod.mk.injEq, exists_and_left]
    constructor
    · intro h
      refine ⟨neg, r, ⟨rfl, rfl⟩, ?_⟩
      by_cases h0 : (r.takeWhile (fun c => decide (digitVal c < base))).length = 0
      · simp [h0] at h
      · by_cases h1 : r.dropWhile (fun c => decide (digitVal c < base)) = []
        · have hall : ∀ c ∈ r, digitVal c < base := by
            intro c hcm
            have := List.dropWhile_eq_nil_iff.mp h1 c hcm
            simpa using this
          refine ⟨?_, hall⟩
          intro hnil
          rw [hnil] at h0
          simp at h0
        · simp [h0, h1] at h
    · rintro ⟨neg', r', ⟨hn, hr'⟩, hne, hall⟩
      subst hn; subst hr'
      have h1 : r.dropWhile (fun c => decide (digitVal c < base)) = [] :=
        List.dropWhile_eq_nil_iff.mpr (fun c hcm => by simpa using hall c hcm)
      have h2 : r.takeWhile (fun c => decide (digitVal c < base)) = r :=
        List.takeWhile_eq_self_iff.mpr (fun c hcm => by simpa using hall c hcm)
      have h0 : ¬ r.length = 0 := by
        intro h; exact hne (List.length_eq_zero.mp h)
      simp [h1, h2, h0]

/-- Value of a big-endian byte sequence. -/
theorem foldl_bytes_cons (b : UInt8) (bs : List UInt8) :
    (b :: bs).foldl (fun acc x => acc * 256 + x.toNat) 0 =
      b.toNat * 256 ^ bs.length + bs.foldl (fun acc x => acc * 256 + x.toNat) 0 := by
  have h : ∀ (l : List UInt8) (a : Nat),
      l.foldl (fun acc x => acc * 256 + x.toNat) a =
        a * 256 ^ l.length + l.foldl (fun acc x => acc * 256 + x.toNat) 0 := by
    intro l
    induction l with
    | nil => intro a; simp
    | cons x xs ih =>
      intro a
      rw [List.foldl_cons, ih, List.foldl_cons, ih (0 * 256 + x.toNat), List.length_cons]
      ring
  rw [List.foldl_cons, h]
  simp

/-- The bytes produced by `bytesAux` denote the number they were produced from. -/
theorem bytesAux_value (fuel : Nat) :
    ∀ (n : Nat) (acc : List UInt8), n ≤ fuel →
      (bytesAux fuel n acc).foldl (fun a x => a * 256 + x.toNat) 0 =
        n * 256 ^ acc.length + acc.foldl (fun a x => a * 256 + x.toNat) 0 := by
  induction fuel with
  | zero =>
    intro n acc hn
    have : n = 0 := by omega
    simp [bytesAux, this]
  | succ f ih =>
    intro n acc hn
    unfold bytesAux
    by_cases h0 : n = 0
    · simp [h0]
    · rw [if_neg h0, ih (n / 256) _ (by
        have := Nat.div_lt_self (Nat.pos_of_ne_zero h0) (by decide : 1 < 256)
        omega), foldl_bytes_cons, List.length_cons]
      have hb : ((n % 256).toUInt8).toNat = n % 256 := by
        simp [Nat.toUInt8, UInt8.toNat, UInt8.ofNat, Fin.ofNat]
      rw [hb, pow_succ]
      have key : n * 256 ^ acc.length =
          n / 256 * (256 ^ acc.length * 256) + n % 256 * 256 ^ acc.length := by
        nth_rewrite 1 [← Nat.div_add_mod n 256]
        ring
      omega

/-- The bytes of `bigBytes k` are the big-endian base-256 digits of `|k|`. -/
theorem bigBytes_value (k : Int) :
    (bigBytes k).foldl (fun a x => a * 256 + x.toNat) 0 = k.natAbs := by
  unfold bigBytes
  rw [bytesAux_value _ _ _ (Nat.le_refl _)]
  simp

/-- The byte sequence produced for a positive number does not start with a
zero byte. -/
theorem bytesAux_head (fuel : Nat) :
    ∀ (n : Nat) (acc : List UInt8), n ≤ fuel → n ≠ 0 →
      (bytesAux fuel n acc).head? ≠ some 0 := by
  induction fuel with
  | zero => intro n acc hn h0; omega
  | succ f ih =>
    intro n acc hn h0
    unfold bytesAux
    rw [if_neg h0]
    have hlt := Nat.div_lt_self (Nat.pos_of_ne_zero h0) (by decide : 1 < 256)
    by_cases hq : n / 256 = 0
    · have hsmall : n < 256 := by
        by_contra hge
        have := Nat.div_pos (Nat.le_of_not_lt hge) (by decide : 0 < 256)
        omega
      have hb : ((n % 256).toUInt8).toNat = n := by
        simp [Nat.toUInt8, UInt8.toNat, UInt8.ofNat, Fin.ofNat]
        omega
      have hstop : bytesAux f (n / 256) ((n % 256).toUInt8 :: acc) =
          (n % 256).toUInt8 :: acc := by
        rw [hq]; cases f <;> simp [bytesAux]
      rw [hstop]
      intro hhead
      simp only [List.head?_cons, Option.some.injEq] at hhead
      rw [hhead] at hb
      exact h0 hb.symm
    · exact ih _ _ (by omega) hq

/-- `bigBytes` produces no leading zero byte. -/
theorem bigBytes_head (k : Int) : (bigBytes k).head? ≠ some 0 := by
  unfold bigBytes
  by_cases h0 : k.natAbs = 0
  · rw [h0]; simp [bytesAux]
  · exact bytesAux_head _ _ _ (Nat.le_refl _) h0


/-! ## Theorems: signature verification and bot token -/

/-- C1: for a token of at least 20 bytes whose first 20 bytes parse as the
base-16 integer `k`, `VerifySignature` returns no error, and returns `true`
exactly when the signature is the standard base64 encoding of the HMAC-SHA256 of
the body under the key `bigBytes k`; that key is the big-endian byte sequence of
`k`: its base-256 value is `|k|` and it has no leading zero byte. -/
theorem verifySignature_accepts_iff (hmacSHA256 : List UInt8 → List UInt8 → List UInt8)
    (c : Client) (body signature : GoString) (k : Int)
    (hlen : 20 ≤ c.config.APIToken.length)
    (hparse : SetString (c.config.APIToken.take 20) 16 = some k) :
    (c.VerifySignature hmacSHA256 body signature).2 = none ∧
    ((c.VerifySignature hmacSHA256 body signature).1 = true ↔
      signature = base64Encode (hmacSHA256 (bigBytes k) body)) ∧
    (bigBytes k).foldl (fun a x => a * 256 + x.toNat) 0 = k.natAbs ∧
    (bigBytes k).head? ≠ some 0 := by
  have hnot : ¬ c.config.APIToken.length < 20 := Nat.not_lt.mpr hlen
  refine ⟨?_, ?_, bigBytes_value k, bigBytes_head k⟩ <;>
    simp [Client.VerifySignature, hnot, hparse]

/-- Witness of C1 at the token `0123456789abcdefABCDrest`, with concatenation
standing in for the HMAC. -/
theorem verifySignature_accepts_iff_witness :
    (Client.VerifySignature (fun key msg => key ++ msg)
        ⟨⟨[], [], ascii "0123456789abcdefABCDrest"⟩⟩ (ascii "body") (ascii "sig")).2 = none ∧
    ((Client.VerifySignature (fun key msg => key ++ msg)
        ⟨⟨[], [], ascii "0123456789abcdefABCDrest"⟩⟩ (ascii "body") (ascii "sig")).1 = true ↔
      ascii "sig" = base64Encode ((fun key msg => key ++ msg)
        (bigBytes 0x0123456789abcdefABCD) (ascii "body"))) :=
  have h := verifySignature_accepts_iff (fun key msg => key ++ msg)
    ⟨⟨[], [], ascii "0123456789abcdefABCDrest"⟩⟩ (ascii "body") (ascii "sig")
    0x0123456789abcdefABCD (by decide) (by decide)
  ⟨h.1, h.2.1⟩

/-- C2: `VerifySignature` returns an error exactly when the token is shorter than
20 bytes or its first 20 bytes do not parse as a base-16 integer, and whenever it
returns an error its boolean result is `false`. -/
theorem verifySignature_error_iff (hmacSHA256 : List UInt8 → List UInt8 → List UInt8)
    (c : Client) (body signature : GoString) :
    ((c.VerifySignature hmacSHA256 body signature).2 ≠ none ↔
      (c.config.APIToken.length < 20 ∨
        SetString (c.config.APIToken.take 20) 16 = none)) ∧
    ((c.VerifySignature hmacSHA256 body signature).2 = none ∨
      (c.VerifySignature hmacSHA256 body signature).1 = false) := by
  unfold Client.VerifySignature
  by_cases hlen : c.config.APIToken.length < 20
  · simp [hlen]
  · cases hparse : SetString (c.config.APIToken.take 20) 16 <;> simp [hlen]

/-- C3: `BotToken` is empty for a token of at most 20 bytes and otherwise the
token without its first 20 bytes; its length is `max 0 (len - 20)`, and a
21-byte token yields its single last byte. -/
theorem botToken_spec (c : Client) :
    c.BotToken = (if c.config.APIToken.length ≤ 20 then [] else c.config.APIToken.drop 20) ∧
    c.BotToken = c.config.APIToken.drop 20 ∧
    (c.BotToken.length : Int) = max 0 ((c.config.APIToken.length : Int) - 20) ∧
    (∀ x : UInt8, c.config.APIToken.length = 21 →
      c.config.APIToken.getLast? = some x → c.BotToken = [x]) := by
  have hdrop : c.BotToken = c.config.APIToken.drop 20 := by
    unfold Client.BotToken
    split
    · rename_i h
      exact (List.drop_eq_nil_of_le h).symm
    · rfl
  refine ⟨rfl, hdrop, ?_, ?_⟩
  · rw [hdrop, List.length_drop]
    omega
  · intro x h21 hlast
    rw [hdrop]
    have hlen : (c.config.APIToken.drop 20).length = 1 := by
      rw [List.length_drop]; omega
    have hne : c.config.APIToken.drop 20 ≠ [] := by
      intro h; rw [h] at hlen; simp at hlen
    have hl : (c.config.APIToken.drop 20).getLast? = some x := by
      rw [List.getLast?_drop]
      simp [h21, hlast]
    match hd : c.config.APIToken.drop 20, hlen, hl with
    | [y], _, hl => simpa using hl

/-- Witness of C3 at the 21-byte token `123456789012345678901`. -/
theorem botToken_spec_witness :
    Client.BotToken ⟨⟨[], [], ascii "123456789012345678901"⟩⟩ = ascii "1" :=
  (botToken_spec ⟨⟨[], [], ascii "123456789012345678901"⟩⟩).2.2.2 0x31
    (by decide) (by decide)

/-! ## Theorems: command tokenization -/

/-- The whitespace test of `splitCommand` is `isCommandSpace`. -/
theorem isCommandSpace_iff (c : Char) :
    isCommandSpace c = true ↔ (c = ' ' ∨ c = '\n' ∨ c = '\t') := by
  simp only [isCommandSpace, Bool.or_eq_true, beq_iff_eq]
  tauto

/-- A whitespace-free text is its own only field, unless it is empty. -/
theorem fieldsSpec_of_noSpace (cur : List Char)
    (h : ∀ x ∈ cur, ¬ isCommandSpace x = true) :
    fieldsSpec cur = if cur = [] then [] else [cur] := by
  unfold fieldsSpec
  rw [List.splitOnP_eq_single _ _ h]
  cases cur <;> simp

/-- A whitespace character ends the field before it. -/
theorem fieldsSpec_append_space (cur : List Char) (c : Char) (t : List Char)
    (h : ∀ x ∈ cur, ¬ isCommandSpace x = true) (hc : isCommandSpace c = true) :
    fieldsSpec (cur ++ c :: t) = (if cur = [] then [] else [cur]) ++ fieldsSpec t := by
  unfold fieldsSpec
  rw [List.splitOnP_first _ _ h c hc]
  cases cur <;> simp

/-- Loop invariant of `splitCommand`: from a state whose pending word is free of
whitespace and is flagged exactly when non-empty, the loop followed by the final
append yields the words collected so far and the fields of what remains. -/
theorem foldl_splitStep_finish (text : List Char) (st : SplitState)
    (hcur : ∀ x ∈ st.current, ¬ isCommandSpace x = true)
    (hw : st.inWord = true ↔ st.current ≠ []) :
    (text.foldl splitStep st).finish = st.result ++ fieldsSpec (st.current ++ text) := by
  induction text generalizing st with
  | nil =>
    rw [List.foldl_nil, List.append_nil, fieldsSpec_of_noSpace _ hcur]
    unfold SplitState.finish
    by_cases hc : st.current = []
    · have : st.inWord = false := by
        cases hi : st.inWord
        · rfl
        · exact absurd hc (hw.mp hi)
      simp [hc, this]
    · simp [hc, hw.mpr hc]
  | cons c t ih =>
    rw [List.foldl_cons]
    by_cases hsp : isCommandSpace c = true
    · have hcond : c = ' ' ∨ c = '\n' ∨ c = '\t' := (isCommandSpace_iff c).mp hsp
      rw [fieldsSpec_append_space _ _ _ hcur hsp]
      by_cases hc : st.current = []
      · have hi : st.inWord = false := by
          cases hi : st.inWord
          · rfl
          · exact absurd hc (hw.mp hi)
        have hstep : splitStep st c = st := by simp [splitStep, hcond, hi]
        rw [hstep, ih st hcur hw]
        simp [hc]
      · have hi : st.inWord = true := hw.mpr hc
        have hstep : splitStep st c = ⟨st.result ++ [st.current], [], false⟩ := by
          simp [splitStep, hcond, hi]
        rw [hstep, ih _ (by simp) (by simp)]
        simp [hc]
    · have hcond : ¬ (c = ' ' ∨ c = '\n' ∨ c = '\t') := fun h =>
        hsp ((isCommandSpace_iff c).mpr h)
      have hstep : splitStep st c = ⟨st.result, st.current ++ [c], true⟩ := by
        simp [splitStep, hcond]
      rw [hstep, ih _ (by
        intro x hx
        rcases List.mem_append.mp hx with hx | hx
        · exact hcur x hx
        · rw [List.mem_singleton] at hx
          rw [hx]; exact hsp) (by simp)]
      simp

/-- The loop of `splitCommand` computes the fields of the text. -/
theorem splitCommand_eq_fieldsSpec (text : List Char) :
    splitCommand text = fieldsSpec text := by
  have h := foldl_splitStep_finish text ⟨[], [], false⟩ (by simp) (by simp)
  simpa [splitCommand, SplitState.finish] using h

/-- The fields of a text that starts with a non-whitespace character: the first
field is the longest whitespace-free prefix. -/
theorem fieldsSpec_cons_of_not_space (c : Char) (t : List Char)
    (hc : ¬ isCommandSpace c = true) :
    ∃ rest, fieldsSpec (c :: t) =
      (c :: t).takeWhile (fun x => !isCommandSpace x) :: rest := by
  have hsplit : c :: t = (c :: t).takeWhile (fun x => !isCommandSpace x) ++
      (c :: t).dropWhile (fun x => !isCommandSpace x) :=
    (List.takeWhile_append_dropWhile _ _).symm
  have hfree : ∀ x ∈ (c :: t).takeWhile (fun x => !isCommandSpace x),
      ¬ isCommandSpace x = true := by
    intro x hx
    have := List.mem_takeWhile_imp hx
    simpa using this
  have hne : (c :: t).takeWhile (fun x => !isCommandSpace x) ≠ [] := by
    simp [List.takeWhile_cons, hc]
  cases hd : (c :: t).dropWhile (fun x => !isCommandSpace x) with
  | nil =>
    refine ⟨[], ?_⟩
    rw [hd, List.append_nil] at hsplit
    have := fieldsSpec_of_noSpace _ hfree
    rw [← hsplit] at this ⊢
    rw [this]
    simp
  | cons s rest =>
    have hs : isCommandSpace s = true := by
      have := List.head_dropWhile_not (fun x => !isCommandSpace x) (c :: t)
        (by rw [hd]; simp)
      simpa [hd] using this
    refine ⟨fieldsSpec rest, ?_⟩
    rw [hd] at hsplit
    have := fieldsSpec_append_space _ s rest hfree hs
    rw [← hsplit] at this
    rw [this]
    simp [hne]

/-- C4: for a text whose first character is `/`, `GetCommand` returns the first
maximal run of non-whitespace characters (the longest whitespace-free prefix of
the text) as command name and the remaining maximal non-whitespace runs, in
order, as arguments; whitespace is space, tab and newline. -/
theorem getCommand_fields (r : BotRequest) (h : r.Text.head? = some '/') :
    fieldsSpec r.Text ≠ [] ∧
    r.GetCommand = ((fieldsSpec r.Text).headD [], (fieldsSpec r.Text).tail) ∧
    r.GetCommand.1 = r.Text.takeWhile (fun c => !isCommandSpace c) := by
  have hcmd : r.IsCommand = true := by
    unfold BotRequest.IsCommand
    cases ht : r.Text with
    | nil => rw [ht] at h; simp at h
    | cons c t => rw [ht] at h; simp at h; simp [h]
  cases ht : r.Text with
  | nil => rw [ht] at h; simp at h
  | cons c t =>
    rw [ht] at h
    have hc : c = '/' := by simpa using h
    obtain ⟨rest, hrest⟩ := fieldsSpec_cons_of_not_space c t (by rw [hc]; decide)
    have hget : r.GetCommand =
        ((c :: t).takeWhile (fun x => !isCommandSpace x), rest) := by
      unfold BotRequest.GetCommand
      rw [hcmd, ht, splitCommand_eq_fieldsSpec, hrest]
      rfl
    rw [hget, hrest]
    simp

/-- Witness of C4 at the request `/start some args`. -/
theorem getCommand_fields_witness :
    startRequest.GetCommand = ("/start".toList, ["some".toList, "args".toList]) ∧
    fieldsSpec startRequest.Text = ["/start".toList, "some".toList, "args".toList] := by
  have h := getCommand_fields startRequest (by decide)
  have hf : fieldsSpec startRequest.Text =
      ["/start".toList, "some".toList, "args".toList] := by decide
  refine ⟨?_, hf⟩
  rw [h.2.1, hf]
  rfl

/-- C5: `IsCommand` holds exactly when the text is non-empty and its first
character is `/`; on every other text, the empty one included, `GetCommand`
returns the empty command name and no arguments. -/
theorem isCommand_iff (r : BotRequest) :
    (r.IsCommand = true ↔ (r.Text ≠ [] ∧ r.Text.head? = some '/')) ∧
    (r.IsCommand = true ∨ r.GetCommand = ([], [])) := by
  constructor
  · unfold BotRequest.IsCommand
    cases r.Text <;> simp
  · cases hc : r.IsCommand
    · right
      simp [BotRequest.GetCommand, hc]
    · left; rfl

/-! ## Theorems: message predicates -/

/-- C6: `MessageIsEmpty` holds exactly when the text is empty, the file reference
is absent and the attachment list has no elements. -/
theorem messageIsEmpty_iff (r : BotRequest) :
    r.MessageIsEmpty = true ↔
      (r.Text = [] ∧ r.FileGUID = none ∧ r.Attachments = []) := by
  simp [BotRequest.MessageIsEmpty, Option.isNone_iff_eq_none, and_assoc]

/-! ## Theorems: action URLs -/

/-- The loop of `CreateActionURL` appends one segment per visited entry, in
visiting order. -/
theorem foldl_appendParam (init : GoString) (ps : List (GoString × GoString)) :
    ps.foldl appendParam init = init ++ (ps.map paramSegment).flatten := by
  induction ps generalizing init with
  | nil => simp
  | cons kv rest ih =>
    rw [List.foldl_cons, ih]
    simp [appendParam, paramSegment, List.append_assoc]

/-- C7: `CreateActionURL` returns `bot://` + esc(action) + `?title=` + esc(title)
followed by the segments `&` + esc(key) + `=` + esc(value) of the entries of the
mapping, each entry used exactly once, in some order (the order in which the
`range` loop visits them); for a nil or empty mapping the result is the prefix
alone, as in `bot://action?title=Title`. -/
theorem createActionURL_format (action title : GoString)
    (m visit : List (GoString × GoString)) (hvisit : visit.Perm m) :
    (∃ ord : List (GoString × GoString), ord.Perm m ∧
      CreateActionURL action title visit =
        ascii "bot://" ++ PathEscape action ++ ascii "?title=" ++ PathEscape title ++
          (ord.map (fun kv =>
            ascii "&" ++ PathEscape kv.1 ++ ascii "=" ++ PathEscape kv.2)).flatten) ∧
    CreateActionURL action title [] =
      ascii "bot://" ++ PathEscape action ++ ascii "?title=" ++ PathEscape title ∧
    CreateActionURL (ascii "action") (ascii "Title") [] = ascii "bot://action?title=Title" := by
  refine ⟨⟨visit, hvisit, ?_⟩, rfl, by decide⟩
  unfold CreateActionURL
  rw [foldl_appendParam]
  rfl

/-- Witness of C7: a mapping with the entries `k ↦ v` and `a ↦ b c`, visited in
the opposite order. -/
theorem createActionURL_format_witness :
    ∃ ord : List (GoString × GoString),
      ord.Perm [(ascii "k", ascii "v"), (ascii "a", ascii "b c")] ∧
      CreateActionURL (ascii "a") (ascii "T")
          [(ascii "a", ascii "b c"), (ascii "k", ascii "v")] =
        ascii "bot://" ++ PathEscape (ascii "a") ++ ascii "?title=" ++
          PathEscape (ascii "T") ++
          (ord.map (fun kv =>
            ascii "&" ++ PathEscape kv.1 ++ ascii "=" ++ PathEscape kv.2)).flatten :=
  (createActionURL_format (ascii "a") (ascii "T")
    [(ascii "k", ascii "v"), (ascii "a", ascii "b c")]
    [(ascii "a", ascii "b c"), (ascii "k", ascii "v")]
    (List.Perm.swap _ _ _)).1

/-- C8 (behaviour of the code): the reserved characters `@`, `$`, `&` and `=` of
a parameter value reach the action URL unescaped. For the value
`special!@#$%^&*()` of `TestCreateActionURL` the URL contains raw `@`, `$` and
`&`, and the single entry `k ↦ x&y=z` gives the same URL as the two entries
`k ↦ x`, `y ↦ z`. -/
theorem createActionURL_keeps_reserved :
    CreateActionURL (ascii "test_action") (ascii "Test Title")
        [(ascii "param3", ascii "special!@#$%^&*()")] =
      ascii "bot://test_action?title=Test%20Title&param3=special%21@%23$%25%5E&%2A%28%29" ∧
    CreateActionURL (ascii "a") (ascii "T") [(ascii "k", ascii "x&y=z")] =
      ascii "bot://a?title=T&k=x&y=z" ∧
    CreateActionURL (ascii "a") (ascii "T") [(ascii "k", ascii "x&y=z")] =
      CreateActionURL (ascii "a") (ascii "T") [(ascii "k", ascii "x"), (ascii "y", ascii "z")] := by
  decide

/-! ## Theorems: the exchange sort of the top-N accessors -/

section SortingProofs
variable {α : Type}

/-- Effect of the body of the inner loop on a slice split at the indexes `i` and
`j`. -/
theorem sortInner_append (key : α → Int) (pre mid rest : List α) (cur y : α) :
    sortInner key pre.length (pre ++ cur :: (mid ++ y :: rest))
        (pre.length + 1 + mid.length) =
      if key y > key cur then pre ++ y :: (mid ++ cur :: rest)
      else pre ++ cur :: (mid ++ y :: rest) := by
  have hi : (pre ++ cur :: (mid ++ y :: rest))[pre.length]? = some cur := by
    rw [List.getElem?_append_right (Nat.le_refl _)]
    simp
  have hj : (pre ++ cur :: (mid ++ y :: rest))[pre.length + 1 + mid.length]? = some y := by
    rw [List.getElem?_append_right (by omega)]
    have : pre.length + 1 + mid.length - pre.length = mid.length + 1 := by omega
    rw [this, List.getElem?_cons_succ, List.getElem?_append_right (by omega)]
    simp
  unfold sortInner
  rw [hi, hj]
  dsimp only
  split
  · have h1 : (pre ++ cur :: (mid ++ y :: rest)).set pre.length y =
        pre ++ y :: (mid ++ y :: rest) := by
      rw [List.set_append_right _ _ (by omega)]
      simp
    rw [h1]
    rw [List.set_append_right _ _ (by omega)]
    have : pre.length + 1 + mid.length - pre.length = mid.length + 1 := by omega
    rw [this, List.set_cons_succ, List.set_append_right _ _ (by omega)]
    simp
  · rfl

/-- The inner loop of pass `i` computes `selectPass` on the part of the slice
behind index `i`. -/
theorem foldl_sortInner (key : α → Int) (rest : List α) :
    ∀ (pre mid : List α) (cur : α),
      (List.range' (pre.length + 1 + mid.length) rest.length).foldl
          (sortInner key pre.length) (pre ++ cur :: (mid ++ rest)) =
        pre ++ (selectPass key cur rest).1 :: (mid ++ (selectPass key cur rest).2) := by
  induction rest with
  | nil => intro pre mid cur; simp [selectPass]
  | cons y rest ih =>
    intro pre mid cur
    rw [List.length_cons, List.range'_succ, List.foldl_cons, sortInner_append]
    by_cases hgt : key y > key cur
    · rw [if_pos hgt]
      have h := ih pre (mid ++ [cur]) y
      simp only [List.length_append, List.length_singleton, List.append_assoc,
        List.singleton_append] at h
      rw [show pre.length + 1 + mid.length + 1 = pre.length + 1 + (mid.length + 1) by omega,
        h]
      simp [selectPass, hgt]
    · rw [if_neg hgt]
      have h := ih pre (mid ++ [y]) cur
      simp only [List.length_append, List.length_singleton, List.append_assoc,
        List.singleton_append] at h
      rw [show pre.length + 1 + mid.length + 1 = pre.length + 1 + (mid.length + 1) by omega,
        h]
      simp [selectPass, hgt]

/-- Pass `i` of the outer loop on a slice split at index `i`. -/
theorem sortPass_append (key : α → Int) (pre : List α) (x : α) (xs : List α) :
    sortPass key (pre ++ x :: xs) pre.length =
      pre ++ (selectPass key x xs).1 :: (selectPass key x xs).2 := by
  have h := foldl_sortInner key xs pre [] x
  simp only [List.length_nil, Nat.add_zero, List.nil_append] at h
  unfold sortPass
  rw [show (pre ++ x :: xs).length - (pre.length + 1) = xs.length by
    simp [List.length_append]; omega]
  exact h

/-- A pass keeps the length of the visited part. -/
theorem selectPass_length (key : α → Int) (ys : List α) :
    ∀ cur : α, (selectPass key cur ys).2.length = ys.length := by
  induction ys with
  | nil => intro cur; rfl
  | cons y ys ih =>
    intro cur
    unfold selectPass
    split <;> simp [ih]

/-- A pass rearranges the elements it is given. -/
theorem selectPass_perm (key : α → Int) (ys : List α) :
    ∀ cur : α, ((selectPass key cur ys).1 :: (selectPass key cur ys).2).Perm (cur :: ys) := by
  induction ys with
  | nil => intro cur; exact List.Perm.refl _
  | cons y ys ih =>
    intro cur
    unfold selectPass
    split
    · exact (List.Perm.swap _ _ _).trans ((ih y).cons cur)
    · exact ((List.Perm.swap _ _ _).trans ((ih cur).cons y)).trans (List.Perm.swap _ _ _)

/-- After a pass, the element at index `i` has a count at least that of the
element the pass started from and of every element left behind it. -/
theorem selectPass_ge (key : α → Int) (ys : List α) :
    ∀ cur : α, key cur ≤ key (selectPass key cur ys).1 ∧
      ∀ z ∈ (selectPass key cur ys).2, key z ≤ key (selectPass key cur ys).1 := by
  induction ys with
  | nil => intro cur; simp [selectPass]
  | cons y ys ih =>
    intro cur
    unfold selectPass
    split
    · rename_i hgt
      obtain ⟨h1, h2⟩ := ih y
      refine ⟨by dsimp only; omega, ?_⟩
      intro z hz
      rcases List.mem_cons.mp hz with hz | hz
      · rw [hz]; dsimp only; omega
      · exact h2 z hz
    · rename_i hgt
      obtain ⟨h1, h2⟩ := ih cur
      refine ⟨h1, ?_⟩
      intro z hz
      rcases List.mem_cons.mp hz with hz | hz
      · rw [hz]; dsimp only; omega
      · exact h2 z hz

/-- A pass that starts from an element of largest count exchanges nothing. -/
theorem selectPass_of_ge (key : α → Int) (ys : List α) :
    ∀ cur : α, (∀ y ∈ ys, key y ≤ key cur) → selectPass key cur ys = (cur, ys) := by
  induction ys with
  | nil => intro cur _; rfl
  | cons y ys ih =>
    intro cur h
    have hy : ¬ key y > key cur := by
      have := h y (List.mem_cons_self _ _); omega
    have hrest := ih cur (fun z hz => h z (List.mem_cons_of_mem _ hz))
    simp [selectPass, hy, hrest]

/-- The outer loop computes `exchangeSortAux` on the part of the slice from
index `i` on. -/
theorem foldl_sortPass (key : α → Int) (cnt : Nat) :
    ∀ (pre l : List α), l.length = cnt + 1 →
      (List.range' pre.length cnt).foldl (sortPass key) (pre ++ l) =
        pre ++ exchangeSortAux key cnt l := by
  induction cnt with
  | zero => intro pre l _; simp [exchangeSortAux]
  | succ n ih =>
    intro pre l hl
    match l, hl with
    | x :: xs, hl =>
      rw [List.range'_succ, List.foldl_cons, sortPass_append]
      have hlen : (selectPass key x xs).2.length = n + 1 := by
        rw [selectPass_length]; simpa using hl
      have h := ih (pre ++ [(selectPass key x xs).1]) (selectPass key x xs).2 hlen
      simp only [List.length_append, List.length_singleton, List.append_assoc,
        List.singleton_append] at h
      rw [h]
      simp [exchangeSortAux]

/-- The loop nest of the top-N accessors is the exchange sort `exchangeSortAux`. -/
theorem sortDesc_eq (key : α → Int) (l : List α) :
    sortDesc key l = exchangeSortAux key (l.length - 1) l := by
  cases l with
  | nil => simp [sortDesc, exchangeSortAux]
  | cons x xs =>
    have h := foldl_sortPass key xs.length [] (x :: xs) (by simp)
    simp only [List.length_nil, List.nil_append] at h
    unfold sortDesc
    rw [List.range_eq_range']
    simpa using h

/-- The exchange sort rearranges its input. -/
theorem exchangeSortAux_perm (key : α → Int) (n : Nat) :
    ∀ l : List α, (exchangeSortAux key n l).Perm l := by
  induction n with
  | zero => intro l; exact List.Perm.refl _
  | succ n ih =>
    intro l
    cases l with
    | nil => exact List.Perm.refl _
    | cons x xs =>
      unfold exchangeSortAux
      exact ((ih _).cons _).trans (selectPass_perm key xs x)

/-- With enough passes the exchange sort leaves the counts in non-increasing
order. -/
theorem exchangeSortAux_sorted (key : α → Int) (n : Nat) :
    ∀ l : List α, l.length ≤ n + 1 →
      (exchangeSortAux key n l).Pairwise (fun a b => key a ≥ key b) := by
  induction n with
  | zero =>
    intro l hl
    match l, hl with
    | [], _ => exact List.Pairwise.nil
    | [x], _ => simp [exchangeSortAux]
  | succ n ih =>
    intro l hl
    cases l with
    | nil => exact List.Pairwise.nil
    | cons x xs =>
      unfold exchangeSortAux
      refine List.Pairwise.cons ?_ (ih _ ?_)
      · intro z hz
        have hz2 : z ∈ (selectPass key x xs).2 := (exchangeSortAux_perm key n _).subset hz
        exact (selectPass_ge key xs x).2 z hz2
      · rw [selectPass_length]; simpa using hl

/-- The exchange sort returns a slice in non-increasing order unchanged. -/
theorem exchangeSortAux_of_sorted (key : α → Int) (n : Nat) :
    ∀ l : List α, l.Pairwise (fun a b => key a ≥ key b) → exchangeSortAux key n l = l := by
  induction n with
  | zero => intro l _; rfl
  | succ n ih =>
    intro l hl
    cases l with
    | nil => rfl
    | cons x xs =>
      rw [List.pairwise_cons] at hl
      unfold exchangeSortAux
      rw [selectPass_of_ge key xs x (fun y hy => hl.1 y hy)]
      simp [ih xs hl.2]

/-- Among the elements of a count `K` that no element exceeds, a pass changes
nothing. -/
theorem selectPass_filter_top (key : α → Int) (K : Int) (ys : List α) :
    ∀ cur : α, key cur ≤ K → (∀ y ∈ ys, key y ≤ K) →
      ((selectPass key cur ys).1 :: (selectPass key cur ys).2).filter
          (fun x => decide (key x = K)) =
        (cur :: ys).filter (fun x => decide (key x = K)) := by
  induction ys with
  | nil => intro cur _ _; rfl
  | cons y ys ih =>
    intro cur hcur hys
    have hy : key y ≤ K := hys y (List.mem_cons_self _ _)
    have hrest : ∀ z ∈ ys, key z ≤ K := fun z hz => hys z (List.mem_cons_of_mem _ hz)
    by_cases hgt : key y > key cur
    · have hc : decide (key cur = K) = false := by
        have hne : ¬ key cur = K := by omega
        simpa using hne
      have h := ih y hy hrest
      rw [selectPass, if_pos hgt]
      simp only [List.filter_cons, hc, Bool.false_eq_true, if_false] at h ⊢
      exact h
    · by_cases hyK : key y = K
      · have hall : ∀ z ∈ ys, key z ≤ key cur := fun z hz => by
          have := hrest z hz; omega
        rw [selectPass, if_neg hgt, selectPass_of_ge key ys cur hall]
      · have hyc : decide (key y = K) = false := by simpa using hyK
        have h := ih cur hcur hrest
        rw [selectPass, if_neg hgt]
        simp only [List.filter_cons, hyc, Bool.false_eq_true, if_false] at h ⊢
        exact h

/-- Among the elements of a count `K` that no element exceeds, the exchange sort
changes nothing. -/
theorem exchangeSortAux_filter_top (key : α → Int) (K : Int) (n : Nat) :
    ∀ l : List α, (∀ x ∈ l, key x ≤ K) →
      (exchangeSortAux key n l).filter (fun x => decide (key x = K)) =
        l.filter (fun x => decide (key x = K)) := by
  induction n with
  | zero => intro l _; rfl
  | succ n ih =>
    intro l hl
    cases l with
    | nil => rfl
    | cons x xs =>
      have hperm := selectPass_perm key xs x
      have hr : ∀ z ∈ (selectPass key x xs).2, key z ≤ K := fun z hz =>
        hl z (hperm.subset (List.mem_cons_of_mem _ hz))
      have h := selectPass_filter_top key K xs x (hl x (List.mem_cons_self _ _))
        (fun y hy => hl y (List.mem_cons_of_mem _ hy))
      unfold exchangeSortAux
      rw [List.filter_cons] at h ⊢
      rw [ih _ hr, h]

/-- The sorted slice is a rearrangement of the fetched one. -/
theorem sortDesc_perm (key : α → Int) (l : List α) : (sortDesc key l).Perm l := by
  rw [sortDesc_eq]; exact exchangeSortAux_perm key _ l

/-- The sorted slice is in non-increasing order of the count. -/
theorem sortDesc_sorted (key : α → Int) (l : List α) :
    (sortDesc key l).Pairwise (fun a b => key a ≥ key b) := by
  rw [sortDesc_eq]; exact exchangeSortAux_sorted key _ l (by omega)

/-- Truncation returns the first `topCount` elements. -/
theorem truncate_eq_take (limit : Int) (a : List α) :
    truncate limit a = a.take (topCount limit a.length) := by
  unfold truncate topCount
  split
  · rfl
  · simp

/-- Sorted prefix property of the top-N computation. -/
theorem topN_sorted_prefix (key : α → Int) (limit : Int) (xs : List α) :
    ∃ ys : List α, ys.Perm xs ∧ ys.Pairwise (fun a b => key a ≥ key b) ∧
      truncate limit (sortDesc key xs) = ys.take (topCount limit xs.length) := by
  refine ⟨sortDesc key xs, sortDesc_perm key xs, sortDesc_sorted key xs, ?_⟩
  rw [truncate_eq_take, (sortDesc_perm key xs).length_eq]

/-- Ties at a count that no element exceeds keep their order in the top-N
result. -/
theorem topN_ties_top (key : α → Int) (limit K : Int) (xs : List α)
    (hK : ∀ x ∈ xs, key x ≤ K) :
    TiesInOrder key K xs (truncate limit (sortDesc key xs)) := by
  unfold TiesInOrder
  rw [truncate_eq_take, ← exchangeSortAux_filter_top key K (xs.length - 1) xs hK,
    ← sortDesc_eq]
  exact (List.take_sublist _ _).filter _

/-- A fetched slice that is already in non-increasing order is returned as it
is, up to truncation. -/
theorem topN_of_sorted (key : α → Int) (limit : Int) (xs : List α)
    (hs : xs.Pairwise (fun a b => key a ≥ key b)) :
    truncate limit (sortDesc key xs) = xs.take (topCount limit xs.length) := by
  rw [sortDesc_eq, exchangeSortAux_of_sorted key _ xs hs, truncate_eq_take]

end SortingProofs

/-- C10: for every fetched list and every limit, `GetTopChatsByMembers` returns
the first `L` elements of a rearrangement of the list that is in non-increasing
order of member count, where `L` is the limit if `0 < limit < len` and `len`
otherwise; likewise `GetTopChatsByPosts` with the post count and
`GetTopOrgsByUsers` with the user count. -/
theorem getTop_sorted_prefix (chats : List Chat) (orgs : List Org) (limit : Int) :
    (∃ ys : List Chat, ys.Perm chats ∧
      ys.Pairwise (fun a b => (a.MemberIDs.length : Int) ≥ (b.MemberIDs.length : Int)) ∧
      GetTopChatsByMembers (.ok chats) limit =
        .ok (ys.take (if 0 < limit ∧ limit < (chats.length : Int) then limit.toNat
          else chats.length))) ∧
    (∃ ys : List Chat, ys.Perm chats ∧
      ys.Pairwise (fun a b => a.PostsCount ≥ b.PostsCount) ∧
      GetTopChatsByPosts (.ok chats) limit =
        .ok (ys.take (if 0 < limit ∧ limit < (chats.length : Int) then limit.toNat
          else chats.length))) ∧
    (∃ ys : List Org, ys.Perm orgs ∧
      ys.Pairwise (fun a b => (a.Users.length : Int) ≥ (b.Users.length : Int)) ∧
      GetTopOrgsByUsers (.ok orgs) limit =
        .ok (ys.take (if 0 < limit ∧ limit < (orgs.length : Int) then limit.toNat
          else orgs.length))) := by
  refine ⟨?_, ?_, ?_⟩
  · obtain ⟨ys, hp, hs, he⟩ :=
      topN_sorted_prefix (fun c : Chat => (c.MemberIDs.length : Int)) limit chats
    exact ⟨ys, hp, hs, by rw [GetTopChatsByMembers, he]; rfl⟩
  · obtain ⟨ys, hp, hs, he⟩ := topN_sorted_prefix (fun c : Chat => c.PostsCount) limit chats
    exact ⟨ys, hp, hs, by rw [GetTopChatsByPosts, he]; rfl⟩
  · obtain ⟨ys, hp, hs, he⟩ :=
      topN_sorted_prefix (fun o : Org => (o.Users.length : Int)) limit orgs
    exact ⟨ys, hp, hs, by rw [GetTopOrgsByUsers, he]; rfl⟩

/-- C9 as stated fails: for the server-supplied list `tiedChats` (member counts
1, 1, 2) `GetTopChatsByMembers` returns the two one-member chats in the opposite
of their server order. -/
theorem getTop_not_stable :
    GetTopChatsByMembers (.ok tiedChats) 0 =
      .ok [chatWith 3 [10, 11], chatWith 2 [11], chatWith 1 [10]] ∧
    ¬ TiesInOrder (fun c : Chat => (c.MemberIDs.length : Int)) 1 tiedChats
      [chatWith 3 [10, 11], chatWith 2 [11], chatWith 1 [10]] := by
  refine ⟨rfl, ?_⟩
  unfold TiesInOrder
  decide

/-- C9, amended: the top-N accessors keep the server-supplied relative order of
the entries tied at a count `K` that no fetched entry exceeds (the ties at the
largest count), and they return a fetched list that is already in non-increasing
order of the count as it is, truncated to the first `L` entries. -/
theorem getTop_ties_at_top (chats : List Chat) (orgs : List Org) (limit K : Int) :
    ((∀ c ∈ chats, (c.MemberIDs.length : Int) ≤ K) →
      ∃ res, GetTopChatsByMembers (.ok chats) limit = .ok res ∧
        TiesInOrder (fun c : Chat => (c.MemberIDs.length : Int)) K chats res) ∧
    ((∀ c ∈ chats, c.PostsCount ≤ K) →
      ∃ res, GetTopChatsByPosts (.ok chats) limit = .ok res ∧
        TiesInOrder (fun c : Chat => c.PostsCount) K chats res) ∧
    ((∀ o ∈ orgs, (o.Users.length : Int) ≤ K) →
      ∃ res, GetTopOrgsByUsers (.ok orgs) limit = .ok res ∧
        TiesInOrder (fun o : Org => (o.Users.length : Int)) K orgs res) ∧
    (chats.Pairwise (fun a b => (a.MemberIDs.length : Int) ≥ (b.MemberIDs.length : Int)) →
      GetTopChatsByMembers (.ok chats) limit = .ok (chats.take (topCount limit chats.length))) ∧
    (chats.Pairwise (fun a b => a.PostsCount ≥ b.PostsCount) →
      GetTopChatsByPosts (.ok chats) limit = .ok (chats.take (topCount limit chats.length))) ∧
    (orgs.Pairwise (fun a b => (a.Users.length : Int) ≥ (b.Users.length : Int)) →
      GetTopOrgsByUsers (.ok orgs) limit = .ok (orgs.take (topCount limit orgs.length))) := by
  refine ⟨?_, ?_, ?_, ?_, ?_, ?_⟩
  · intro h
    exact ⟨_, rfl, topN_ties_top _ limit K chats h⟩
  · intro h
    exact ⟨_, rfl, topN_ties_top _ limit K chats h⟩
  · intro h
    exact ⟨_, rfl, topN_ties_top _ limit K orgs h⟩
  · intro h
    rw [GetTopChatsByMembers, topN_of_sorted _ limit chats h]
  · intro h
    rw [GetTopChatsByPosts, topN_of_sorted _ limit chats h]
  · intro h
    rw [GetTopOrgsByUsers, topN_of_sorted _ limit orgs h]

/-- Witness of the amended C9 at the list with member counts 3, 5, 5, 1 and the
limit 2: the two chats with five members come out in server order. -/
theorem getTop_ties_at_top_witness :
    (∃ res, GetTopChatsByMembers (.ok specChats) 2 = .ok res ∧
      TiesInOrder (fun c : Chat => (c.MemberIDs.length : Int)) 5 specChats res) ∧
    GetTopChatsByMembers (.ok specChats) 2 =
      .ok [chatWith 2 [1, 2, 3, 4, 5], chatWith 3 [6, 7, 8, 9, 10]] :=
  ⟨(getTop_ties_at_top specChats [] 2 5).1 (by decide), rfl⟩

/-! ## Theorems: string search and error classification -/

/-- `strings.HasPrefix` decides the prefix relation. -/
theorem stringsHasPrefix_iff (s p : GoString) : stringsHasPrefix s p = true ↔ p <+: s := by
  induction s generalizing p with
  | nil => cases p <;> simp [stringsHasPrefix]
  | cons a s ih =>
    cases p with
    | nil => simp [stringsHasPrefix]
    | cons b p =>
      simp only [stringsHasPrefix, Bool.and_eq_true, beq_iff_eq, ih, List.cons_prefix_cons]
      constructor
      · rintro ⟨h1, h2⟩; exact ⟨h1.symm, h2⟩
      · rintro ⟨h1, h2⟩; exact ⟨h1.symm, h2⟩

/-- `strings.Contains` decides the contiguous-sublist relation. -/
theorem stringsContains_iff (s substr : GoString) :
    stringsContains s substr = true ↔ substr <:+: s := by
  induction s with
  | nil =>
    simp only [stringsContains, stringsHasPrefix_iff]
    constructor
    · intro h; exact h.isInfix
    · intro h
      have : substr = [] := List.eq_nil_of_infix_nil h
      rw [this]
  | cons a s ih =>
    simp only [stringsContains, Bool.or_eq_true, stringsHasPrefix_iff, ih]
    exact (List.infix_cons_iff).symm

/-- A message that ends with ` not found` contains `not found`. -/
theorem contains_not_found (pre : GoString) :
    stringsContains (pre ++ ascii " not found") (ascii "not found") = true := by
  rw [stringsContains_iff]
  refine ⟨pre ++ [0x20], [], ?_⟩
  have : ascii " not found" = [0x20] ++ ascii "not found" := by decide
  rw [this]
  simp

/-- C19: `IsAccessDeniedError` holds exactly when the message contains
`access_deny`, `IsValidationError` exactly when it contains `validation error` or
`tamtam_response_api`, `IsNotFoundError` exactly when it contains `not found`;
all three are false for the nil error; and every one of the eight combinations
of truth values is attained by some error. -/
theorem errorPredicates_spec :
    (∀ msg : GoError, IsAccessDeniedError (some msg) = true ↔ ascii "access_deny" <:+: msg) ∧
    (∀ msg : GoError, IsValidationError (some msg) = true ↔
      (ascii "validation error" <:+: msg ∨ ascii "tamtam_response_api" <:+: msg)) ∧
    (∀ msg : GoError, IsNotFoundError (some msg) = true ↔ ascii "not found" <:+: msg) ∧
    (IsAccessDeniedError none = false ∧ IsValidationError none = false ∧
      IsNotFoundError none = false) ∧
    (∀ a v n : Bool, ∃ msg : GoError, IsAccessDeniedError (some msg) = a ∧
      IsValidationError (some msg) = v ∧ IsNotFoundError (some msg) = n) := by
  refine ⟨?_, ?_, ?_, ⟨rfl, rfl, rfl⟩, ?_⟩
  · intro msg; simp [IsAccessDeniedError, stringsContains_iff]
  · intro msg; simp [IsValidationError, stringsContains_iff]
  · intro msg; simp [IsNotFoundError, stringsContains_iff]
  · intro a v n
    cases a <;> cases v <;> cases n
    · exact ⟨ascii "timeout", by decide⟩
    · exact ⟨ascii "not found", by decide⟩
    · exact ⟨ascii "validation error", by decide⟩
    · exact ⟨ascii "validation error: not found", by decide⟩
    · exact ⟨ascii "access_deny", by decide⟩
    · exact ⟨ascii "access_deny: not found", by decide⟩
    · exact ⟨ascii "validation error: access_deny", by decide⟩
    · exact ⟨ascii "validation error: access_deny, not found", by decide⟩

/-! ## Theorems: transport errors -/

/-- C18: for a non-2xx status `s` and body `b`, `do` returns the error of
`handleError`: if `b` decodes as a `{code, message}` envelope with non-empty
code, the message carries the code, the message text and `s`; otherwise, if `b`
decodes as a validation envelope whose discriminator is true, it is a
`validation error` carrying the envelope's text and `s`; otherwise it is exactly
`API request failed with status <s>: <b>`. -/
theorem handleError_spec (env : Env) (s : Int) (b : GoString) :
    (∀ {α : Type} (log : List Request) (req : Request)
        (unmarshal : GoString → Except GoError α),
      env.roundTrip log req = .response s b → (s < 200 ∨ s > 299) →
        Client.do env log req unmarshal =
          (.error (Client.handleError env s b), log ++ [req])) ∧
    (∀ r : ErrorResponse, env.unmarshalError b = some r → r.Code ≠ [] →
      Client.handleError env s b =
        ascii "API error (code=" ++ r.Code ++ ascii "): " ++ r.Message ++
          ascii " (status=" ++ FormatInt s ++ ascii ")") ∧
    ((∀ r : ErrorResponse, env.unmarshalError b = some r → r.Code = []) →
      ∀ v : ValidationErrorResponse, env.unmarshalValidation b = some v →
        v.TamtamResponseAPI = true →
          Client.handleError env s b =
              ascii "validation error: " ++ v.Error ++
                ascii " (status=" ++ FormatInt s ++ ascii ")" ∧
            IsValidationError (some (Client.handleError env s b)) = true) ∧
    ((∀ r : ErrorResponse, env.unmarshalError b = some r → r.Code = []) →
      (∀ v : ValidationErrorResponse, env.unmarshalValidation b = some v →
        v.TamtamResponseAPI = false) →
      Client.handleError env s b =
        ascii "API request failed with status " ++ FormatInt s ++ ascii ": " ++ b) := by
  have hfilterE : (∀ r : ErrorResponse, env.unmarshalError b = some r → r.Code = []) →
      (env.unmarshalError b).filter (fun r => decide (r.Code ≠ [])) = none := by
    intro h
    cases he : env.unmarshalError b with
    | none => rfl
    | some r => simp [Option.filter, h r he]
  refine ⟨?_, ?_, ?_, ?_⟩
  · intro α log req unmarshal hrt hs
    unfold Client.do
    rw [hrt]
    simp [hs]
  · intro r hr hcode
    unfold Client.handleError
    rw [hr]
    simp [Option.filter, hcode]
  · intro hnoE v hv ht
    have hmsg : Client.handleError env s b =
        ascii "validation error: " ++ v.Error ++
          ascii " (status=" ++ FormatInt s ++ ascii ")" := by
      unfold Client.handleError
      rw [hfilterE hnoE, hv]
      simp [Option.filter, ht]
    refine ⟨hmsg, ?_⟩
    rw [hmsg]
    simp only [IsValidationError, Bool.or_eq_true, stringsContains_iff]
    left
    refine ⟨[], [0x3a, 0x20] ++ v.Error ++ ascii " (status=" ++ FormatInt s ++ ascii ")", ?_⟩
    have : ascii "validation error: " = ascii "validation error" ++ [0x3a, 0x20] := by decide
    rw [this]
    simp
  · intro hnoE hnoV
    unfold Client.handleError
    rw [hfilterE hnoE]
    cases hv : env.unmarshalValidation b with
    | none => rfl
    | some v => simp [Option.filter, hnoV v hv]

/-- Witness of C18: a server that answers 404 with the body `gone`, a body that is
no error envelope. -/
theorem handleError_spec_witness :
    Client.do (demoEnv (fun _ => .response 404 (ascii "gone"))) []
        ⟨ascii "GET", ascii "u", [], none⟩
        (demoEnv (fun _ => .response 404 (ascii "gone"))).unmarshalUsers =
      (.error (ascii "API request failed with status 404: gone"),
        [⟨ascii "GET", ascii "u", [], none⟩]) := by
  have h := handleError_spec (demoEnv (fun _ => .response 404 (ascii "gone"))) 404
    (ascii "gone")
  have h1 := h.1 [] ⟨ascii "GET", ascii "u", [], none⟩
    (demoEnv (fun _ => .response 404 (ascii "gone"))).unmarshalUsers rfl (by decide)
  have h4 := h.2.2.2 (fun r hr => by simp [demoEnv] at hr) (fun v hv => by simp [demoEnv] at hv)
  rw [h1, h4]
  rfl

/-! ## Theorems: single fetches -/

/-- C11: when the batch fetch behind it succeeds, `GetUserByID`,
`GetUserByUniqueName`, `GetChatByID` and `GetOrganizationByID` fail with an error
for which `IsNotFoundError` holds if the returned collection is empty, and
otherwise return its first element; no further request is issued. -/
theorem getOne_spec (env : Env) (c : Client) (log : List Request) (id : Int)
    (name : GoString) :
    (∀ users log', c.GetUsersByIDs env [id] log = (.ok users, log') →
      match users.head? with
      | none => ∃ err, c.GetUserByID env id log = (.error err, log') ∧
          IsNotFoundError (some err) = true
      | some u => c.GetUserByID env id log = (.ok u, log')) ∧
    (∀ users log', c.GetUsersByUniqueNames env [name] log = (.ok users, log') →
      match users.head? with
      | none => ∃ err, c.GetUserByUniqueName env name log = (.error err, log') ∧
          IsNotFoundError (some err) = true
      | some u => c.GetUserByUniqueName env name log = (.ok u, log')) ∧
    (∀ chats log', c.GetChatsByIDs env [id] log = (.ok chats, log') →
      match chats.head? with
      | none => ∃ err, c.GetChatByID env id log = (.error err, log') ∧
          IsNotFoundError (some err) = true
      | some ch => c.GetChatByID env id log = (.ok ch, log')) ∧
    (∀ orgs log', c.GetOrganizationsByIDs env [id] log = (.ok orgs, log') →
      match orgs.head? with
      | none => ∃ err, c.GetOrganizationByID env id log = (.error err, log') ∧
          IsNotFoundError (some err) = true
      | some o => c.GetOrganizationByID env id log = (.ok o, log')) := by
  refine ⟨?_, ?_, ?_, ?_⟩
  · intro users log' h
    unfold Client.GetUserByID
    rw [h]
    cases users with
    | nil => exact ⟨_, rfl, by
        simp only [IsNotFoundError, List.append_assoc]; exact contains_not_found _⟩
    | cons u rest => rfl
  · intro users log' h
    unfold Client.GetUserByUniqueName
    rw [h]
    cases users with
    | nil => exact ⟨_, rfl, by
        simp only [IsNotFoundError, List.append_assoc]; exact contains_not_found _⟩
    | cons u rest => rfl
  · intro chats log' h
    unfold Client.GetChatByID
    rw [h]
    cases chats with
    | nil => exact ⟨_, rfl, by
        simp only [IsNotFoundError, List.append_assoc]; exact contains_not_found _⟩
    | cons u rest => rfl
  · intro orgs log' h
    unfold Client.GetOrganizationByID
    rw [h]
    cases orgs with
    | nil => exact ⟨_, rfl, by
        simp only [IsNotFoundError, List.append_assoc]; exact contains_not_found _⟩
    | cons u rest => rfl

/-- Witness of C11: the server answers the user fetch with an empty collection,
and `GetUserByID 7` fails with `user with id 7 not found`. -/
theorem getOne_spec_witness :
    ∃ err, demoClient.GetUserByID (demoEnv (fun _ => .response 200 [])) 7 [] =
        (.error err,
          [⟨ascii "GET", ascii "https://api.verbosity.io/core/user?ids=7",
            [(ascii "X-APIToken", ascii "0123456789abcdefABCDrest"),
              (ascii "Accept", ascii "application/json")], none⟩]) ∧
      IsNotFoundError (some err) = true :=
  (getOne_spec (demoEnv (fun _ => .response 200 [])) demoClient [] 7 []).1 [] _ rfl

/-! ## Theorems: batch fetches -/

/-- `Values.Encode` of a mapping with one key and one value. -/
theorem encode_single (k v : GoString) :
    Values.Encode [(k, [v])] = QueryEscape k ++ ascii "=" ++ QueryEscape v := by
  simp [Values.Encode, insertByKey, encodeEntry, stringsJoin]

/-- `do` hands exactly the given request to the HTTP client. -/
theorem do_log {α : Type} (env : Env) (log : List Request) (req : Request)
    (unmarshal : GoString → Except GoError α) :
    (Client.do env log req unmarshal).2 = log ++ [req] := by
  unfold Client.do
  cases env.roundTrip log req with
  | doError e => rfl
  | readError e => rfl
  | response status body =>
    dsimp only
    split
    · rfl
    · cases unmarshal body <;> rfl

/-- The request `newRequest` builds for a one-entry mapping, when
`http.NewRequest` accepts its URL. -/
theorem newRequest_single (env : Env) (c : Client) (path k v : GoString)
    (hk : QueryEscape k = k)
    (hurl : env.newRequestError (ascii "GET") (batchRequest c path k v).URL = none) :
    c.newRequest env (ascii "GET") path [(k, [v])] none = .ok (batchRequest c path k v) := by
  unfold Client.newRequest
  simp only [List.length_singleton, Nat.lt_one_iff, if_true, zero_lt_one, encode_single, hk]
  unfold batchRequest at hurl
  simp only at hurl
  rw [hurl]
  rfl

/-- The request `newRequest` builds without parameters, when `http.NewRequest`
accepts its URL. -/
theorem newRequest_plain (env : Env) (c : Client) (path : GoString)
    (hurl : env.newRequestError (ascii "GET") (syncRequest c path).URL = none) :
    c.newRequest env (ascii "GET") path [] none = .ok (syncRequest c path) := by
  unfold Client.newRequest
  unfold syncRequest at hurl
  simp only [List.length_nil, Nat.lt_irrefl, if_false]
  simp only at hurl
  rw [hurl]
  rfl

/-- A fetch whose request can be built issues exactly that request. -/
theorem fetch_log {α : Type} (env : Env) (c : Client) (method path : GoString)
    (params : Values) (body : Option GoString) (unmarshal : GoString → Except GoError α)
    (log : List Request) (req : Request)
    (h : c.newRequest env method path params body = .ok req) :
    (c.fetch env method path params body unmarshal log).2 = log ++ [req] := by
  unfold Client.fetch
  rw [h]
  exact do_log env log req unmarshal

/-- A fetch that succeeds has issued exactly the request it built. -/
theorem fetch_ok {α : Type} (env : Env) (c : Client) (method path : GoString)
    (params : Values) (body : Option GoString) (unmarshal : GoString → Except GoError α)
    (log log' : List Request) (v : α)
    (h : c.fetch env method path params body unmarshal log = (.ok v, log')) :
    ∃ req, c.newRequest env method path params body = .ok req ∧ log' = log ++ [req] := by
  unfold Client.fetch at h
  cases hreq : c.newRequest env method path params body with
  | error e => rw [hreq] at h; simp at h
  | ok req =>
    rw [hreq] at h
    refine ⟨req, rfl, ?_⟩
    have hlog := do_log env log req unmarshal
    have h' : Client.do env log req unmarshal = (.ok v, log') := h
    rw [h'] at hlog
    exact hlog

/-- A non-empty slice has a non-zero length. -/
theorem length_ne_zero_of_ne_nil {β : Type} (l : List β) (hl : l ≠ []) : ¬ l.length = 0 :=
  fun h => hl (List.length_eq_zero.mp h)

/-- The one request of `GetUsersByIDs` with a non-empty list. -/
theorem getUsersByIDs_request (env : Env) (c : Client) (log : List Request)
    (ids : List Int) (hne : ids ≠ [])
    (hurl : env.newRequestError (ascii "GET")
      (batchRequest c (ascii "/core/user") (ascii "ids")
        (stringsJoin (ids.map FormatInt) (ascii ","))).URL = none) :
    c.newRequest env (ascii "GET") (ascii "/core/user")
        [(ascii "ids", [stringsJoin (ids.map FormatInt) (ascii ",")])] none =
      .ok (batchRequest c (ascii "/core/user") (ascii "ids")
        (stringsJoin (ids.map FormatInt) (ascii ","))) ∧
    (c.GetUsersByIDs env ids log).2 =
      log ++ [batchRequest c (ascii "/core/user") (ascii "ids")
        (stringsJoin (ids.map FormatInt) (ascii ","))] := by
  have hreq := newRequest_single env c (ascii "/core/user") (ascii "ids") _ (by decide) hurl
  refine ⟨hreq, ?_⟩
  unfold Client.GetUsersByIDs
  rw [if_neg (length_ne_zero_of_ne_nil ids hne)]
  exact fetch_log env c _ _ _ _ _ log _ hreq

/-- The one request of `GetChatsByIDs` with a non-empty list. -/
theorem getChatsByIDs_request (env : Env) (c : Client) (log : List Request)
    (ids : List Int) (hne : ids ≠ [])
    (hurl : env.newRequestError (ascii "GET")
      (batchRequest c (ascii "/core/chat") (ascii "ids")
        (stringsJoin (ids.map FormatInt) (ascii ","))).URL = none) :
    c.newRequest env (ascii "GET") (ascii "/core/chat")
        [(ascii "ids", [stringsJoin (ids.map FormatInt) (ascii ",")])] none =
      .ok (batchRequest c (ascii "/core/chat") (ascii "ids")
        (stringsJoin (ids.map FormatInt) (ascii ","))) ∧
    (c.GetChatsByIDs env ids log).2 =
      log ++ [batchRequest c (ascii "/core/chat") (ascii "ids")
        (stringsJoin (ids.map FormatInt) (ascii ","))] := by
  have hreq := newRequest_single env c (ascii "/core/chat") (ascii "ids") _ (by decide) hurl
  refine ⟨hreq, ?_⟩
  unfold Client.GetChatsByIDs
  rw [if_neg (length_ne_zero_of_ne_nil ids hne)]
  exact fetch_log env c _ _ _ _ _ log _ hreq

/-- The one request of `GetOrganizationsByIDs` with a non-empty list. -/
theorem getOrganizationsByIDs_request (env : Env) (c : Client) (log : List Request)
    (ids : List Int) (hne : ids ≠ [])
    (hurl : env.newRequestError (ascii "GET")
      (batchRequest c (ascii "/core/org") (ascii "ids")
        (stringsJoin (ids.map FormatInt) (ascii ","))).URL = none) :
    c.newRequest env (ascii "GET") (ascii "/core/org")
        [(ascii "ids", [stringsJoin (ids.map FormatInt) (ascii ",")])] none =
      .ok (batchRequest c (ascii "/core/org") (ascii "ids")
        (stringsJoin (ids.map FormatInt) (ascii ","))) ∧
    (c.GetOrganizationsByIDs env ids log).2 =
      log ++ [batchRequest c (ascii "/core/org") (ascii "ids")
        (stringsJoin (ids.map FormatInt) (ascii ","))] := by
  have hreq := newRequest_single env c (ascii "/core/org") (ascii "ids") _ (by decide) hurl
  refine ⟨hreq, ?_⟩
  unfold Client.GetOrganizationsByIDs
  rw [if_neg (length_ne_zero_of_ne_nil ids hne)]
  exact fetch_log env c _ _ _ _ _ log _ hreq

/-- The one request of `GetUsersByUniqueNames` with a non-empty list. -/
theorem getUsersByUniqueNames_request (env : Env) (c : Client) (log : List Request)
    (names : List GoString) (hne : names ≠ [])
    (hurl : env.newRequestError (ascii "GET")
      (batchRequest c (ascii "/core/user") (ascii "unames")
        (stringsJoin names (ascii ","))).URL = none) :
    c.newRequest env (ascii "GET") (ascii "/core/user")
        [(ascii "unames", [stringsJoin names (ascii ",")])] none =
      .ok (batchRequest c (ascii "/core/user") (ascii "unames")
        (stringsJoin names (ascii ","))) ∧
    (c.GetUsersByUniqueNames env names log).2 =
      log ++ [batchRequest c (ascii "/core/user") (ascii "unames")
        (stringsJoin names (ascii ","))] := by
  have hreq := newRequest_single env c (ascii "/core/user") (ascii "unames") _ (by decide) hurl
  refine ⟨hreq, ?_⟩
  unfold Client.GetUsersByUniqueNames
  rw [if_neg (length_ne_zero_of_ne_nil names hne)]
  exact fetch_log env c _ _ _ _ _ log _ hreq

/-- C12 as stated fails: with an API URL that `http.NewRequest` refuses, here one
that ends in a line feed, each batch fetch with a non-empty list returns the
error of the request construction and issues no request. -/
theorem batchFetch_unbuildable_request :
    lineFeedClient.GetUsersByIDs (parsingEnv (fun _ => .response 200 [])) [7] [] =
      (.error (ascii "failed to create request: net/url: invalid control character in URL"),
        []) ∧
    lineFeedClient.GetChatsByIDs (parsingEnv (fun _ => .response 200 [])) [7] [] =
      (.error (ascii "failed to create request: net/url: invalid control character in URL"),
        []) ∧
    lineFeedClient.GetOrganizationsByIDs (parsingEnv (fun _ => .response 200 [])) [7] [] =
      (.error (ascii "failed to create request: net/url: invalid control character in URL"),
        []) ∧
    lineFeedClient.GetUsersByUniqueNames (parsingEnv (fun _ => .response 200 []))
        [ascii "alice"] [] =
      (.error (ascii "failed to create request: net/url: invalid control character in URL"),
        []) := by
  exact ⟨rfl, rfl, rfl, rfl⟩

/-- C12, amended: a batch fetch by ids (`GetUsersByIDs`, `GetChatsByIDs`,
`GetOrganizationsByIDs`) or by unique names (`GetUsersByUniqueNames`) with an
empty list returns an error and issues no request; with a non-empty list,
provided `http.NewRequest` accepts the URL, it issues exactly one request, the
one `newRequest` builds from the parameter mapping `ids` ↦ the decimal renderings
of the ids joined by `,` in input order (`unames` ↦ the names joined by `,`). -/
theorem batchFetch_spec (env : Env) (c : Client) (log : List Request) (ids : List Int)
    (names : List GoString) :
    (c.GetUsersByIDs env [] log = (.error (ascii "ids slice cannot be empty"), log) ∧
      c.GetChatsByIDs env [] log = (.error (ascii "ids slice cannot be empty"), log) ∧
      c.GetOrganizationsByIDs env [] log =
        (.error (ascii "ids slice cannot be empty"), log) ∧
      c.GetUsersByUniqueNames env [] log =
        (.error (ascii "unique names slice cannot be empty"), log)) ∧
    (ids ≠ [] →
      env.newRequestError (ascii "GET")
        (batchRequest c (ascii "/core/user") (ascii "ids")
          (stringsJoin (ids.map FormatInt) (ascii ","))).URL = none →
      c.newRequest env (ascii "GET") (ascii "/core/user")
          [(ascii "ids", [stringsJoin (ids.map FormatInt) (ascii ",")])] none =
        .ok (batchRequest c (ascii "/core/user") (ascii "ids")
          (stringsJoin (ids.map FormatInt) (ascii ","))) ∧
      (c.GetUsersByIDs env ids log).2 =
        log ++ [batchRequest c (ascii "/core/user") (ascii "ids")
          (stringsJoin (ids.map FormatInt) (ascii ","))]) ∧
    (ids ≠ [] →
      env.newRequestError (ascii "GET")
        (batchRequest c (ascii "/core/chat") (ascii "ids")
          (stringsJoin (ids.map FormatInt) (ascii ","))).URL = none →
      c.newRequest env (ascii "GET") (ascii "/core/chat")
          [(ascii "ids", [stringsJoin (ids.map FormatInt) (ascii ",")])] none =
        .ok (batchRequest c (ascii "/core/chat") (ascii "ids")
          (stringsJoin (ids.map FormatInt) (ascii ","))) ∧
      (c.GetChatsByIDs env ids log).2 =
        log ++ [batchRequest c (ascii "/core/chat") (ascii "ids")
          (stringsJoin (ids.map FormatInt) (ascii ","))]) ∧
    (ids ≠ [] →
      env.newRequestError (ascii "GET")
        (batchRequest c (ascii "/core/org") (ascii "ids")
          (stringsJoin (ids.map FormatInt) (ascii ","))).URL = none →
      c.newRequest env (ascii "GET") (ascii "/core/org")
          [(ascii "ids", [stringsJoin (ids.map FormatInt) (ascii ",")])] none =
        .ok (batchRequest c (ascii "/core/org") (ascii "ids")
          (stringsJoin (ids.map FormatInt) (ascii ","))) ∧
      (c.GetOrganizationsByIDs env ids log).2 =
        log ++ [batchRequest c (ascii "/core/org") (ascii "ids")
          (stringsJoin (ids.map FormatInt) (ascii ","))]) ∧
    (names ≠ [] →
      env.newRequestError (ascii "GET")
        (batchRequest c (ascii "/core/user") (ascii "unames")
          (stringsJoin names (ascii ","))).URL = none →
      c.newRequest env (ascii "GET") (ascii "/core/user")
          [(ascii "unames", [stringsJoin names (ascii ",")])] none =
        .ok (batchRequest c (ascii "/core/user") (ascii "unames")
          (stringsJoin names (ascii ","))) ∧
      (c.GetUsersByUniqueNames env names log).2 =
        log ++ [batchRequest c (ascii "/core/user") (ascii "unames")
          (stringsJoin names (ascii ","))]) := by
  exact ⟨⟨rfl, rfl, rfl, rfl⟩,
    fun hne hurl => getUsersByIDs_request env c log ids hne hurl,
    fun hne hurl => getChatsByIDs_request env c log ids hne hurl,
    fun hne hurl => getOrganizationsByIDs_request env c log ids hne hurl,
    fun hne hurl => getUsersByUniqueNames_request env c log names hne hurl⟩

/-- Witness of the amended C12: `GetUsersByIDs [7, -3]` issues the one request for
`ids=7%2C-3`. -/
theorem batchFetch_spec_witness :
    (demoClient.GetUsersByIDs (demoEnv (fun _ => .response 200 [])) [7, -3] []).2 =
      [batchRequest demoClient (ascii "/core/user") (ascii "ids") (ascii "7,-3")] ∧
    (batchRequest demoClient (ascii "/core/user") (ascii "ids") (ascii "7,-3")).URL =
      ascii "https://api.verbosity.io/core/user?ids=7%2C-3" :=
  ⟨((batchFetch_spec (demoEnv (fun _ => .response 200 [])) demoClient [] [7, -3] []).2.1
      (by decide) rfl).2, by decide⟩

/-- The value of the byte `Nat.toUInt8 k` for `k < 256`. -/
theorem toUInt8_toNat (k : Nat) (hk : k < 256) : (k.toUInt8).toNat = k := by
  simp [Nat.toUInt8, UInt8.toNat, UInt8.ofNat, Fin.ofNat]
  omega

/-- Decimal digits and the minus sign are not query-escaped. -/
theorem shouldEscapeQuery_digit (b : UInt8)
    (h : (48 ≤ b.toNat ∧ b.toNat ≤ 57) ∨ b.toNat = 45) : shouldEscapeQuery b = false := by
  unfold shouldEscapeQuery
  rcases h with h | h
  · have h1 : (0x30 : UInt8) ≤ b ∧ b ≤ 0x39 := by
      rw [uint8_le_iff, uint8_le_iff]
      exact h
    simp [h1]
  · have hb : b = 0x2d := UInt8.ext (by rw [h]; rfl)
    subst hb
    decide

/-- The bytes produced by `digitsAux` are decimal digits. -/
theorem digitsAux_digits (fuel : Nat) :
    ∀ (n : Nat) (acc : List UInt8),
      (∀ b ∈ acc, (48 ≤ b.toNat ∧ b.toNat ≤ 57) ∨ b.toNat = 45) →
      ∀ b ∈ digitsAux fuel n acc, (48 ≤ b.toNat ∧ b.toNat ≤ 57) ∨ b.toNat = 45 := by
  induction fuel with
  | zero => intro n acc hacc b hb; exact hacc b hb
  | succ f ih =>
    intro n acc hacc b hb
    unfold digitsAux at hb
    split at hb
    · rename_i hlt
      rcases List.mem_cons.mp hb with hb | hb
      · left
        rw [hb, toUInt8_toNat _ (by omega)]
        omega
      · exact hacc b hb
    · refine ih _ _ ?_ b hb
      intro x hx
      rcases List.mem_cons.mp hx with hx | hx
      · left
        rw [hx, toUInt8_toNat _ (by omega)]
        omega
      · exact hacc x hx

/-- The bytes of a decimal rendering are digits or the minus sign. -/
theorem formatInt_bytes (i : Int) :
    ∀ b ∈ FormatInt i, (48 ≤ b.toNat ∧ b.toNat ≤ 57) ∨ b.toNat = 45 := by
  intro b hb
  unfold FormatInt at hb
  split at hb
  · rcases List.mem_cons.mp hb with hb | hb
    · right; rw [hb]; rfl
    · exact digitsAux_digits _ _ [] (by simp) b hb
  · exact digitsAux_digits _ _ [] (by simp) b hb

/-- Query escaping leaves a string of unescaped bytes as it is. -/
theorem queryEscape_of_plain (s : GoString) (h : ∀ b ∈ s, shouldEscapeQuery b = false) :
    QueryEscape s = s := by
  induction s with
  | nil => rfl
  | cons a s ih =>
    have ha := h a (List.mem_cons_self _ _)
    have hs := ih (fun b hb => h b (List.mem_cons_of_mem _ hb))
    unfold QueryEscape at hs ⊢
    rw [List.flatMap_cons, hs]
    simp [queryEscapeByte, ha]

/-- Query escaping works byte by byte. -/
theorem queryEscape_append (s t : GoString) :
    QueryEscape (s ++ t) = QueryEscape s ++ QueryEscape t := by
  simp [QueryEscape, List.flatMap_append]

/-- Query escaping of a comma-joined list: every comma becomes `%2C`. -/
theorem queryEscape_join (l : List GoString) :
    QueryEscape (stringsJoin l (ascii ",")) =
      stringsJoin (l.map QueryEscape) (ascii "%2C") := by
  induction l with
  | nil => rfl
  | cons a rest ih =>
    cases rest with
    | nil => rfl
    | cons b rest =>
      have hcomma : QueryEscape (ascii ",") = ascii "%2C" := by decide
      simp only [stringsJoin, List.map_cons, queryEscape_append, hcomma] at ih ⊢
      rw [ih]

/-- The query-escaped id parameter: the decimal renderings joined by `%2C`. -/
theorem queryEscape_joinIDs (ids : List Int) :
    QueryEscape (stringsJoin (ids.map FormatInt) (ascii ",")) =
      stringsJoin (ids.map FormatInt) (ascii "%2C") := by
  rw [queryEscape_join, List.map_map]
  congr 1
  apply List.map_congr_left
  intro i _
  exact queryEscape_of_plain _ (fun b hb => shouldEscapeQuery_digit b (formatInt_bytes i b hb))

/-- C13 as stated fails: for the ids 11, 12, 15 the URL requested by
`GetChatsByIDs` (and by `GetUsersByIDs`, `GetOrganizationsByIDs`) has `%2C` where
the claim has literal commas. -/
theorem batchURL_not_literal :
    (demoClient.GetChatsByIDs (demoEnv (fun _ => .response 200 [])) [11, 12, 15] []).2.map
        (fun r => r.URL) =
      [ascii "https://api.verbosity.io/core/chat?ids=11%2C12%2C15"] ∧
    (demoClient.GetUsersByIDs (demoEnv (fun _ => .response 200 [])) [11, 12, 15] []).2.map
        (fun r => r.URL) =
      [ascii "https://api.verbosity.io/core/user?ids=11%2C12%2C15"] ∧
    (demoClient.GetOrganizationsByIDs (demoEnv (fun _ => .response 200 [])) [11, 12, 15]
        []).2.map (fun r => r.URL) =
      [ascii "https://api.verbosity.io/core/org?ids=11%2C12%2C15"] ∧
    ascii "https://api.verbosity.io/core/chat?ids=11%2C12%2C15" ≠
      demoClient.config.APIURL ++ ascii "/core/chat?ids=11,12,15" := by
  decide

/-- C13, amended: the URL requested by a batch fetch is the base URL followed by
the documented path and the query `ids=` with the decimal renderings of the ids
joined by `%2C`, the query-escaped comma (`/core/chat?ids=11%2C12%2C15` for the
ids 11, 12, 15). -/
theorem batchURL_escaped (env : Env) (c : Client) (log : List Request) (ids : List Int)
    (hne : ids ≠ [])
    (hchat : env.newRequestError (ascii "GET")
      (c.config.APIURL ++ ascii "/core/chat" ++
        (ascii "?" ++ (ascii "ids" ++ ascii "=" ++
          stringsJoin (ids.map FormatInt) (ascii "%2C")))) = none)
    (huser : env.newRequestError (ascii "GET")
      (c.config.APIURL ++ ascii "/core/user" ++
        (ascii "?" ++ (ascii "ids" ++ ascii "=" ++
          stringsJoin (ids.map FormatInt) (ascii "%2C")))) = none)
    (horg : env.newRequestError (ascii "GET")
      (c.config.APIURL ++ ascii "/core/org" ++
        (ascii "?" ++ (ascii "ids" ++ ascii "=" ++
          stringsJoin (ids.map FormatInt) (ascii "%2C")))) = none) :
    (∃ req, (c.GetChatsByIDs env ids log).2 = log ++ [req] ∧
      req.URL = c.config.APIURL ++ ascii "/core/chat" ++ ascii "?ids=" ++
        stringsJoin (ids.map FormatInt) (ascii "%2C")) ∧
    (∃ req, (c.GetUsersByIDs env ids log).2 = log ++ [req] ∧
      req.URL = c.config.APIURL ++ ascii "/core/user" ++ ascii "?ids=" ++
        stringsJoin (ids.map FormatInt) (ascii "%2C")) ∧
    (∃ req, (c.GetOrganizationsByIDs env ids log).2 = log ++ [req] ∧
      req.URL = c.config.APIURL ++ ascii "/core/org" ++ ascii "?ids=" ++
        stringsJoin (ids.map FormatInt) (ascii "%2C")) := by
  have hlen : ¬ ids.length = 0 := fun h => hne (List.length_eq_zero.mp h)
  have hq : ascii "?" ++ (ascii "ids" ++ ascii "=") = ascii "?ids=" := by decide
  have hurl : ∀ path : GoString,
      (batchRequest c path (ascii "ids") (stringsJoin (ids.map FormatInt) (ascii ","))).URL =
        c.config.APIURL ++ path ++ (ascii "?" ++ (ascii "ids" ++ ascii "=" ++
          stringsJoin (ids.map FormatInt) (ascii "%2C"))) := by
    intro path
    simp only [batchRequest, queryEscape_joinIDs]
  have hfinal : ∀ path : GoString,
      c.config.APIURL ++ path ++ (ascii "?" ++ (ascii "ids" ++ ascii "=" ++
          stringsJoin (ids.map FormatInt) (ascii "%2C"))) =
        c.config.APIURL ++ path ++ ascii "?ids=" ++
          stringsJoin (ids.map FormatInt) (ascii "%2C") := by
    intro path
    rw [← hq]
    simp only [List.append_assoc]
  refine ⟨?_, ?_, ?_⟩
  · have hreq := newRequest_single env c (ascii "/core/chat") (ascii "ids")
      (stringsJoin (ids.map FormatInt) (ascii ",")) (by decide) (by rw [hurl]; exact hchat)
    refine ⟨_, ?_, (hurl _).trans (hfinal _)⟩
    unfold Client.GetChatsByIDs
    rw [if_neg hlen]
    exact fetch_log env c _ _ _ _ _ log _ hreq
  · have hreq := newRequest_single env c (ascii "/core/user") (ascii "ids")
      (stringsJoin (ids.map FormatInt) (ascii ",")) (by decide) (by rw [hurl]; exact huser)
    refine ⟨_, ?_, (hurl _).trans (hfinal _)⟩
    unfold Client.GetUsersByIDs
    rw [if_neg hlen]
    exact fetch_log env c _ _ _ _ _ log _ hreq
  · have hreq := newRequest_single env c (ascii "/core/org") (ascii "ids")
      (stringsJoin (ids.map FormatInt) (ascii ",")) (by decide) (by rw [hurl]; exact horg)
    refine ⟨_, ?_, (hurl _).trans (hfinal _)⟩
    unfold Client.GetOrganizationsByIDs
    rw [if_neg hlen]
    exact fetch_log env c _ _ _ _ _ log _ hreq

/-- Witness of the amended C13 at the ids 11, 12, 15. -/
theorem batchURL_escaped_witness :
    ∃ req, (demoClient.GetChatsByIDs (demoEnv (fun _ => .response 200 [])) [11, 12, 15]
        []).2 = [] ++ [req] ∧
      req.URL = demoClient.config.APIURL ++ ascii "/core/chat" ++ ascii "?ids=" ++
        stringsJoin ([11, 12, 15].map FormatInt) (ascii "%2C") :=
  (batchURL_escaped (demoEnv (fun _ => .response 200 [])) demoClient [] [11, 12, 15]
    (by decide) rfl rfl rfl).1

/-! ## Theorems: listings and derived views -/

/-- C14: `GetAllChats` and `GetAllOrganizations` first fetch the id list with one
request; when the list is empty they return an empty result without error and
without a further request; when it is non-empty they return the outcome of the
batch fetch for exactly those ids in the same order, which issues exactly one
further request when `http.NewRequest` accepts its URL. -/
theorem getAll_spec (env : Env) (c : Client) (log log1 : List Request) (ids : List Int) :
    (c.GetChatIDs env log = (.ok ids, log1) →
      log1 = log ++ [syncRequest c (ascii "/core/chat/sync")] ∧
      (ids = [] → c.GetAllChats env log = (.ok [], log1)) ∧
      (ids ≠ [] → c.GetAllChats env log = c.GetChatsByIDs env ids log1 ∧
        (env.newRequestError (ascii "GET")
            (batchRequest c (ascii "/core/chat") (ascii "ids")
              (stringsJoin (ids.map FormatInt) (ascii ","))).URL = none →
          (c.GetAllChats env log).2 =
            log1 ++ [batchRequest c (ascii "/core/chat") (ascii "ids")
              (stringsJoin (ids.map FormatInt) (ascii ","))]))) ∧
    (c.GetOrganizationIDs env log = (.ok ids, log1) →
      log1 = log ++ [syncRequest c (ascii "/core/org/sync")] ∧
      (ids = [] → c.GetAllOrganizations env log = (.ok [], log1)) ∧
      (ids ≠ [] → c.GetAllOrganizations env log = c.GetOrganizationsByIDs env ids log1 ∧
        (env.newRequestError (ascii "GET")
            (batchRequest c (ascii "/core/org") (ascii "ids")
              (stringsJoin (ids.map FormatInt) (ascii ","))).URL = none →
          (c.GetAllOrganizations env log).2 =
            log1 ++ [batchRequest c (ascii "/core/org") (ascii "ids")
              (stringsJoin (ids.map FormatInt) (ascii ","))]))) := by
  have hsync : ∀ {α : Type} (path : GoString) (unmarshal : GoString → Except GoError α)
      (v : α), c.fetch env (ascii "GET") path [] none unmarshal log = (.ok v, log1) →
      log1 = log ++ [syncRequest c path] := by
    intro α path unmarshal v h
    obtain ⟨req, hreq, hlog⟩ := fetch_ok env c _ _ _ _ _ log log1 v h
    have hform : req = syncRequest c path := by
      unfold Client.newRequest at hreq
      simp only [List.length_nil, Nat.lt_irrefl, if_false] at hreq
      split at hreq
      · simp at hreq
      · simp only [Except.ok.injEq] at hreq
        rw [← hreq]
        rfl
    rw [hlog, hform]
  have hlen : ids ≠ [] → ¬ ids.length = 0 := length_ne_zero_of_ne_nil ids
  refine ⟨?_, ?_⟩
  · intro h
    have hrun : c.GetAllChats env log =
        if ids.length = 0 then (.ok [], log1) else c.GetChatsByIDs env ids log1 := by
      unfold Client.GetAllChats
      rw [h]
    refine ⟨hsync _ _ ids h, ?_, ?_⟩
    · intro he
      rw [hrun, he]
      rfl
    · intro hne
      have heq : c.GetAllChats env log = c.GetChatsByIDs env ids log1 := by
        rw [hrun, if_neg (hlen hne)]
      refine ⟨heq, ?_⟩
      intro hurl
      rw [heq]
      exact (getChatsByIDs_request env c log1 ids hne hurl).2
  · intro h
    have hrun : c.GetAllOrganizations env log =
        if ids.length = 0 then (.ok [], log1) else c.GetOrganizationsByIDs env ids log1 := by
      unfold Client.GetAllOrganizations
      rw [h]
    refine ⟨hsync _ _ ids h, ?_, ?_⟩
    · intro he
      rw [hrun, he]
      rfl
    · intro hne
      have heq : c.GetAllOrganizations env log = c.GetOrganizationsByIDs env ids log1 := by
        rw [hrun, if_neg (hlen hne)]
      refine ⟨heq, ?_⟩
      intro hurl
      rw [heq]
      exact (getOrganizationsByIDs_request env c log1 ids hne hurl).2

/-- Witness of C14: the id listing answers with the ids 7 and 9, and `GetAllChats`
issues the id listing and then the one batch request for `7,9`. -/
theorem getAll_spec_witness :
    demoClient.GetAllChats (demoEnv listingAnswer) [] =
        demoClient.GetChatsByIDs (demoEnv listingAnswer) [7, 9]
          [syncRequest demoClient (ascii "/core/chat/sync")] ∧
      (demoClient.GetAllChats (demoEnv listingAnswer) []).2 =
        [syncRequest demoClient (ascii "/core/chat/sync")] ++
          [batchRequest demoClient (ascii "/core/chat") (ascii "ids") (ascii "7,9")] := by
  have h := ((getAll_spec (demoEnv listingAnswer) demoClient []
    [syncRequest demoClient (ascii "/core/chat/sync")] [7, 9]).1 rfl).2.2 (by decide)
  exact ⟨h.1, h.2 rfl⟩

/-- The filtering loop of the derived views keeps, in order, the entries that
satisfy the test. -/
theorem appendWhere_eq_filter {α : Type} (keep : α → Bool) (xs : List α) :
    appendWhere keep xs = xs.filter keep := by
  have h : ∀ (l out : List α),
      l.foldl (fun out x => if keep x then out ++ [x] else out) out =
        out ++ l.filter keep := by
    intro l
    induction l with
    | nil => intro out; simp
    | cons x l ih =>
      intro out
      rw [List.foldl_cons, ih]
      cases hk : keep x <;> simp [List.filter_cons, hk]
  unfold appendWhere
  rw [h]
  simp

/-- The member scan finds the user exactly when the user is among the members. -/
theorem scanMembers_eq (userID : Int) (members : List Int) :
    scanMembers userID members = decide (userID ∈ members) := by
  induction members with
  | nil => simp [scanMembers]
  | cons m rest ih =>
    unfold scanMembers
    by_cases h : m = userID
    · simp [h]
    · have h' : ¬ userID = m := fun e => h e.symm
      simp [h, h', ih]

/-- C15: for every fetched list, `GetFavoriteChats`, `GetPrivateChats`,
`GetPublicChats` and `UserChats u` return exactly the sub-list of the chats with
`IsFavorite`, with `PM`, without `PM`, and with `u` among the member ids, in
server order; every fetched chat is in exactly one of the private and the public
view; `GetMyOrganizations` and `GetAdminOrganizations` return the sub-lists of
the organizations with `IsMember` and with `IsAdmin`. -/
theorem views_spec (env : Env) (c : Client) (log log' : List Request) (chats : List Chat)
    (orgs : List Org) (u : Int) :
    (c.GetAllChats env log = (.ok chats, log') →
      c.GetFavoriteChats env log = (.ok (chats.filter (fun ch => ch.IsFavorite)), log') ∧
      c.GetPrivateChats env log = (.ok (chats.filter (fun ch => ch.PM)), log') ∧
      c.GetPublicChats env log = (.ok (chats.filter (fun ch => !ch.PM)), log') ∧
      c.UserChats env u log =
        (.ok (chats.filter (fun ch => decide (u ∈ ch.MemberIDs))), log') ∧
      (∀ ch ∈ chats,
        (ch ∈ chats.filter (fun ch => ch.PM) ∧ ch ∉ chats.filter (fun ch => !ch.PM)) ∨
        (ch ∉ chats.filter (fun ch => ch.PM) ∧ ch ∈ chats.filter (fun ch => !ch.PM)))) ∧
    (c.GetAllOrganizations env log = (.ok orgs, log') →
      c.GetMyOrganizations env log = (.ok (orgs.filter (fun o => o.IsMember)), log') ∧
      c.GetAdminOrganizations env log = (.ok (orgs.filter (fun o => o.IsAdmin)), log')) := by
  refine ⟨?_, ?_⟩
  · intro h
    refine ⟨?_, ?_, ?_, ?_, ?_⟩
    · unfold Client.GetFavoriteChats
      rw [h]
      simp only [appendWhere_eq_filter]
    · unfold Client.GetPrivateChats
      rw [h]
      simp only [appendWhere_eq_filter]
    · unfold Client.GetPublicChats
      rw [h]
      simp only [appendWhere_eq_filter]
    · unfold Client.UserChats
      rw [h]
      simp only [appendWhere_eq_filter, scanMembers_eq]
    · intro ch hch
      cases hpm : ch.PM
      · right; simp [List.mem_filter, hch, hpm]
      · left; simp [List.mem_filter, hch, hpm]
  · intro h
    refine ⟨?_, ?_⟩
    · unfold Client.GetMyOrganizations
      rw [h]
      simp only [appendWhere_eq_filter]
    · unfold Client.GetAdminOrganizations
      rw [h]
      simp only [appendWhere_eq_filter]

/-- Witness of C15: the listing returns the chats 7 and 9, whose member lists are
`[7]` and `[9]`; `UserChats 9` returns the chat 9. -/
theorem views_spec_witness :
    demoClient.UserChats (demoEnv listingAnswer) 9 [] =
      (.ok ([chatWith 7 [7], chatWith 9 [9]].filter (fun ch => decide (9 ∈ ch.MemberIDs))),
        [syncRequest demoClient (ascii "/core/chat/sync"),
          batchRequest demoClient (ascii "/core/chat") (ascii "ids") (ascii "7,9")]) :=
  ((views_spec (demoEnv listingAnswer) demoClient [] _ [chatWith 7 [7], chatWith 9 [9]] [] 9).1
    rfl).2.2.2.1

/-- C16: for every organization id, 0 included, `GetOrganizationChats` returns
exactly the fetched chats whose organization id is present and equal to it, in
server order; a chat whose organization id is absent is never returned. -/
theorem getOrganizationChats_spec (env : Env) (c : Client) (log log' : List Request)
    (chats : List Chat) (orgID : Int)
    (h : c.GetAllChats env log = (.ok chats, log')) :
    c.GetOrganizationChats env orgID log =
      (.ok (chats.filter (fun ch => decide (ch.OrganizationID = some orgID))), log') ∧
    (∀ ch ∈ chats.filter (fun ch => decide (ch.OrganizationID = some orgID)),
      ch.OrganizationID ≠ none) ∧
    (∀ ch ∈ chats, ch.OrganizationID = none →
      ch ∉ chats.filter (fun ch => decide (ch.OrganizationID = some orgID))) := by
  refine ⟨?_, ?_, ?_⟩
  · unfold Client.GetOrganizationChats
    rw [h]
    simp only [appendWhere_eq_filter]
    congr 2
    apply List.filter_congr
    intro ch _
    cases ch.OrganizationID <;> simp
  · intro ch hch
    have := (List.mem_filter.mp hch).2
    simp only [decide_eq_true_eq] at this
    rw [this]
    simp
  · intro ch _ hnone hmem
    have := (List.mem_filter.mp hmem).2
    simp only [decide_eq_true_eq] at this
    rw [hnone] at this
    simp at this

/-- Witness of C16 at the organization id 0: the listed chats 7 and 9 have no
organization id, and none of them is returned. -/
theorem getOrganizationChats_spec_witness :
    demoClient.GetOrganizationChats (demoEnv listingAnswer) 0 [] =
      (.ok [], [syncRequest demoClient (ascii "/core/chat/sync"),
        batchRequest demoClient (ascii "/core/chat") (ascii "ids") (ascii "7,9")]) :=
  (getOrganizationChats_spec (demoEnv listingAnswer) demoClient [] _
    [chatWith 7 [7], chatWith 9 [9]] 0 rfl).1

/-- C17 (behaviour of the code): `GetMyChats` never succeeds, since `GetBotInfo`
returns an error on every call, and so does `SendMessageToAllMyChats`, which then
sends nothing. When the listing returns the chats 7 and 9, `GetMyChats` returns
the error of `GetBotInfo` instead of a list of chats. -/
theorem getMyChats_always_fails :
    (∀ (env : Env) (c : Client) (log : List Request),
      ∃ err, (c.GetMyChats env log).1 = .error err) ∧
    (∀ (env : Env) (codec : Codec) (c : Client) (text : GoString) (log : List Request),
      ∃ err, c.SendMessageToAllMyChats env codec text log =
        (.error err, (c.GetMyChats env log).2)) ∧
    demoClient.GetAllChats (demoEnv listingAnswer) [] =
      (.ok [chatWith 7 [7], chatWith 9 [9]],
        [syncRequest demoClient (ascii "/core/chat/sync"),
          batchRequest demoClient (ascii "/core/chat") (ascii "ids") (ascii "7,9")]) ∧
    demoClient.GetMyChats (demoEnv listingAnswer) [] =
      (.error (ascii ("GetBotInfo requires special InfoBot API access. " ++
          "Use direct messaging with @infobot for bot management operations")),
        [syncRequest demoClient (ascii "/core/chat/sync"),
          batchRequest demoClient (ascii "/core/chat") (ascii "ids") (ascii "7,9")]) := by
  have hmy : ∀ (env : Env) (c : Client) (log : List Request),
      ∃ err, c.GetMyChats env log = (.error err, (c.GetMyChats env log).2) := by
    intro env c log
    unfold Client.GetMyChats
    rcases hall : c.GetAllChats env log with ⟨r, l⟩
    cases r with
    | error e => exact ⟨e, rfl⟩
    | ok chats => exact ⟨_, rfl⟩
  refine ⟨?_, ?_, rfl, rfl⟩
  · intro env c log
    obtain ⟨err, h⟩ := hmy env c log
    exact ⟨err, by rw [h]⟩
  · intro env codec c text log
    obtain ⟨err, h⟩ := hmy env c log
    refine ⟨err, ?_⟩
    unfold Client.SendMessageToAllMyChats
    rw [h]

/-! ## Theorems: broadcasting -/

section Broadcast
variable {σ : Type}

/-- The state after the sends to `pre ++ [x]` is the state after the send to `x`
from the state after the sends to `pre`. -/
theorem sendEach_snoc (send : Int → σ → Except GoError MessageResponse × σ)
    (pre : List Int) (x : Int) :
    ∀ s : σ, (sendEach send (pre ++ [x]) s).2 = (send x (sendEach send pre s).2).2 := by
  induction pre with
  | nil => intro s; rfl
  | cons a pre ih =>
    intro s
    show (sendEach send (pre ++ [x]) (send a s).2).2 = _
    rw [ih]
    rfl

/-- One outcome per chat id. -/
theorem sendEach_length (send : Int → σ → Except GoError MessageResponse × σ)
    (ids : List Int) : ∀ s : σ, (sendEach send ids s).1.length = ids.length := by
  induction ids with
  | nil => intro s; rfl
  | cons a ids ih => intro s; simp only [sendEach, List.length_cons, ih]

/-- The loop of `BroadcastMessage` when every send succeeds: the responses are
collected in order and the state is the one after all the sends. -/
theorem broadcastLoop_ok (send : Int → σ → Except GoError MessageResponse × σ)
    (ids : List Int) :
    ∀ (responses rs : List MessageResponse) (s : σ),
      (sendEach send ids s).1 = rs.map Except.ok →
      broadcastLoop send ids responses s = (.ok (responses ++ rs), (sendEach send ids s).2) := by
  induction ids with
  | nil =>
    intro responses rs s h
    cases rs with
    | nil => simp [broadcastLoop, sendEach]
    | cons r rs => simp [sendEach] at h
  | cons a ids ih =>
    intro responses rs s h
    cases rs with
    | nil => simp [sendEach] at h
    | cons r rs =>
      simp only [sendEach, List.map_cons, List.cons.injEq] at h
      obtain ⟨h1, h2⟩ := h
      rcases hs : send a s with ⟨out, s'⟩
      rw [hs] at h1 h2
      simp only at h1 h2
      subst h1
      simp only [broadcastLoop, sendEach, hs]
      rw [ih (responses ++ [r]) rs s' h2]
      simp

/-- The loop of `BroadcastMessage` when the sends to `pre` succeed and the send
to `chatID` fails: the error names `chatID`, and the state is the one after the
sends to `pre` and to `chatID`; nothing is sent to `post`. -/
theorem broadcastLoop_fail (send : Int → σ → Except GoError MessageResponse × σ)
    (pre : List Int) (chatID : Int) (post : List Int) (e : GoError) :
    ∀ (responses rs : List MessageResponse) (s : σ),
      (sendEach send pre s).1 = rs.map Except.ok →
      (send chatID (sendEach send pre s).2).1 = .error e →
      broadcastLoop send (pre ++ chatID :: post) responses s =
        (.error (ascii "failed to send message to chat " ++ FormatInt chatID ++
          ascii ": " ++ e), (send chatID (sendEach send pre s).2).2) := by
  induction pre with
  | nil =>
    intro responses rs s _ hfail
    simp only [sendEach] at hfail
    rcases hs : send chatID s with ⟨out, s'⟩
    rw [hs] at hfail
    simp only at hfail
    subst hfail
    simp only [List.nil_append, broadcastLoop, sendEach, hs]
  | cons a pre ih =>
    intro responses rs s h hfail
    cases rs with
    | nil => simp [sendEach] at h
    | cons r rs =>
      simp only [sendEach, List.map_cons, List.cons.injEq] at h hfail
      obtain ⟨h1, h2⟩ := h
      rcases hs : send a s with ⟨out, s'⟩
      rw [hs] at h1 h2 hfail
      simp only at h1 h2 hfail
      subst h1
      simp only [List.cons_append, broadcastLoop, sendEach, hs]
      exact ih (responses ++ [r]) rs s' h2 hfail

end Broadcast

/-- C20: for a non-empty chat id list, `BroadcastMessage` sends in list order. If
the sends to the chat ids before index `k` succeed and the send to `chatIDs[k]`
fails, it returns an error that names `chatIDs[k]`, having attempted exactly the
sends of the indexes `0..k` (the log is the one after these sends) and none for
a later index; if no send fails it returns one response per chat id, in list
order. -/
theorem broadcast_spec (env : Env) (codec : Codec) (c : Client) (text : GoString)
    (log : List Request) (chatIDs : List Int) (hne : chatIDs ≠ []) :
    (∀ (pre : List Int) (chatID : Int) (post : List Int) (rs : List MessageResponse)
        (e : GoError),
      chatIDs = pre ++ chatID :: post →
      (sendEach (sendTo env codec c text) pre log).1 = rs.map Except.ok →
      (sendTo env codec c text chatID (sendEach (sendTo env codec c text) pre log).2).1 =
        .error e →
      c.BroadcastMessage env codec chatIDs text log =
        (.error (ascii "failed to send message to chat " ++ FormatInt chatID ++
          ascii ": " ++ e), (sendEach (sendTo env codec c text) (pre ++ [chatID]) log).2)) ∧
    (∀ rs : List MessageResponse,
      (sendEach (sendTo env codec c text) chatIDs log).1 = rs.map Except.ok →
      c.BroadcastMessage env codec chatIDs text log =
          (.ok rs, (sendEach (sendTo env codec c text) chatIDs log).2) ∧
        rs.length = chatIDs.length) := by
  have hlen : ¬ chatIDs.length = 0 := length_ne_zero_of_ne_nil chatIDs hne
  have hrun : c.BroadcastMessage env codec chatIDs text log =
      broadcastLoop (sendTo env codec c text) chatIDs [] log := by
    unfold Client.BroadcastMessage
    rw [if_neg hlen]
    rfl
  refine ⟨?_, ?_⟩
  · intro pre chatID post rs e hsplit hpre hfail
    rw [hrun, hsplit, sendEach_snoc]
    exact broadcastLoop_fail (sendTo env codec c text) pre chatID post e [] rs log hpre hfail
  · intro rs hall
    refine ⟨?_, ?_⟩
    · rw [hrun, broadcastLoop_ok (sendTo env codec c text) chatIDs [] rs log hall]
      simp
    · have h := sendEach_length (sendTo env codec c text) chatIDs log
      rw [hall, List.length_map] at h
      exact h

/-- Witness of C20: a broadcast to the chats 1, 2, 3 against a server that refuses
the message to chat 2 fails with an error that names chat 2, after two requests. -/
theorem broadcast_spec_witness :
    demoClient.BroadcastMessage (demoEnv sendAnswer) chatCodec [1, 2, 3] (ascii "hi") [] =
        (.error (ascii "failed to send message to chat " ++ FormatInt 2 ++ ascii ": " ++
          ascii "API request failed with status 500: no"),
          (sendEach (sendTo (demoEnv sendAnswer) chatCodec demoClient (ascii "hi")) ([1] ++ [2])
            []).2) ∧
      (sendEach (sendTo (demoEnv sendAnswer) chatCodec demoClient (ascii "hi")) ([1] ++ [2])
        []).2.map (fun r => r.Body) = [some (ascii "1"), some (ascii "2")] :=
  ⟨(broadcast_spec (demoEnv sendAnswer) chatCodec demoClient (ascii "hi") [] [1, 2, 3]
      (by decide)).1 [1] 2 [3] [⟨2⟩] (ascii "API request failed with status 500: no")
      rfl rfl rfl, by decide⟩


/-! ## Theorems: sending and updating messages -/

/-- A JSON operation whose request can be built issues exactly that request. -/
theorem sendJSON_log {α : Type} (env : Env) (c : Client) (method path body : GoString)
    (unmarshal : GoString → Except GoError α) (log : List Request)
    (hurl : env.newRequestError method (c.config.APIURL ++ path) = none) :
    (c.sendJSON env method path body unmarshal log).2 =
      log ++ [jsonRequest c method path body] := by
  unfold Client.sendJSON Client.newRequest
  simp only [List.length_nil, Nat.lt_irrefl, if_false, hurl]
  rw [do_log]
  rfl

/-- `SendMessage` with a non-zero chat id and a non-empty text, when the request
can be built, issues exactly the `POST /bot/message` with the marshalled payload. -/
theorem sendMessage_log (env : Env) (codec : Codec) (c : Client) (chatID : Int)
    (text : GoString) (replyNo : Option Int) (log : List Request) (hchat : chatID ≠ 0)
    (htext : text ≠ [])
    (hurl : env.newRequestError (ascii "POST")
      (c.config.APIURL ++ ascii "/bot/message") = none) :
    (c.SendMessage env codec chatID text replyNo log).2 =
      log ++ [jsonRequest c (ascii "POST") (ascii "/bot/message")
        (codec.render (marshalSendRequest
          { Key := c.BotToken, ChatID := chatID, Text := text, ReplyNo := replyNo }))] := by
  unfold Client.SendMessage Client.newRequest
  simp only [hchat, htext, if_false, List.length_nil, Nat.lt_irrefl, hurl]
  rw [do_log]
  rfl

/-- Lists that differ by an appended element are different. -/
theorem append_singleton_ne_self {β : Type} (l : List β) (x : β) : l ++ [x] ≠ l := by
  intro h
  have := congrArg List.length h
  simp at this

/-- C21 as stated fails: with an API URL that `http.NewRequest` refuses, here one
that ends in a line feed, `UpdateMessage` with the chat id 123, the post number
456 and a payload with a non-empty text returns the error of the request
construction and issues no request. -/
theorem updateMessage_unbuildable_request :
    lineFeedClient.UpdateMessage (parsingEnv (fun _ => .response 200 [])) demoCodec 123 456
        (some ⟨ascii "Updated message", some true, none, none, none⟩) [] =
      (.error (ascii "failed to create request: net/url: invalid control character in URL"),
        []) ∧
    stringContainsCTLByte (lineFeedClient.config.APIURL ++ ascii "/msg/post/123/456") =
      true := by
  exact ⟨rfl, rfl⟩

/-- C21, amended: `UpdateMessage` returns an error and issues no request when the
chat id is 0, the post number is 0, the payload is nil or its text is empty; in
every other case, provided `http.NewRequest` accepts the URL, it issues exactly
one `PUT` request to `/msg/post/<chatID>/<postNo>` with the marshalled payload,
whatever optional fields the payload has. -/
theorem updateMessage_spec (env : Env) (codec : Codec) (c : Client) (chatID postNo : Int)
    (updateReq : Option UpdateMessageRequest) (log : List Request) :
    ((chatID = 0 ∨ postNo = 0 ∨ updateReq = none ∨
        (∃ r, updateReq = some r ∧ r.Text = [])) →
      ∃ err, c.UpdateMessage env codec chatID postNo updateReq log = (.error err, log)) ∧
    (∀ r : UpdateMessageRequest, chatID ≠ 0 → postNo ≠ 0 → updateReq = some r →
      r.Text ≠ [] →
      env.newRequestError (ascii "PUT")
        (c.config.APIURL ++
          (ascii "/msg/post/" ++ FormatInt chatID ++ ascii "/" ++ FormatInt postNo)) = none →
      (c.UpdateMessage env codec chatID postNo updateReq log).2 =
        log ++ [{ Method := ascii "PUT",
                  URL := c.config.APIURL ++
                    (ascii "/msg/post/" ++ FormatInt chatID ++ ascii "/" ++ FormatInt postNo),
                  Header := commonHeaders c ++
                    [(ascii "Content-Type", ascii "application/json")],
                  Body := some (codec.render (marshalUpdateRequest r)) }]) := by
  refine ⟨?_, ?_⟩
  · intro h
    unfold Client.UpdateMessage
    by_cases h1 : chatID = 0
    · exact ⟨_, by rw [if_pos h1]⟩
    · rw [if_neg h1]
      by_cases h2 : postNo = 0
      · exact ⟨_, by rw [if_pos h2]⟩
      · rw [if_neg h2]
        cases updateReq with
        | none => exact ⟨_, rfl⟩
        | some r =>
          have hr : r.Text = [] := by
            rcases h with h | h | h | ⟨r', hr', ht⟩
            · exact absurd h h1
            · exact absurd h h2
            · simp at h
            · simp only [Option.some.injEq] at hr'
              rw [hr']; exact ht
          exact ⟨ascii "text cannot be empty", by simp only [hr, if_true]⟩
  · intro r h1 h2 hreq ht hurl
    subst hreq
    unfold Client.UpdateMessage
    simp only [h1, h2, ht, if_false]
    rw [sendJSON_log env c _ _ _ _ log hurl]
    rfl

/-- Witness of the amended C21: an update of post 456 in chat 123 with an `e2e` flag issues the
one `PUT` to `/msg/post/123/456`. -/
theorem updateMessage_spec_witness :
    (demoClient.UpdateMessage (demoEnv (fun _ => .response 200 [])) demoCodec 123 456
        (some ⟨ascii "Updated message", some true, none, none, none⟩) []).2 =
      [] ++ [{ Method := ascii "PUT",
               URL := demoClient.config.APIURL ++
                 (ascii "/msg/post/" ++ FormatInt 123 ++ ascii "/" ++ FormatInt 456),
               Header := commonHeaders demoClient ++
                 [(ascii "Content-Type", ascii "application/json")],
               Body := some (demoCodec.render (marshalUpdateRequest
                 ⟨ascii "Updated message", some true, none, none, none⟩)) }] :=
  (updateMessage_spec (demoEnv (fun _ => .response 200 [])) demoCodec demoClient 123 456
    (some ⟨ascii "Updated message", some true, none, none, none⟩) []).2
    ⟨ascii "Updated message", some true, none, none, none⟩ (by decide) (by decide) rfl
    (by decide) rfl

/-- C23 as stated fails: with an API URL that `http.NewRequest` refuses, here one
that ends in a line feed, `SendMessage` with the chat id 7 and the text `hi`
returns an error without issuing a request, although the chat id is not 0 and
the text is not empty. -/
theorem sendMessage_unbuildable_request :
    lineFeedClient.SendMessage (parsingEnv (fun _ => .response 200 [])) demoCodec 7
        (ascii "hi") none [] =
      (.error (ascii "failed to create request: net/url: invalid control character in URL"),
        []) ∧
    (7 : Int) ≠ 0 ∧ ascii "hi" ≠ [] := by
  exact ⟨rfl, by decide, by decide⟩

/-- C23, amended: `SendMessage` returns an error without a request when the chat
id is 0 or the text is empty; otherwise, provided `http.NewRequest` accepts the
URL, it issues exactly one `POST` to `/bot/message`, so the request log changes,
and the body of the request is the JSON object with the members `key` = the
token without its first 20 bytes, `chat_id` = the chat id, `text` = the text,
and `reply_no` exactly when a reply number was given (strings as JSON strings,
that is with every byte that starts no valid UTF-8 encoding replaced by
U+FFFD). -/
theorem sendMessage_spec (env : Env) (codec : Codec) (c : Client) (chatID : Int)
    (text : GoString) (replyNo : Option Int) (log : List Request) :
    ((chatID = 0 ∨ text = []) →
      ∃ err, c.SendMessage env codec chatID text replyNo log = (.error err, log)) ∧
    (chatID ≠ 0 → text ≠ [] →
      env.newRequestError (ascii "POST") (c.config.APIURL ++ ascii "/bot/message") = none →
      (c.SendMessage env codec chatID text replyNo log).2 =
        log ++ [{ Method := ascii "POST", URL := c.config.APIURL ++ ascii "/bot/message",
                  Header := commonHeaders c ++
                    [(ascii "Content-Type", ascii "application/json")],
                  Body := some (codec.render
                    ([(ascii "key", .string (coerceUTF8 0 (c.config.APIToken.drop 20))),
                      (ascii "chat_id", .number chatID),
                      (ascii "text", .string (coerceUTF8 0 text))] ++
                      (match replyNo with
                        | none => []
                        | some n => [(ascii "reply_no", .number n)]))) }] ∧
      (c.SendMessage env codec chatID text replyNo log).2 ≠ log) := by
  have hbot : c.BotToken = c.config.APIToken.drop 20 := by
    unfold Client.BotToken
    split
    · rename_i h
      exact (List.drop_eq_nil_of_le h).symm
    · rfl
  refine ⟨?_, ?_⟩
  · intro h
    unfold Client.SendMessage
    by_cases h1 : chatID = 0
    · exact ⟨_, by rw [if_pos h1]⟩
    · rw [if_neg h1]
      have h2 : text = [] := h.resolve_left h1
      exact ⟨_, by rw [if_pos h2]⟩
  · intro h1 h2 hurl
    have hlog := sendMessage_log env codec c chatID text replyNo log h1 h2 hurl
    rw [hbot] at hlog
    refine ⟨hlog, ?_⟩
    rw [hlog]
    exact append_singleton_ne_self _ _

/-- Witness of the amended C23: a reply to post 5 in chat 7 with the token
`0123456789abcdefABCDrest` carries the key `rest` and the member `reply_no`. -/
theorem sendMessage_spec_witness :
    (demoClient.SendMessage (demoEnv (fun _ => .response 200 [])) demoCodec 7 (ascii "hi")
        (some 5) []).2 =
      [] ++ [{ Method := ascii "POST",
               URL := demoClient.config.APIURL ++ ascii "/bot/message",
               Header := commonHeaders demoClient ++
                 [(ascii "Content-Type", ascii "application/json")],
               Body := some (demoCodec.render
                 ([(ascii "key", .string (coerceUTF8 0 (demoClient.config.APIToken.drop 20))),
                   (ascii "chat_id", .number 7),
                   (ascii "text", .string (coerceUTF8 0 (ascii "hi")))] ++
                   [(ascii "reply_no", .number 5)])) }] ∧
      coerceUTF8 0 (demoClient.config.APIToken.drop 20) = ascii "rest" :=
  ⟨((sendMessage_spec (demoEnv (fun _ => .response 200 [])) demoCodec demoClient 7
      (ascii "hi") (some 5) []).2 (by decide) (by decide) rfl).1, by decide⟩

/-- C29 as stated fails: with an API URL that `http.NewRequest` refuses, here one
that ends in a line feed, `SendMentionMessage` with the chat id 7 returns an
error without issuing a send request, although the chat id is not 0. -/
theorem sendMention_unbuildable_request :
    lineFeedClient.SendMentionMessage (parsingEnv (fun _ => .response 200 [])) demoCodec 7
        (ascii "x") [] =
      (.error (ascii "failed to create request: net/url: invalid control character in URL"),
        []) ∧
    (7 : Int) ≠ 0 := by
  exact ⟨rfl, by decide⟩

/-- C29, amended: `SendMentionMessage chatID text` is `SendMessage chatID ("@all "
+ text) nil`; for every chat id and every text, the empty one included, it is
not rejected by the non-empty-text check (its outcome is never the error `text
cannot be empty` with an unchanged log); for a non-zero chat id, provided
`http.NewRequest` accepts the URL, it issues exactly one send request, whose
body carries the text `@all ` followed by the given text, and under that proviso
it returns without a request only when the chat id is 0. For the chat id 0 it
returns the error `chat_id cannot be zero` without a request. -/
theorem sendMention_spec (env : Env) (codec : Codec) (c : Client) (chatID : Int)
    (text : GoString) (log : List Request) :
    c.SendMentionMessage env codec chatID text log =
      c.SendMessage env codec chatID (ascii "@all " ++ text) none log ∧
    c.SendMentionMessage env codec chatID text log ≠
      (.error (ascii "text cannot be empty"), log) ∧
    (env.newRequestError (ascii "POST") (c.config.APIURL ++ ascii "/bot/message") = none →
      (chatID ≠ 0 →
        (c.SendMentionMessage env codec chatID text log).2 =
          log ++ [{ Method := ascii "POST", URL := c.config.APIURL ++ ascii "/bot/message",
                    Header := commonHeaders c ++
                      [(ascii "Content-Type", ascii "application/json")],
                    Body := some (codec.render
                      [(ascii "key", .string (coerceUTF8 0 c.BotToken)),
                        (ascii "chat_id", .number chatID),
                        (ascii "text", .string (coerceUTF8 0 (ascii "@all " ++ text)))]) }]) ∧
      ((c.SendMentionMessage env codec chatID text log).2 = log → chatID = 0)) ∧
    (chatID = 0 →
      c.SendMentionMessage env codec chatID text log =
        (.error (ascii "chat_id cannot be zero"), log)) := by
  have hne : ascii "@all " ++ text ≠ [] := by
    have : ascii "@all " = 0x40 :: ascii "all " := by decide
    rw [this]
    simp
  have hlog : env.newRequestError (ascii "POST")
      (c.config.APIURL ++ ascii "/bot/message") = none → chatID ≠ 0 →
      (c.SendMentionMessage env codec chatID text log).2 =
        log ++ [jsonRequest c (ascii "POST") (ascii "/bot/message")
          (codec.render (marshalSendRequest
            { Key := c.BotToken, ChatID := chatID, Text := ascii "@all " ++ text,
              ReplyNo := none }))] := fun hurl h =>
    sendMessage_log env codec c chatID (ascii "@all " ++ text) none log h hne hurl
  refine ⟨rfl, ?_, fun hurl => ⟨hlog hurl, ?_⟩, ?_⟩
  · intro heq
    by_cases h0 : chatID = 0
    · unfold Client.SendMentionMessage Client.SendMessage at heq
      rw [if_pos h0] at heq
      have h1 := (Prod.mk.inj heq).1
      injection h1 with h2
      exact absurd h2 (by decide)
    · cases hreq : env.newRequestError (ascii "POST")
          (c.config.APIURL ++ ascii "/bot/message") with
      | none =>
        have h1 := hlog hreq h0
        rw [heq] at h1
        exact append_singleton_ne_self _ _ h1.symm
      | some e =>
        unfold Client.SendMentionMessage Client.SendMessage Client.newRequest at heq
        simp only [h0, hne, if_false, List.length_nil, Nat.lt_irrefl, hreq] at heq
        have h1 := (Prod.mk.inj heq).1
        injection h1 with h2
        have hf : ascii "failed to create request: " =
            0x66 :: ascii "ailed to create request: " := by decide
        have ht : ascii "text cannot be empty" = 0x74 :: ascii "ext cannot be empty" := by
          decide
        rw [hf, ht, List.cons_append] at h2
        exact absurd (List.cons.inj h2).1 (by decide)
  · intro h
    by_contra hc
    rw [hlog hurl hc] at h
    exact append_singleton_ne_self _ _ h
  · intro h
    unfold Client.SendMentionMessage Client.SendMessage
    rw [if_pos h]

/-- Witness of the amended C29: a mention with the empty text in chat 7 issues one
request. -/
theorem sendMention_spec_witness :
    (demoClient.SendMentionMessage (demoEnv (fun _ => .response 200 [])) demoCodec 7 []
        []).2 =
      [] ++ [{ Method := ascii "POST",
               URL := demoClient.config.APIURL ++ ascii "/bot/message",
               Header := commonHeaders demoClient ++
                 [(ascii "Content-Type", ascii "application/json")],
               Body := some (demoCodec.render
                 [(ascii "key", .string (coerceUTF8 0 demoClient.BotToken)),
                   (ascii "chat_id", .number 7),
                   (ascii "text", .string (coerceUTF8 0 (ascii "@all " ++ [])))]) }] :=
  ((sendMention_spec (demoEnv (fun _ => .response 200 [])) demoCodec demoClient 7 []
    []).2.2.1 rfl).1 (by decide)

/-! ## Theorems: private messages -/

/-- C30: each of `SendPrivateMessageByID`, `SendPrivateMessageByEmail`,
`SendPrivateMessageByUniqueName` and `SendPrivateReply` returns an error without
a request when its identifier is zero or empty or the text is empty, and
otherwise hands to `sendPrivateMessage` a payload with the given non-empty text
and exactly one addressing field populated, the one of the mode called. -/
theorem privateMessage_spec (env : Env) (codec : Codec) (c : Client) (userID : Int)
    (email uniqueName text : GoString) (replyNo : Option Int) (replyPostNo : Int)
    (log : List Request) :
    ((userID = 0 ∨ text = [] →
        (∃ err, c.SendPrivateMessageByID env codec userID text replyNo log =
          (.error err, log)) ∧
        (∃ err, c.SendPrivateReply env codec userID replyPostNo text log =
          (.error err, log))) ∧
      (userID ≠ 0 → text ≠ [] →
        c.SendPrivateMessageByID env codec userID text replyNo log =
          c.sendPrivateMessage env codec
            { Text := text, UserID := some userID, UserEmail := [], UserUniqueName := [],
              ReplyNo := replyNo } log ∧
        OneAddress { Text := text, UserID := some userID, UserEmail := [],
                     UserUniqueName := [], ReplyNo := replyNo } ∧
        c.SendPrivateReply env codec userID replyPostNo text log =
          c.sendPrivateMessage env codec
            { Text := text, UserID := some userID, UserEmail := [], UserUniqueName := [],
              ReplyNo := some replyPostNo } log ∧
        OneAddress { Text := text, UserID := some userID, UserEmail := [],
                     UserUniqueName := [], ReplyNo := some replyPostNo })) ∧
    ((email = [] ∨ text = [] →
        ∃ err, c.SendPrivateMessageByEmail env codec email text replyNo log =
          (.error err, log)) ∧
      (email ≠ [] → text ≠ [] →
        c.SendPrivateMessageByEmail env codec email text replyNo log =
          c.sendPrivateMessage env codec
            { Text := text, UserID := none, UserEmail := email, UserUniqueName := [],
              ReplyNo := replyNo } log ∧
        OneAddress { Text := text, UserID := none, UserEmail := email,
                     UserUniqueName := [], ReplyNo := replyNo })) ∧
    ((uniqueName = [] ∨ text = [] →
        ∃ err, c.SendPrivateMessageByUniqueName env codec uniqueName text replyNo log =
          (.error err, log)) ∧
      (uniqueName ≠ [] → text ≠ [] →
        c.SendPrivateMessageByUniqueName env codec uniqueName text replyNo log =
          c.sendPrivateMessage env codec
            { Text := text, UserID := none, UserEmail := [], UserUniqueName := uniqueName,
              ReplyNo := replyNo } log ∧
        OneAddress { Text := text, UserID := none, UserEmail := [],
                     UserUniqueName := uniqueName, ReplyNo := replyNo })) := by
  have hid : ∀ rn : Option Int, (userID = 0 ∨ text = []) →
      ∃ err, c.SendPrivateMessageByID env codec userID text rn log = (.error err, log) := by
    intro rn h
    unfold Client.SendPrivateMessageByID
    by_cases h1 : userID = 0
    · exact ⟨_, by rw [if_pos h1]⟩
    · rw [if_neg h1]
      exact ⟨_, by rw [if_pos (h.resolve_left h1)]⟩
  have hidok : ∀ rn : Option Int, userID ≠ 0 → text ≠ [] →
      c.SendPrivateMessageByID env codec userID text rn log =
        c.sendPrivateMessage env codec
          { Text := text, UserID := some userID, UserEmail := [], UserUniqueName := [],
            ReplyNo := rn } log := by
    intro rn h1 h2
    unfold Client.SendPrivateMessageByID
    rw [if_neg h1, if_neg h2]
  refine ⟨⟨?_, ?_⟩, ⟨?_, ?_⟩, ⟨?_, ?_⟩⟩
  · intro h
    exact ⟨hid replyNo h, hid (some replyPostNo) h⟩
  · intro h1 h2
    refine ⟨hidok replyNo h1 h2, ⟨h2, Or.inl ⟨by simp, rfl, rfl⟩⟩,
      hidok (some replyPostNo) h1 h2, ⟨h2, Or.inl ⟨by simp, rfl, rfl⟩⟩⟩
  · intro h
    unfold Client.SendPrivateMessageByEmail
    by_cases h1 : email = []
    · exact ⟨_, by rw [if_pos h1]⟩
    · rw [if_neg h1]
      exact ⟨_, by rw [if_pos (h.resolve_left h1)]⟩
  · intro h1 h2
    refine ⟨?_, ⟨h2, Or.inr (Or.inl ⟨rfl, h1, rfl⟩)⟩⟩
    unfold Client.SendPrivateMessageByEmail
    rw [if_neg h1, if_neg h2]
  · intro h
    unfold Client.SendPrivateMessageByUniqueName
    by_cases h1 : uniqueName = []
    · exact ⟨_, by rw [if_pos h1]⟩
    · rw [if_neg h1]
      exact ⟨_, by rw [if_pos (h.resolve_left h1)]⟩
  · intro h1 h2
    refine ⟨?_, ⟨h2, Or.inr (Or.inr ⟨rfl, rfl, h1⟩)⟩⟩
    unfold Client.SendPrivateMessageByUniqueName
    rw [if_neg h1, if_neg h2]

/-- Witness of C30: a private message by email; the JSON document of its payload
has the members `text` and `user_email` only. -/
theorem privateMessage_spec_witness :
    demoClient.SendPrivateMessageByEmail (demoEnv (fun _ => .response 200 [])) demoCodec
        (ascii "a@b.c") (ascii "hi") none [] =
      demoClient.sendPrivateMessage (demoEnv (fun _ => .response 200 [])) demoCodec
        { Text := ascii "hi", UserID := none, UserEmail := ascii "a@b.c",
          UserUniqueName := [], ReplyNo := none } [] ∧
    (marshalPrivateRequest
        { Text := ascii "hi", UserID := none, UserEmail := ascii "a@b.c",
          UserUniqueName := [], ReplyNo := none }).map (fun kv => kv.1) =
      [ascii "text", ascii "user_email"] :=
  ⟨((privateMessage_spec (demoEnv (fun _ => .response 200 [])) demoCodec demoClient 0
      (ascii "a@b.c") [] (ascii "hi") none 0 []).2.1.2 (by decide) (by decide)).1,
    by decide⟩

/-! ## Theorems: uploads -/

/-- C24 (behaviour of the code): `UploadToMultipleChats` never returns a GUID and
never issues a request: its first upload passes the chat id 0, which
`UploadFileData` rejects. For a readable file of positive size and the chats 7
and 9 it returns the empty string and the error `chat_id cannot be zero`. -/
theorem uploadToMultipleChats_fails :
    (∀ (env : Env) (codec : Codec) (c : Client) (filePath : GoString)
        (chatIDs : List Int) (log : List Request),
      ∃ err, c.UploadToMultipleChats env codec filePath chatIDs log =
        (([], some err), log)) ∧
    (∀ (env : Env) (codec : Codec) (c : Client) (reader : Except GoError GoString)
        (size : Int) (filename : GoString) (log : List Request),
      c.UploadFileData env codec 0 reader size filename log =
        (.error (ascii "chat_id cannot be zero"), log)) ∧
    (demoCodec.openFile (ascii "report.pdf")).toOption.map (fun f => f.stat.toOption) =
      some (some (5, ascii "report.pdf")) ∧
    demoClient.UploadToMultipleChats (demoEnv (fun _ => .response 200 [])) demoCodec
        (ascii "report.pdf") [7, 9] [] =
      (([], some (ascii "chat_id cannot be zero")), []) := by
  have hzero : ∀ (env : Env) (codec : Codec) (c : Client)
      (reader : Except GoError GoString) (size : Int) (filename : GoString)
      (log : List Request),
      c.UploadFileData env codec 0 reader size filename log =
        (.error (ascii "chat_id cannot be zero"), log) := by
    intro env codec c reader size filename log
    unfold Client.UploadFileData
    rw [if_pos rfl]
  refine ⟨?_, hzero, rfl, rfl⟩
  intro env codec c filePath chatIDs log
  unfold Client.UploadToMultipleChats
  cases codec.openFile filePath with
  | error e => exact ⟨_, rfl⟩
  | ok file =>
    dsimp only
    cases file.stat with
    | error e => exact ⟨_, rfl⟩
    | ok sn =>
      obtain ⟨size, name⟩ := sn
      dsimp only
      rw [hzero]
      exact ⟨_, rfl⟩

/-! ## Theorems: signature verification, continued -/

/-- C25 (behaviour of the code): `VerifySignature` checks neither the signature
nor the body for emptiness; its only errors come from the token. With the token
`0123456789abcdefABCDrest`, whose first 20 bytes are hexadecimal digits, the
error is nil for every body and every signature; verification of a body against
the empty signature returns `false` with a nil error, and so does verification
of the empty body against a signature computed for another body. With the token
`test_token_1234567890123456789012` of the test, which is not hexadecimal, every
call returns the error `failed to parse API token key`. -/
theorem verifySignature_empty_no_error :
    (∀ (hmacSHA256 : List UInt8 → List UInt8 → List UInt8) (body signature : GoString),
      (Client.VerifySignature hmacSHA256 demoClient body signature).2 = none) ∧
    Client.VerifySignature (fun key msg => 0x00 :: key ++ msg) demoClient (ascii "body") [] =
      (false, none) ∧
    Client.VerifySignature (fun key msg => 0x00 :: key ++ msg) demoClient []
        (base64Encode (0x00 :: bigBytes 0x0123456789abcdefABCD ++ ascii "body")) =
      (false, none) ∧
    (∀ (hmacSHA256 : List UInt8 → List UInt8 → List UInt8) (body signature : GoString),
      Client.VerifySignature hmacSHA256
          ⟨⟨[], [], ascii "test_token_1234567890123456789012"⟩⟩ body signature =
        (false, some "failed to parse API token key")) := by
  refine ⟨?_, by decide, by decide, ?_⟩
  · intro hmacSHA256 body signature
    have hlen : ¬ demoClient.config.APIToken.length < 20 := by decide
    have hparse : SetString (demoClient.config.APIToken.take 20) 16 =
        some 0x0123456789abcdefABCD := by decide
    unfold Client.VerifySignature
    simp only [hlen, if_false, hparse]
  · intro hmacSHA256 body signature
    have hlen : ¬ (ascii "test_token_1234567890123456789012").length < 20 := by decide
    have hparse : SetString ((ascii "test_token_1234567890123456789012").take 20) 16 = none := by
      decide
    unfold Client.VerifySignature
    simp only [hlen, if_false, hparse]

/-- C26: `VerifySignature` depends on the token only through its first 20 bytes,
and `BotToken` only through the bytes after the first 20: two tokens with the
same first 20 bytes give the same result for every body and signature, and two
tokens longer than 20 bytes with the same tail give the same bot token. -/
theorem tokenSplit_independence (hmacSHA256 : List UInt8 → List UInt8 → List UInt8)
    (c1 c2 : Client) (body signature : GoString) :
    (c1.config.APIToken.take 20 = c2.config.APIToken.take 20 →
      c1.VerifySignature hmacSHA256 body signature =
        c2.VerifySignature hmacSHA256 body signature) ∧
    (20 < c1.config.APIToken.length → 20 < c2.config.APIToken.length →
      c1.config.APIToken.drop 20 = c2.config.APIToken.drop 20 →
      c1.BotToken = c2.BotToken) := by
  refine ⟨?_, ?_⟩
  · intro h
    have hlen : (c1.config.APIToken.length < 20) ↔ (c2.config.APIToken.length < 20) := by
      have h1 := congrArg List.length h
      simp only [List.length_take] at h1
      omega
    unfold Client.VerifySignature
    by_cases h1 : c1.config.APIToken.length < 20
    · rw [if_pos h1, if_pos (hlen.mp h1)]
    · rw [if_neg h1, if_neg (fun h2 => h1 (hlen.mpr h2)), h]
  · intro h1 h2 h
    unfold Client.BotToken
    rw [if_neg (by omega), if_neg (by omega), h]

/-- Witness of C26: two tokens that share their first 20 bytes, and two tokens
that share the tail `rest`. -/
theorem tokenSplit_independence_witness :
    Client.VerifySignature (fun key msg => key ++ msg)
        ⟨⟨[], [], ascii "0123456789abcdefABCDrest"⟩⟩ (ascii "body") (ascii "sig") =
      Client.VerifySignature (fun key msg => key ++ msg)
        ⟨⟨[], [], ascii "0123456789abcdefABCDother"⟩⟩ (ascii "body") (ascii "sig") ∧
    Client.BotToken ⟨⟨[], [], ascii "0123456789abcdefABCDrest"⟩⟩ =
      Client.BotToken ⟨⟨[], [], ascii "ffffffffffffffffffffrest"⟩⟩ :=
  ⟨(tokenSplit_independence (fun key msg => key ++ msg)
      ⟨⟨[], [], ascii "0123456789abcdefABCDrest"⟩⟩
      ⟨⟨[], [], ascii "0123456789abcdefABCDother"⟩⟩ (ascii "body") (ascii "sig")).1
      (by decide),
    (tokenSplit_independence (fun key msg => key ++ msg)
      ⟨⟨[], [], ascii "0123456789abcdefABCDrest"⟩⟩
      ⟨⟨[], [], ascii "ffffffffffffffffffffrest"⟩⟩ [] []).2
      (by decide) (by decide) (by decide)⟩

/-! ## Theorems: JSON round trip of the update shapes -/

/-- Strict order of bytes, in terms of their values. -/
theorem uint8_lt_iff (a b : UInt8) : a < b ↔ a.toNat < b.toNat := by
  rw [UInt8.lt_def, BitVec.lt_def]; rfl

/-- Equality of bytes, in terms of their values. -/
theorem uint8_eq_iff (a b : UInt8) : a = b ↔ a.toNat = b.toNat := by
  constructor
  · intro h; rw [h]
  · intro h
    cases a; cases b
    simp only [UInt8.toNat] at h
    congr
    exact BitVec.eq_of_toNat_eq h

/-- The encoding of a rune is recognised at the head of a string as a valid
encoding of its length. -/
theorem utf8Width_appendRune (r : Nat) (rest : GoString) :
    utf8Width (AppendRune r ++ rest) = (AppendRune r).length := by
  unfold AppendRune
  split_ifs with h1 h2 h3 h4
  · have hb := toUInt8_toNat r (by omega)
    have c1 : r.toUInt8 < 0x80 := by rw [uint8_lt_iff, hb]; show r < 128; omega
    simp only [List.singleton_append, utf8Width, c1, if_true, List.length_singleton]
  · have hb0 := toUInt8_toNat (0xc0 + r / 64) (by omega)
    have hb1 := toUInt8_toNat (0x80 + r % 64) (by omega)
    have c1 : ¬ (0xc0 + r / 64).toUInt8 < 0x80 := by
      rw [uint8_lt_iff, hb0]; show ¬ _ < 128; omega
    have c2 : ¬ (0xc0 + r / 64).toUInt8 < 0xc2 := by
      rw [uint8_lt_iff, hb0]; show ¬ _ < 194; omega
    have c3 : (0xc0 + r / 64).toUInt8 < 0xe0 := by
      rw [uint8_lt_iff, hb0]; show _ < 224; omega
    have c4 : 0x80 ≤ (0x80 + r % 64).toUInt8 ∧ (0x80 + r % 64).toUInt8 ≤ 0xbf := by
      rw [uint8_le_iff, uint8_le_iff, hb1]
      show 128 ≤ _ ∧ _ ≤ 191
      omega
    simp only [List.cons_append, List.nil_append, utf8Width, c1, c2, c3, c4, and_self, if_true,
      if_false, List.length_cons, List.length_nil]
  · simp +decide [utf8Width]
  · have hb0 := toUInt8_toNat (0xe0 + r / 4096) (by omega)
    have hb1 := toUInt8_toNat (0x80 + r / 64 % 64) (by omega)
    have hb2 := toUInt8_toNat (0x80 + r % 64) (by omega)
    have c1 : ¬ (0xe0 + r / 4096).toUInt8 < 0x80 := by
      rw [uint8_lt_iff, hb0]; show ¬ _ < 128; omega
    have c2 : ¬ (0xe0 + r / 4096).toUInt8 < 0xc2 := by
      rw [uint8_lt_iff, hb0]; show ¬ _ < 194; omega
    have c3 : ¬ (0xe0 + r / 4096).toUInt8 < 0xe0 := by
      rw [uint8_lt_iff, hb0]; show ¬ _ < 224; omega
    have c4 : (0xe0 + r / 4096).toUInt8 < 0xf0 := by
      rw [uint8_lt_iff, hb0]; show _ < 240; omega
    have c5 : (if (0xe0 + r / 4096).toUInt8 = 0xe0 then (0xa0 : UInt8) else 0x80) ≤
        (0x80 + r / 64 % 64).toUInt8 := by
      split_ifs with he
      · rw [uint8_eq_iff, hb0] at he
        rw [uint8_le_iff, hb1]
        have he' : 0xe0 + r / 4096 = 224 := he
        show 160 ≤ _
        omega
      · rw [uint8_le_iff, hb1]
        show 128 ≤ _
        omega
    have c6 : (0x80 + r / 64 % 64).toUInt8 ≤
        (if (0xe0 + r / 4096).toUInt8 = 0xed then (0x9f : UInt8) else 0xbf) := by
      split_ifs with he
      · rw [uint8_eq_iff, hb0] at he
        rw [uint8_le_iff, hb1]
        have he' : 0xe0 + r / 4096 = 237 := he
        show _ ≤ 159
        omega
      · rw [uint8_le_iff, hb1]
        show _ ≤ 191
        omega
    have c7 : 0x80 ≤ (0x80 + r % 64).toUInt8 ∧ (0x80 + r % 64).toUInt8 ≤ 0xbf := by
      rw [uint8_le_iff, uint8_le_iff, hb2]
      show 128 ≤ _ ∧ _ ≤ 191
      omega
    simp only [List.cons_append, List.nil_append, utf8Width, c1, c2, c3, c4, c5, c6, c7,
      and_self, if_true, if_false, List.length_cons, List.length_nil]
  · have hb0 := toUInt8_toNat (0xf0 + r / 262144) (by omega)
    have hb1 := toUInt8_toNat (0x80 + r / 4096 % 64) (by omega)
    have hb2 := toUInt8_toNat (0x80 + r / 64 % 64) (by omega)
    have hb3 := toUInt8_toNat (0x80 + r % 64) (by omega)
    have c1 : ¬ (0xf0 + r / 262144).toUInt8 < 0x80 := by
      rw [uint8_lt_iff, hb0]; show ¬ _ < 128; omega
    have c2 : ¬ (0xf0 + r / 262144).toUInt8 < 0xc2 := by
      rw [uint8_lt_iff, hb0]; show ¬ _ < 194; omega
    have c3 : ¬ (0xf0 + r / 262144).toUInt8 < 0xe0 := by
      rw [uint8_lt_iff, hb0]; show ¬ _ < 224; omega
    have c4 : ¬ (0xf0 + r / 262144).toUInt8 < 0xf0 := by
      rw [uint8_lt_iff, hb0]; show ¬ _ < 240; omega
    have c4' : (0xf0 + r / 262144).toUInt8 < 0xf5 := by
      rw [uint8_lt_iff, hb0]; show _ < 245; omega
    have c5 : (if (0xf0 + r / 262144).toUInt8 = 0xf0 then (0x90 : UInt8) else 0x80) ≤
        (0x80 + r / 4096 % 64).toUInt8 := by
      split_ifs with he
      · rw [uint8_eq_iff, hb0] at he
        rw [uint8_le_iff, hb1]
        have he' : 0xf0 + r / 262144 = 240 := he
        show 144 ≤ _
        omega
      · rw [uint8_le_iff, hb1]
        show 128 ≤ _
        omega
    have c6 : (0x80 + r / 4096 % 64).toUInt8 ≤
        (if (0xf0 + r / 262144).toUInt8 = 0xf4 then (0x8f : UInt8) else 0xbf) := by
      split_ifs with he
      · rw [uint8_eq_iff, hb0] at he
        rw [uint8_le_iff, hb1]
        have he' : 0xf0 + r / 262144 = 244 := he
        show _ ≤ 143
        omega
      · rw [uint8_le_iff, hb1]
        show _ ≤ 191
        omega
    have c7 : 0x80 ≤ (0x80 + r / 64 % 64).toUInt8 ∧ (0x80 + r / 64 % 64).toUInt8 ≤ 0xbf := by
      rw [uint8_le_iff, uint8_le_iff, hb2]
      show 128 ≤ _ ∧ _ ≤ 191
      omega
    have c8 : 0x80 ≤ (0x80 + r % 64).toUInt8 ∧ (0x80 + r % 64).toUInt8 ≤ 0xbf := by
      rw [uint8_le_iff, uint8_le_iff, hb3]
      show 128 ≤ _ ∧ _ ≤ 191
      omega
    simp only [List.cons_append, List.nil_append, utf8Width, c1, c2, c3, c4, c4', c5, c6, c7,
      c8, and_self, if_true, if_false, List.length_cons, List.length_nil]

/-- Bytes already counted as part of an encoding are copied. -/
theorem coerceUTF8_skip (l rest : GoString) :
    coerceUTF8 l.length (l ++ rest) = l ++ coerceUTF8 0 rest := by
  induction l with
  | nil => rfl
  | cons b l ih =>
    show coerceUTF8 (l.length + 1) (b :: (l ++ rest)) = b :: (l ++ coerceUTF8 0 rest)
    rw [coerceUTF8, ih]

/-- The encoding of a rune is never empty. -/
theorem appendRune_ne_nil (r : Nat) : AppendRune r ≠ [] := by
  unfold AppendRune
  split_ifs <;> simp

/-- The encoding of a rune at the head of a string comes back unchanged. -/
theorem coerceUTF8_appendRune (r : Nat) (rest : GoString) :
    coerceUTF8 0 (AppendRune r ++ rest) = AppendRune r ++ coerceUTF8 0 rest := by
  have hw := utf8Width_appendRune r rest
  cases h : AppendRune r with
  | nil => exact absurd h (appendRune_ne_nil r)
  | cons b l =>
    rw [h] at hw
    simp only [List.cons_append, List.length_cons] at hw ⊢
    simp only [coerceUTF8, hw]
    rw [coerceUTF8_skip]

/-- The encoding of a sequence of runes comes back unchanged from marshalling and
unmarshalling. -/
theorem coerceUTF8_stringOfRunes (rs : List Nat) :
    coerceUTF8 0 (stringOfRunes rs) = stringOfRunes rs := by
  induction rs with
  | nil => rfl
  | cons r rs ih => simp only [stringOfRunes, coerceUTF8_appendRune, ih]

/-- A valid UTF-8 string comes back unchanged from marshalling and unmarshalling. -/
theorem coerceUTF8_of_valid (s : GoString) (h : ValidUTF8 s) : coerceUTF8 0 s = s := by
  obtain ⟨runes, rfl⟩ := h
  exact coerceUTF8_stringOfRunes runes

/-- The field each member name of a marshalled `UpdateMessageRequest` selects. -/
theorem updateRequest_fieldIndex :
    fieldIndex [ascii "text", ascii "e2e", ascii "reply_no", ascii "quote",
      ascii "attachments"] (ascii "text") = some 0 ∧
    fieldIndex [ascii "text", ascii "e2e", ascii "reply_no", ascii "quote",
      ascii "attachments"] (ascii "e2e") = some 1 ∧
    fieldIndex [ascii "text", ascii "e2e", ascii "reply_no", ascii "quote",
      ascii "attachments"] (ascii "reply_no") = some 2 ∧
    fieldIndex [ascii "text", ascii "e2e", ascii "reply_no", ascii "quote",
      ascii "attachments"] (ascii "quote") = some 3 ∧
    fieldIndex [ascii "text", ascii "e2e", ascii "reply_no", ascii "quote",
      ascii "attachments"] (ascii "attachments") = some 4 := by
  decide

/-- The field each member name of a marshalled `UpdateMessageResponse` selects. -/
theorem updateResponse_fieldIndex :
    fieldIndex [ascii "uuid", ascii "chat_id", ascii "post_no", ascii "ver"]
      (ascii "uuid") = some 0 ∧
    fieldIndex [ascii "uuid", ascii "chat_id", ascii "post_no", ascii "ver"]
      (ascii "chat_id") = some 1 ∧
    fieldIndex [ascii "uuid", ascii "chat_id", ascii "post_no", ascii "ver"]
      (ascii "post_no") = some 2 ∧
    fieldIndex [ascii "uuid", ascii "chat_id", ascii "post_no", ascii "ver"]
      (ascii "ver") = some 3 := by
  decide

/-- Marshalling and unmarshalling an `UpdateMessageRequest` whose reply number is
an `int64`. -/
theorem updateRequest_roundtrip (r : UpdateMessageRequest)
    (hr : ∀ n, r.ReplyNo = some n → fitsInt 64 n = true) :
    unmarshalUpdateRequest (marshalUpdateRequest r) =
      .ok { Text := coerceUTF8 0 r.Text, E2E := r.E2E, ReplyNo := r.ReplyNo,
            Quote := r.Quote.map (coerceUTF8 0),
            Attachments :=
              match r.Attachments with
              | none => none
              | some l => if l.length = 0 then none else some (l.map (coerceUTF8 0)) } := by
  obtain ⟨text, e2e, replyNo, quote, attachments⟩ := r
  obtain ⟨f0, f1, f2, f3, f4⟩ := updateRequest_fieldIndex
  have hnil : coerceUTF8 0 ([] : GoString) = [] := rfl
  have hfit : ∀ n, replyNo = some n → fitsInt 64 n = true := hr
  by_cases ht : text = []
  · subst ht
    cases e2e <;> rcases replyNo with _ | n <;> cases quote <;>
      rcases attachments with _ | (_ | ⟨a, l⟩) <;>
      simp +decide [marshalUpdateRequest, unmarshalUpdateRequest, decodeObject,
        UpdateMessageRequest.setField, jsonString, hnil, decodeString, decodeBoolPtr,
        decodeIntPtr, decodeStringPtr, decodeStrings, Except.map, f0, f1, f2, f3, f4,
        hfit]
  · cases e2e <;> rcases replyNo with _ | n <;> cases quote <;>
      rcases attachments with _ | (_ | ⟨a, l⟩) <;>
      simp +decide [marshalUpdateRequest, unmarshalUpdateRequest, decodeObject,
        UpdateMessageRequest.setField, jsonString, ht, decodeString, decodeBoolPtr,
        decodeIntPtr, decodeStringPtr, decodeStrings, Except.map, f0, f1, f2, f3, f4,
        hfit]

/-- Marshalling and unmarshalling an `UpdateMessageResponse` whose integers are
values of their types. -/
theorem updateResponse_roundtrip (p : UpdateMessageResponse)
    (hc : fitsInt 64 p.ChatID = true) (hn : fitsInt 64 p.PostNo = true)
    (hv : ∀ n, p.Version = some n → fitsInt IntSize n = true) :
    unmarshalUpdateResponse (marshalUpdateResponse p) =
      .ok { UUID := coerceUTF8 0 p.UUID, ChatID := p.ChatID, PostNo := p.PostNo,
            Version := p.Version } := by
  obtain ⟨uuid, chatID, postNo, version⟩ := p
  obtain ⟨f0, f1, f2, f3⟩ := updateResponse_fieldIndex
  have hc' : fitsInt 64 chatID = true := hc
  have hn' : fitsInt 64 postNo = true := hn
  have hfit : ∀ n, version = some n → fitsInt IntSize n = true := hv
  rcases version with _ | v <;>
    simp +decide [marshalUpdateResponse, unmarshalUpdateResponse, decodeObject,
      UpdateMessageResponse.setField, jsonString, decodeString, decodeInt, decodeIntPtr,
      Except.map, f0, f1, f2, f3, hc', hn', hfit]

/-- A non-empty attachment list of valid UTF-8 strings, and a nil one, come back
unchanged from marshalling and unmarshalling. -/
theorem attachments_of_valid (attachments : Option (List GoString)) :
    (∀ l, attachments = some l → l ≠ [] ∧ ∀ a ∈ l, ValidUTF8 a) →
    (match attachments with
      | none => none
      | some l => if l.length = 0 then none else some (l.map (coerceUTF8 0))) =
      attachments := by
  intro ha
  cases attachments with
  | none => rfl
  | some l =>
    obtain ⟨hne, hval⟩ := ha l rfl
    have hlen : ¬ l.length = 0 := length_ne_zero_of_ne_nil l hne
    have hmap : l.map (coerceUTF8 0) = l := by
      conv_rhs => rw [← List.map_id l]
      exact List.map_congr_left (fun a ha' => coerceUTF8_of_valid a (hval a ha'))
    simp only [hlen, if_false, hmap]

/-- C22 as stated fails in two ways: a request whose attachment list is present
but empty comes back from marshalling and unmarshalling with the list absent, and
a request whose text is the byte `FF`, which is no valid UTF-8, comes back with
the text U+FFFD (the bytes `EF BF BD`). -/
theorem updateRequest_roundtrip_not_identity :
    marshalUpdateRequest emptyAttachments = [(ascii "text", .string (ascii "t"))] ∧
    unmarshalUpdateRequest (marshalUpdateRequest emptyAttachments) =
      .ok { Text := ascii "t", E2E := none, ReplyNo := none, Quote := none,
            Attachments := none } ∧
    ({ Text := ascii "t", E2E := none, ReplyNo := none, Quote := none,
       Attachments := none } : UpdateMessageRequest) ≠ emptyAttachments ∧
    unmarshalUpdateRequest (marshalUpdateRequest invalidText) =
      .ok { Text := [0xef, 0xbf, 0xbd], E2E := none, ReplyNo := none, Quote := none,
            Attachments := none } ∧
    ({ Text := [0xef, 0xbf, 0xbd], E2E := none, ReplyNo := none, Quote := none,
       Attachments := none } : UpdateMessageRequest) ≠ invalidText := by
  refine ⟨by decide, rfl, by decide, rfl, by decide⟩

/-- C22, amended: for an `UpdateMessageRequest` and an `UpdateMessageResponse`
whose integers are values of their types (`int64`, `int`), unmarshalling the
JSON produced by marshalling succeeds and reproduces `E2E`, `ReplyNo`, `Quote`
and `Version` in presence and value, so also `false`, `0` and the empty string;
a non-empty `Attachments` is reproduced element for element, and an empty one,
nil or not, comes back absent; every string comes back with the bytes that start
no valid UTF-8 encoding replaced by U+FFFD, and unchanged when it is valid UTF-8.
So a request whose strings are valid UTF-8 and whose attachment list is nil or
non-empty, and a response whose UUID is valid UTF-8, come back equal to
themselves. -/
theorem updateShapes_roundtrip (r : UpdateMessageRequest) (p : UpdateMessageResponse)
    (hr : ∀ n, r.ReplyNo = some n → fitsInt 64 n = true)
    (hc : fitsInt 64 p.ChatID = true) (hn : fitsInt 64 p.PostNo = true)
    (hv : ∀ n, p.Version = some n → fitsInt IntSize n = true) :
    unmarshalUpdateRequest (marshalUpdateRequest r) =
      .ok { Text := coerceUTF8 0 r.Text, E2E := r.E2E, ReplyNo := r.ReplyNo,
            Quote := r.Quote.map (coerceUTF8 0),
            Attachments :=
              match r.Attachments with
              | none => none
              | some l => if l.length = 0 then none else some (l.map (coerceUTF8 0)) } ∧
    unmarshalUpdateResponse (marshalUpdateResponse p) =
      .ok { UUID := coerceUTF8 0 p.UUID, ChatID := p.ChatID, PostNo := p.PostNo,
            Version := p.Version } ∧
    (∀ s : GoString, ValidUTF8 s → coerceUTF8 0 s = s) ∧
    (ValidUTF8 r.Text → (∀ q, r.Quote = some q → ValidUTF8 q) →
      (∀ l, r.Attachments = some l → l ≠ [] ∧ ∀ a ∈ l, ValidUTF8 a) →
      unmarshalUpdateRequest (marshalUpdateRequest r) = .ok r) ∧
    (ValidUTF8 p.UUID → unmarshalUpdateResponse (marshalUpdateResponse p) = .ok p) := by
  refine ⟨updateRequest_roundtrip r hr, updateResponse_roundtrip p hc hn hv,
    coerceUTF8_of_valid, ?_, ?_⟩
  · intro ht hq ha
    rw [updateRequest_roundtrip r hr]
    obtain ⟨text, e2e, replyNo, quote, attachments⟩ := r
    have h1 : coerceUTF8 0 text = text := coerceUTF8_of_valid text ht
    have h2 : quote.map (coerceUTF8 0) = quote := by
      cases quote with
      | none => rfl
      | some q => simp only [Option.map_some', coerceUTF8_of_valid q (hq q rfl)]
    simp only [h1, h2]
    exact congrArg
      (fun att : Option (List GoString) =>
        (Except.ok { Text := text, E2E := e2e, ReplyNo := replyNo, Quote := quote,
                     Attachments := att } : Except GoError UpdateMessageRequest))
      (attachments_of_valid attachments ha)
  · intro hu
    rw [updateResponse_roundtrip p hc hn hv]
    obtain ⟨uuid, chatID, postNo, version⟩ := p
    have h1 : coerceUTF8 0 uuid = uuid := coerceUTF8_of_valid uuid hu
    simp only [h1]

/-- Witness of the amended C22: the request and the response of the marshalling
tests come back equal to themselves. -/
theorem updateShapes_roundtrip_witness :
    unmarshalUpdateRequest (marshalUpdateRequest
        ⟨ascii "Test message", some true, some 123, some (ascii "Original message"),
          some [ascii "guid1", ascii "guid2"]⟩) =
      .ok ⟨ascii "Test message", some true, some 123, some (ascii "Original message"),
          some [ascii "guid1", ascii "guid2"]⟩ ∧
    unmarshalUpdateResponse (marshalUpdateResponse ⟨ascii "test-uuid", 123, 456, some 2⟩) =
      .ok ⟨ascii "test-uuid", 123, 456, some 2⟩ :=
  have h := updateShapes_roundtrip
    ⟨ascii "Test message", some true, some 123, some (ascii "Original message"),
      some [ascii "guid1", ascii "guid2"]⟩
    ⟨ascii "test-uuid", 123, 456, some 2⟩
    (fun n hn => by
      have h123 : n = 123 := (Option.some.inj hn).symm
      subst h123
      decide)
    (by decide) (by decide)
    (fun n hn => by
      have h2 : n = 2 := (Option.some.inj hn).symm
      subst h2
      decide)
  ⟨h.2.2.2.1 ⟨[84, 101, 115, 116, 32, 109, 101, 115, 115, 97, 103, 101], by decide⟩
      (fun q hq => by
        have hq' : q = ascii "Original message" := (Option.some.inj hq).symm
        subst hq'
        exact ⟨[79, 114, 105, 103, 105, 110, 97, 108, 32, 109, 101, 115, 115, 97, 103, 101],
          by decide⟩)
      (fun l hl => by
        have hl' : l = [ascii "guid1", ascii "guid2"] := (Option.some.inj hl).symm
        subst hl'
        refine ⟨by decide, ?_⟩
        intro a ha
        simp only [List.mem_cons, List.mem_singleton, List.not_mem_nil, or_false] at ha
        rcases ha with rfl | rfl
        · exact ⟨[103, 117, 105, 100, 49], by decide⟩
        · exact ⟨[103, 117, 105, 100, 50], by decide⟩),
    h.2.2.2.2 ⟨[116, 101, 115, 116, 45, 117, 117, 105, 100], by decide⟩⟩

/-! ## Theorems: command tokens -/

/-- The pieces of a split contain no separator. -/
theorem splitOnP_no_sep {β : Type} (p : β → Bool) (l : List β) :
    ∀ w ∈ l.splitOnP p, ∀ x ∈ w, ¬ p x = true := by
  induction l with
  | nil =>
    intro w hw x hx
    simp only [List.splitOnP_nil, List.mem_singleton] at hw
    rw [hw] at hx
    simp at hx
  | cons a l ih =>
    intro w hw x hx
    rw [List.splitOnP_cons] at hw
    by_cases hp : p a = true
    · rw [if_pos hp] at hw
      rcases List.mem_cons.mp hw with hw | hw
      · rw [hw] at hx; simp at hx
      · exact ih w hw x hx
    · rw [if_neg hp] at hw
      cases hs : l.splitOnP p with
      | nil => rw [hs] at hw; simp [List.modifyHead] at hw
      | cons h t =>
        rw [hs] at hw ih
        simp only [List.modifyHead, List.mem_cons] at hw
        rcases hw with hw | hw
        · rw [hw] at hx
          rcases List.mem_cons.mp hx with hx | hx
          · rw [hx]; exact hp
          · exact ih h (List.mem_cons_self _ _) x hx
        · exact ih w (List.mem_cons_of_mem _ hw) x hx

/-- A field is non-empty and free of whitespace. -/
theorem fieldsSpec_mem (text w : List Char) (hw : w ∈ fieldsSpec text) :
    w ≠ [] ∧ ∀ ch ∈ w, ¬ isCommandSpace ch = true := by
  unfold fieldsSpec at hw
  obtain ⟨hmem, hne⟩ := List.mem_filter.mp hw
  refine ⟨?_, splitOnP_no_sep isCommandSpace text w hmem⟩
  intro h
  rw [h] at hne
  simp at hne

/-- C27: on a text for which `IsCommand` holds, `splitCommand` returns a non-empty
list, so the `len(parts) == 0` branch of `GetCommand` is not taken; the command
name is non-empty and begins with `/`; and no token returned, command name or
argument, is empty or contains a space, a tab or a newline. -/
theorem command_tokens_invariant (r : BotRequest) (h : r.IsCommand = true) :
    splitCommand r.Text ≠ [] ∧
    r.GetCommand = ((splitCommand r.Text).headD [], (splitCommand r.Text).tail) ∧
    r.GetCommand.1 ≠ [] ∧
    r.GetCommand.1.head? = some '/' ∧
    (∀ w ∈ r.GetCommand.1 :: r.GetCommand.2,
      w ≠ [] ∧ ∀ ch ∈ w, ch ≠ ' ' ∧ ch ≠ '\t' ∧ ch ≠ '\n') := by
  cases ht : r.Text with
  | nil => simp [BotRequest.IsCommand, ht] at h
  | cons c t =>
    have hc : c = '/' := by
      simp only [BotRequest.IsCommand, ht] at h
      simpa using h
    obtain ⟨rest, hrest⟩ := fieldsSpec_cons_of_not_space c t (by rw [hc]; decide)
    have hsplit : splitCommand (c :: t) =
        (c :: t).takeWhile (fun x => !isCommandSpace x) :: rest := by
      rw [splitCommand_eq_fieldsSpec, hrest]
    have hget : r.GetCommand =
        ((c :: t).takeWhile (fun x => !isCommandSpace x), rest) := by
      unfold BotRequest.GetCommand
      rw [h, ht, hsplit]
      rfl
    have hfirst : (c :: t).takeWhile (fun x => !isCommandSpace x) =
        c :: t.takeWhile (fun x => !isCommandSpace x) := by
      rw [List.takeWhile_cons, hc]
      simp [isCommandSpace]
    refine ⟨by rw [hsplit]; simp, by rw [hget, hsplit]; rfl, ?_, ?_, ?_⟩
    · rw [hget]
      simp only
      rw [hfirst]
      simp
    · rw [hget]
      simp only
      rw [hfirst, hc]
      rfl
    · intro w hw
      rw [hget] at hw
      simp only at hw
      have hmem : w ∈ fieldsSpec (c :: t) := by rw [hrest]; exact hw
      obtain ⟨hne, hfree⟩ := fieldsSpec_mem (c :: t) w hmem
      refine ⟨hne, ?_⟩
      intro ch hch
      have hns := hfree ch hch
      rw [isCommandSpace_iff] at hns
      refine ⟨fun e => hns (Or.inl e), fun e => hns (Or.inr (Or.inr e)),
        fun e => hns (Or.inr (Or.inl e))⟩

/-- Witness of C27 at the request `/start some args`. -/
theorem command_tokens_invariant_witness :
    splitCommand startRequest.Text ≠ [] ∧
    startRequest.GetCommand =
      ((splitCommand startRequest.Text).headD [], (splitCommand startRequest.Text).tail) ∧
    startRequest.GetCommand.1 ≠ [] ∧
    startRequest.GetCommand.1.head? = some '/' ∧
    (∀ w ∈ startRequest.GetCommand.1 :: startRequest.GetCommand.2,
      w ≠ [] ∧ ∀ ch ∈ w, ch ≠ ' ' ∧ ch ≠ '\t' ∧ ch ≠ '\n') :=
  command_tokens_invariant startRequest (by decide)

/-! ## Theorems: classification of not-found errors -/

/-- Where a contiguous sublist of a concatenation lies: in the first part, in
the second, or across the seam. -/
theorem infix_append_cases {β : Type} (M A B : List β) (h : M <:+: A ++ B) :
    M <:+: A ∨ M <:+: B ∨
      ∃ i, 0 < i ∧ i < M.length ∧ M.take i <:+ A ∧ M.drop i <+: B := by
  obtain ⟨s, t, hst⟩ := h
  rw [List.append_assoc] at hst
  rcases List.append_eq_append_iff.mp hst with ⟨a', hA, hMt⟩ | ⟨c', hs, hB⟩
  · rcases List.append_eq_append_iff.mp hMt with ⟨x, ha', _⟩ | ⟨y, hM, hB⟩
    · left
      refine ⟨s, x, ?_⟩
      rw [hA, ha']
      simp
    · by_cases hy : y = []
      · left
        rw [hy, List.append_nil] at hM
        exact ⟨s, [], by rw [hA, hM]; simp⟩
      · by_cases ha : a' = []
        · right; left
          rw [ha, List.nil_append] at hM
          exact ⟨[], t, by rw [hB, hM]; simp⟩
        · right; right
          refine ⟨a'.length, List.length_pos.mpr ha, ?_, ?_, ?_⟩
          · rw [hM, List.length_append]
            have := List.length_pos.mpr hy
            omega
          · rw [hM, List.take_left]
            exact ⟨s, hA.symm⟩
          · rw [hM, List.drop_left]
            exact ⟨t, hB.symm⟩
  · right; left
    exact ⟨c', t, by rw [hB]; simp⟩

/-- A marker that occurs neither in the fixed text before nor in the fixed text
after a key, nor across the seams, occurs in the whole message exactly when it
occurs in the key. -/
theorem infix_wrapped_iff (P S M n : GoString) (hP1 : ¬ M <:+: P)
    (hP2 : ∀ i < M.length, 0 < i → ¬ M.take i <:+ P) (hS1 : ¬ M <:+: S)
    (hS2 : ∀ i < M.length, 0 < i → ¬ M.drop i <+: S) :
    M <:+: P ++ n ++ S ↔ M <:+: n := by
  constructor
  · intro h
    rw [List.append_assoc] at h
    rcases infix_append_cases M P (n ++ S) h with h | h | ⟨i, h0, hi, hsuf, _⟩
    · exact absurd h hP1
    · rcases infix_append_cases M n S h with h | h | ⟨i, h0, hi, _, hpre⟩
      · exact h
      · exact absurd h hS1
      · exact absurd hpre (hS2 i hi h0)
    · exact absurd hsuf (hP2 i hi h0)
  · rintro ⟨s, t, hst⟩
    exact ⟨P ++ s, t ++ S, by rw [← hst]; simp⟩

/-- A message that ends with ` not found` is a not-found error. -/
theorem isNotFound_of_suffix (pre : GoString) :
    IsNotFoundError (some (pre ++ ascii " not found")) = true := by
  simp only [IsNotFoundError]
  exact contains_not_found pre

/-- Classification of a message `before ++ key ++ " not found"` whose fixed text
`before` is one of the two used by the not-found errors below. -/
theorem wrapped_classification (P n : GoString)
    (hP : P = ascii "user with unique_name " ∨ P = ascii "chat with title ") :
    IsNotFoundError (some (P ++ n ++ ascii " not found")) = true ∧
    (IsAccessDeniedError (some (P ++ n ++ ascii " not found")) = true ↔
      ascii "access_deny" <:+: n) ∧
    (IsValidationError (some (P ++ n ++ ascii " not found")) = true ↔
      (ascii "validation error" <:+: n ∨ ascii "tamtam_response_api" <:+: n)) := by
  refine ⟨isNotFound_of_suffix _, ?_, ?_⟩
  · simp only [IsAccessDeniedError, stringsContains_iff]
    rcases hP with hP | hP <;> subst hP <;>
      exact infix_wrapped_iff _ _ _ n (by decide) (by decide) (by decide) (by decide)
  · simp only [IsValidationError, Bool.or_eq_true, stringsContains_iff]
    rcases hP with hP | hP <;> subst hP
    · rw [infix_wrapped_iff _ _ (ascii "validation error") n (by decide) (by decide)
        (by decide) (by decide),
        infix_wrapped_iff _ _ (ascii "tamtam_response_api") n (by decide) (by decide)
        (by decide) (by decide)]
    · rw [infix_wrapped_iff _ _ (ascii "validation error") n (by decide) (by decide)
        (by decide) (by decide),
        infix_wrapped_iff _ _ (ascii "tamtam_response_api") n (by decide) (by decide)
        (by decide) (by decide)]

/-- The title loop finds nothing exactly when no chat has the title. -/
theorem firstWithTitle_none (title : GoString) (chats : List Chat)
    (h : ∀ ch ∈ chats, ch.Title ≠ title) : firstWithTitle title chats = none := by
  induction chats with
  | nil => rfl
  | cons ch rest ih =>
    unfold firstWithTitle
    rw [if_neg (h ch (List.mem_cons_self _ _))]
    exact ih (fun x hx => h x (List.mem_cons_of_mem _ hx))

/-- C28 as stated fails: for the unique name `access_deny` and an empty result
set, the error of `GetUserByUniqueName` satisfies `IsAccessDeniedError`; for the
title `validation error`, which no listed chat has, the error of
`FindChatByTitle` satisfies `IsValidationError`. -/
theorem notFound_depends_on_key :
    demoClient.GetUserByUniqueName (demoEnv (fun _ => .response 200 []))
        (ascii "access_deny") [] =
      (.error (ascii "user with unique_name access_deny not found"),
        [batchRequest demoClient (ascii "/core/user") (ascii "unames")
          (ascii "access_deny")]) ∧
    IsAccessDeniedError (some (ascii "user with unique_name access_deny not found")) =
      true ∧
    (demoClient.FindChatByTitle (demoEnv listingAnswer) demoCodec
        (ascii "validation error") []).1 =
      .error (ascii "chat with title " ++ [0x22] ++ ascii "validation error" ++ [0x22] ++
        ascii " not found") ∧
    IsValidationError (some (ascii "chat with title " ++ [0x22] ++
      ascii "validation error" ++ [0x22] ++ ascii " not found")) = true := by
  refine ⟨rfl, by decide, rfl, by decide⟩

/-- C28, amended: for every unique name, the error of `GetUserByUniqueName` on an
empty result set satisfies `IsNotFoundError`; it satisfies `IsAccessDeniedError`
exactly when the name contains `access_deny`, and `IsValidationError` exactly
when the name contains `validation error` or `tamtam_response_api`. Likewise for
every title that no chat has and the error of `FindChatByTitle`, with the title
as quoted by `%q` in place of the name. -/
theorem notFound_classification (env : Env) (codec : Codec) (c : Client)
    (log log' : List Request) (name title : GoString) (chats : List Chat) :
    (c.GetUsersByUniqueNames env [name] log = (.ok [], log') →
      ∃ err, c.GetUserByUniqueName env name log = (.error err, log') ∧
        IsNotFoundError (some err) = true ∧
        (IsAccessDeniedError (some err) = true ↔ ascii "access_deny" <:+: name) ∧
        (IsValidationError (some err) = true ↔
          (ascii "validation error" <:+: name ∨ ascii "tamtam_response_api" <:+: name))) ∧
    (c.GetAllChats env log = (.ok chats, log') → (∀ ch ∈ chats, ch.Title ≠ title) →
      ∃ err, c.FindChatByTitle env codec title log = (.error err, log') ∧
        IsNotFoundError (some err) = true ∧
        (IsAccessDeniedError (some err) = true ↔
          ascii "access_deny" <:+: codec.quote title) ∧
        (IsValidationError (some err) = true ↔
          (ascii "validation error" <:+: codec.quote title ∨
            ascii "tamtam_response_api" <:+: codec.quote title))) := by
  refine ⟨?_, ?_⟩
  · intro h
    refine ⟨ascii "user with unique_name " ++ name ++ ascii " not found", ?_,
      wrapped_classification _ name (Or.inl rfl)⟩
    unfold Client.GetUserByUniqueName
    rw [h]
  · intro h hnone
    refine ⟨ascii "chat with title " ++ codec.quote title ++ ascii " not found", ?_,
      wrapped_classification _ (codec.quote title) (Or.inr rfl)⟩
    unfold Client.FindChatByTitle
    rw [h]
    simp only [firstWithTitle_none title chats hnone]

/-- Witness of the amended C28 at the unique name `bob`. -/
theorem notFound_classification_witness :
    ∃ err, demoClient.GetUserByUniqueName (demoEnv (fun _ => .response 200 []))
        (ascii "bob") [] =
        (.error err,
          [batchRequest demoClient (ascii "/core/user") (ascii "unames") (ascii "bob")]) ∧
      IsNotFoundError (some err) = true ∧
      (IsAccessDeniedError (some err) = true ↔ ascii "access_deny" <:+: ascii "bob") ∧
      (IsValidationError (some err) = true ↔
        (ascii "validation error" <:+: ascii "bob" ∨
          ascii "tamtam_response_api" <:+: ascii "bob")) :=
  (notFound_classification (demoEnv (fun _ => .response 200 [])) demoCodec demoClient []
    _ (ascii "bob") [] []).1 rfl


end Verbosity
